import Mathlib

/-!
The OperandBindInfo controller

A shallow embedding of `pkg/controller/operandbindinfo/operandbindinfo_controller.go`:
the request binding extractor (`getBindingInfofromRequest`), the two resource
synchronizers (`copySecret`, `copyConfigmap`) and the orchestrator (`Reconcile`),
run against an in-memory object store.

Conventions of the embedding

* A Go `error` result is an `Option`: `none` is `nil`.
* A stored object is addressed by its `NamespacedName`; the stored value holds
  everything but the name and the namespace, which are the key.
* The controller talks to the cluster only through the client; the client is an
  in-memory store whose calls can additionally be made to fail by a fault
  schedule (`Env.faults`), indexed by the number of calls issued so far and by
  the call itself.
* `klog` output and recorder events have no influence on control flow and are
  left out.
-/

namespace Odlm

/-! ## API types -/

/-- Modelled from the spec: the only scope literal the controller acts on
(`operatorv1alpha1.ScopePublic`, declared outside the controller file). -/
def ScopePublic : String := "public"

/-- Modelled from the spec: phase written when a pass collected an error
(`operatorv1alpha1.BindInfoFailed`). -/
def BindInfoFailed : String := "Failed"

/-- Modelled from the spec: phase written when a pass collected no error
(`operatorv1alpha1.BindInfoCompleted`). -/
def BindInfoCompleted : String := "Completed"

/-- Modelled from the spec: a Binding declaration `{scope, secret, configmap}`
(`operatorv1alpha1.Binding`). -/
structure Binding where
  Scope : String
  Secret : String
  Configmap : String
deriving DecidableEq, Repr

/-- Modelled from the spec: an operand entry of a Request, with its ordered list
of Binding overrides (`operatorv1alpha1.Operand`). -/
structure Operand where
  Name : String
  Bindings : List Binding
deriving DecidableEq, Repr

/-- Modelled from the spec: one entry of `OperandRequest.Spec.Requests`
(`operatorv1alpha1.Request`). -/
structure Request where
  Registry : String
  Operands : List Operand
deriving DecidableEq, Repr

/-- Modelled from the spec: `OperandRequestSpec`. -/
structure OperandRequestSpec where
  Requests : List Request
deriving DecidableEq, Repr

/-- Modelled from the spec: the Request resource as held in memory by the
controller (`operatorv1alpha1.OperandRequest`). -/
structure OperandRequest where
  Name : String
  Namespace : String
  Spec : OperandRequestSpec
deriving DecidableEq, Repr

/-- Modelled from the spec: `OperandBindInfoSpec`. -/
structure OperandBindInfoSpec where
  Operand : String
  Registry : String
  RegistryNamespace : String
  Bindings : List Binding
deriving DecidableEq, Repr

/-- Modelled from the spec: `OperandBindInfoStatus`: the phase and the record of
the last reconciled namespaces. -/
structure OperandBindInfoStatus where
  Phase : String
  RequestNamespaces : List String
deriving DecidableEq, Repr

/-- Modelled from the spec: the BindInfo resource as held in memory by the
controller (`operatorv1alpha1.OperandBindInfo`). -/
structure OperandBindInfo where
  Name : String
  Namespace : String
  Labels : List (String × String)
  Spec : OperandBindInfoSpec
  Status : OperandBindInfoStatus
deriving DecidableEq, Repr

/-! ## Request binding extractor -/

/-- The innermost loop of `getBindingInfofromRequest` (`for _, bindinfo := range
operand.Bindings`): `some` is the `return` inside the loop, `none` is falling
out of the loop. -/
def scanBindings : List Binding → Option (String × String)
  | [] => none
  | bindinfo :: rest =>
    if bindinfo.Scope = ScopePublic then some (bindinfo.Secret, bindinfo.Configmap)
    else scanBindings rest

/-- The middle loop of `getBindingInfofromRequest` (`for _, operand := range
req.Operands`). -/
def scanOperands (operandName : String) : List Operand → Option (String × String)
  | [] => none
  | operand :: rest =>
    if operand.Name ≠ operandName then scanOperands operandName rest
    else if operand.Bindings.length = 0 then scanOperands operandName rest
    else
      match scanBindings operand.Bindings with
      | some r => some r
      | none => scanOperands operandName rest

/-- The outer loop of `getBindingInfofromRequest` (`for _, req := range
requestInstance.Spec.Requests`). -/
def scanRequests (registry operandName : String) : List Request → Option (String × String)
  | [] => none
  | req :: rest =>
    if req.Registry ≠ registry then scanRequests registry operandName rest
    else
      match scanOperands operandName req.Operands with
      | some r => some r
      | none => scanRequests registry operandName rest

/-- The function `getBindingInfofromRequest`: the secret and configmap names
declared by the first public binding of the request, or two empty strings. -/
def getBindingInfofromRequest (bindInfoInstance : OperandBindInfo)
    (requestInstance : OperandRequest) : String × String :=
  match scanRequests bindInfoInstance.Spec.Registry bindInfoInstance.Spec.Operand
      requestInstance.Spec.Requests with
  | some r => r
  | none => ("", "")

/-- The bindings a request declares for the operand and registry of a BindInfo,
in declared order: those of the operands named `Spec.Operand` inside the request
entries whose registry is `Spec.Registry`. -/
def matchingBindings (b : OperandBindInfo) (q : OperandRequest) : List Binding :=
  (q.Spec.Requests.filter (fun r => r.Registry = b.Spec.Registry)).flatMap
    (fun r => (r.Operands.filter (fun o => o.Name = b.Spec.Operand)).flatMap
      (fun o => o.Bindings))

/-- The first public binding, in declared order, among the matching bindings. -/
def firstPublic (b : OperandBindInfo) (q : OperandRequest) : Option Binding :=
  (matchingBindings b q).find? (fun s => s.Scope = ScopePublic)

/-! ## Objects of the store -/

/-- Modelled from the spec: the key of a stored object (`types.NamespacedName`). -/
structure NamespacedName where
  Namespace : String
  Name : String
deriving DecidableEq, Repr

/-- Modelled from the spec: an ownership edge (`metav1.OwnerReference`): kind and
name of the owner, and whether the owner is the controlling one. -/
structure OwnerReference where
  Kind : String
  Name : String
  Controller : Bool
deriving DecidableEq, Repr

/-- Modelled from the spec: a secret-like object (`corev1.Secret`): label set,
ownership edges and the payload (type, data, string-data). -/
structure Secret where
  Labels : List (String × String)
  OwnerReferences : List OwnerReference
  SecretType : String
  Data : List (String × String)
  StringData : List (String × String)
deriving DecidableEq, Repr

/-- Modelled from the spec: a config-like object (`corev1.ConfigMap`): label set,
ownership edges and the payload (data). -/
structure ConfigMap where
  Labels : List (String × String)
  OwnerReferences : List OwnerReference
  Data : List (String × String)
deriving DecidableEq, Repr

/-- Modelled from the spec: a consumer recorded by the Registry: the name and the
namespace of its Request (`operatorv1alpha1.ReconcileRequest`). -/
structure ReconcileRequest where
  Name : String
  Namespace : String
deriving DecidableEq, Repr

/-- Modelled from the spec: an operand of the Registry catalog with the namespace
its resources live in (`operatorv1alpha1.Operator`). -/
structure Operator where
  Name : String
  Namespace : String
deriving DecidableEq, Repr

/-- Modelled from the spec: the per-operand status of the Registry
(`operatorv1alpha1.OperatorStatus`). -/
structure OperatorStatus where
  ReconcileRequests : List ReconcileRequest
deriving DecidableEq, Repr

/-- Modelled from the spec: the Registry resource (`operatorv1alpha1.OperandRegistry`):
the catalog of operands and, per operand name, the recorded consumers. The status
map is total, a missing key being the zero value as for a Go map. -/
structure OperandRegistry where
  Operators : List Operator
  OperatorsStatus : String → OperatorStatus

/-- Modelled from the spec: `OperandRegistry.GetOperator`, the catalog entry of an
operand; the namespace is empty when the Registry does not know the operand. -/
def OperandRegistry.GetOperator (r : OperandRegistry) (name : String) : Operator :=
  match r.Operators.find? (fun o => o.Name = name) with
  | some o => o
  | none => { Name := "", Namespace := "" }

/-- The stored part of a BindInfo: everything but its key. -/
structure StoredBindInfo where
  Labels : List (String × String)
  Spec : OperandBindInfoSpec
  Status : OperandBindInfoStatus
deriving DecidableEq, Repr

/-- The BindInfo read at a key. -/
def StoredBindInfo.toInstance (key : NamespacedName) (s : StoredBindInfo) : OperandBindInfo :=
  { Name := key.Name, Namespace := key.Namespace, Labels := s.Labels, Spec := s.Spec,
    Status := s.Status }

/-! ## Errors -/

/-- Failures of the collaborators: the two structured conditions the controller
discriminates (`k8serr.IsNotFound`, `k8serr.IsAlreadyExists`), the refusal of
`SetControllerReference` on an object controlled by somebody else, the error built
by `Reconcile` when the operand has no namespace, and any other failure. -/
inductive Err where
  | NotFound
  | AlreadyExists
  | AlreadyOwned
  | OperatorNotFound
  | Other (code : Nat)
deriving DecidableEq, Repr

/-- Modelled from the spec: the Aggregator (`util.MultiErr`): the errors collected
in one pass. -/
structure MultiErr where
  Errors : List Err
deriving DecidableEq, Repr

/-- Modelled from the spec: `MultiErr.Add` records one more error. -/
def MultiErr.Add (m : MultiErr) (e : Err) : MultiErr :=
  { Errors := m.Errors ++ [e] }

/-- A non-nil `error` returned by `Reconcile`: a single failure or the combined one. -/
inductive Failure where
  | single (e : Err)
  | combined (merr : MultiErr)
deriving DecidableEq, Repr

/-- Modelled from the spec: `client.IgnoreNotFound`: a not-found failure becomes
`nil`, any other failure is kept. -/
def IgnoreNotFound (e : Err) : Option Failure :=
  if e = Err.NotFound then none else some (Failure.single e)

/-! ## The cluster -/

/-- The calls to collaborators that can fail. -/
inductive Verb where
  | get
  | create
  | update
  | updateStatus
  | setControllerReference
  | setOwnerReference
deriving DecidableEq, Repr

/-- The kinds of object the controller handles. -/
inductive Kind where
  | bindInfo
  | registry
  | request
  | secret
  | configMap
deriving DecidableEq, Repr

/-- One call to a collaborator: what is done, to which kind, at which key. -/
structure Op where
  verb : Verb
  kind : Kind
  key : NamespacedName
deriving DecidableEq, Repr

/-- One invocation of a synchronizer, with its four string arguments. -/
structure SyncCall where
  kind : Kind
  sourceName : String
  targetName : String
  sourceNs : String
  targetNs : String
deriving DecidableEq, Repr

/-- The object store: the stored objects by kind and key. -/
structure Store where
  bindInfos : NamespacedName → Option StoredBindInfo
  registries : NamespacedName → Option OperandRegistry
  requests : NamespacedName → Option OperandRequestSpec
  secrets : NamespacedName → Option Secret
  configMaps : NamespacedName → Option ConfigMap

/-- The store with the BindInfo at a key replaced. -/
def Store.putBindInfo (st : Store) (key : NamespacedName) (b : StoredBindInfo) : Store :=
  { st with bindInfos := Function.update st.bindInfos key (some b) }

/-- The store with the secret at a key replaced. -/
def Store.putSecret (st : Store) (key : NamespacedName) (s : Secret) : Store :=
  { st with secrets := Function.update st.secrets key (some s) }

/-- The store with the configmap at a key replaced. -/
def Store.putConfigMap (st : Store) (key : NamespacedName) (c : ConfigMap) : Store :=
  { st with configMaps := Function.update st.configMaps key (some c) }

/-- The state of the cluster seen by a reconcile pass: the object store, the number
of collaborator calls issued so far, and the record of the synchronizer
invocations (an observation: nothing reads it). -/
structure World where
  store : Store
  clock : Nat
  syncCalls : List SyncCall

/-- What the controller is given besides the store. `faults` can make the call
issued at a given time fail with a given error (`none`: the call is answered by
the store). The three helpers are the defaulting, labeling and status
initialisation of the BindInfo, which live outside the controller file.

Modelled from the spec: the defaulting/labeling helper is a black box that mutates
the BindInfo in place; `SetDefaultsRequestSpec` rewrites the spec (knowing the
namespace of the object), `AddLabels` the labels (knowing the spec) and
`InitBindInfoStatus` the status. -/
structure Env where
  faults : Nat → Op → Option Err
  SetDefaultsRequestSpec : String → OperandBindInfoSpec → OperandBindInfoSpec
  AddLabels : OperandBindInfoSpec → List (String × String) → List (String × String)
  InitBindInfoStatus : OperandBindInfoStatus → OperandBindInfoStatus

/-- One collaborator call has been issued. -/
def World.tick (w : World) : World :=
  { w with clock := w.clock + 1 }

/-- A synchronizer invocation is recorded. -/
def World.record (w : World) (c : SyncCall) : World :=
  { w with syncCalls := w.syncCalls ++ [c] }

/-! ## The object store client

Modelled from the spec (section 6): `Get` answers the object or not-found,
`Create` stores a new object or answers already-exists, `Update` replaces an
existing object, `UpdateStatus` replaces the status of an existing object. -/

/-- Modelled from the spec: `client.Get` of a BindInfo. -/
def getBindInfo (env : Env) (key : NamespacedName) (w : World) :
    Except Err OperandBindInfo × World :=
  match env.faults w.clock { verb := .get, kind := .bindInfo, key := key } with
  | some e => (.error e, w.tick)
  | none =>
    match w.store.bindInfos key with
    | none => (.error .NotFound, w.tick)
    | some s => (.ok (s.toInstance key), w.tick)

/-- Modelled from the spec: `client.Update` of a BindInfo: the labels and the spec
of the stored object are replaced. -/
def updateBindInfo (env : Env) (b : OperandBindInfo) (w : World) : Option Err × World :=
  match env.faults w.clock
      { verb := .update, kind := .bindInfo, key := ⟨b.Namespace, b.Name⟩ } with
  | some e => (some e, w.tick)
  | none =>
    match w.store.bindInfos ⟨b.Namespace, b.Name⟩ with
    | none => (some .NotFound, w.tick)
    | some s =>
      (none, { w.tick with
        store := w.store.putBindInfo ⟨b.Namespace, b.Name⟩
          { s with Labels := b.Labels, Spec := b.Spec } })

/-- Modelled from the spec: `client.Status().Update` of a BindInfo: the status of
the stored object is replaced. -/
def updateBindInfoStatus (env : Env) (b : OperandBindInfo) (w : World) :
    Option Err × World :=
  match env.faults w.clock
      { verb := .updateStatus, kind := .bindInfo, key := ⟨b.Namespace, b.Name⟩ } with
  | some e => (some e, w.tick)
  | none =>
    match w.store.bindInfos ⟨b.Namespace, b.Name⟩ with
    | none => (some .NotFound, w.tick)
    | some s =>
      (none, { w.tick with
        store := w.store.putBindInfo ⟨b.Namespace, b.Name⟩ { s with Status := b.Status } })

/-- Modelled from the spec: `client.Get` of a Registry. -/
def getRegistry (env : Env) (key : NamespacedName) (w : World) :
    Except Err OperandRegistry × World :=
  match env.faults w.clock { verb := .get, kind := .registry, key := key } with
  | some e => (.error e, w.tick)
  | none =>
    match w.store.registries key with
    | none => (.error .NotFound, w.tick)
    | some r => (.ok r, w.tick)

/-- Modelled from the spec: `client.Get` of a Request. -/
def getRequest (env : Env) (key : NamespacedName) (w : World) :
    Except Err OperandRequest × World :=
  match env.faults w.clock { verb := .get, kind := .request, key := key } with
  | some e => (.error e, w.tick)
  | none =>
    match w.store.requests key with
    | none => (.error .NotFound, w.tick)
    | some q => (.ok { Name := key.Name, Namespace := key.Namespace, Spec := q }, w.tick)

/-- Modelled from the spec: `client.Get` of a secret. -/
def getSecret (env : Env) (key : NamespacedName) (w : World) :
    Except Err Secret × World :=
  match env.faults w.clock { verb := .get, kind := .secret, key := key } with
  | some e => (.error e, w.tick)
  | none =>
    match w.store.secrets key with
    | none => (.error .NotFound, w.tick)
    | some s => (.ok s, w.tick)

/-- Modelled from the spec: `client.Create` of a secret. -/
def createSecret (env : Env) (key : NamespacedName) (s : Secret) (w : World) :
    Option Err × World :=
  match env.faults w.clock { verb := .create, kind := .secret, key := key } with
  | some e => (some e, w.tick)
  | none =>
    match w.store.secrets key with
    | some _ => (some .AlreadyExists, w.tick)
    | none => (none, { w.tick with store := w.store.putSecret key s })

/-- Modelled from the spec: `client.Update` of a secret. -/
def updateSecret (env : Env) (key : NamespacedName) (s : Secret) (w : World) :
    Option Err × World :=
  match env.faults w.clock { verb := .update, kind := .secret, key := key } with
  | some e => (some e, w.tick)
  | none =>
    match w.store.secrets key with
    | none => (some .NotFound, w.tick)
    | some _ => (none, { w.tick with store := w.store.putSecret key s })

/-- Modelled from the spec: `client.Get` of a configmap. -/
def getConfigMap (env : Env) (key : NamespacedName) (w : World) :
    Except Err ConfigMap × World :=
  match env.faults w.clock { verb := .get, kind := .configMap, key := key } with
  | some e => (.error e, w.tick)
  | none =>
    match w.store.configMaps key with
    | none => (.error .NotFound, w.tick)
    | some s => (.ok s, w.tick)

/-- Modelled from the spec: `client.Create` of a configmap. -/
def createConfigMap (env : Env) (key : NamespacedName) (s : ConfigMap) (w : World) :
    Option Err × World :=
  match env.faults w.clock { verb := .create, kind := .configMap, key := key } with
  | some e => (some e, w.tick)
  | none =>
    match w.store.configMaps key with
    | some _ => (some .AlreadyExists, w.tick)
    | none => (none, { w.tick with store := w.store.putConfigMap key s })

/-- Modelled from the spec: `client.Update` of a configmap. -/
def updateConfigMap (env : Env) (key : NamespacedName) (s : ConfigMap) (w : World) :
    Option Err × World :=
  match env.faults w.clock { verb := .update, kind := .configMap, key := key } with
  | some e => (some e, w.tick)
  | none =>
    match w.store.configMaps key with
    | none => (some .NotFound, w.tick)
    | some _ => (none, { w.tick with store := w.store.putConfigMap key s })

/-! ## Ownership edges -/

/-- Modelled from the spec: two ownership edges name the same owner. -/
def referSameObject (a b : OwnerReference) : Bool :=
  a.Kind = b.Kind && a.Name = b.Name

/-- Modelled from the spec: an edge replaces the first edge naming the same owner,
or is added to the end of the list. -/
def upsertOwnerRef (ref : OwnerReference) : List OwnerReference → List OwnerReference
  | [] => [ref]
  | r :: rest => if referSameObject r ref then ref :: rest else r :: upsertOwnerRef ref rest

/-- The controlling edge to a Request. -/
def requestRef (requestInstance : OperandRequest) : OwnerReference :=
  { Kind := "OperandRequest", Name := requestInstance.Name, Controller := true }

/-- The non-controlling edge to a BindInfo. -/
def bindInfoRef (bindInfoInstance : OperandBindInfo) : OwnerReference :=
  { Kind := "OperandBindInfo", Name := bindInfoInstance.Name, Controller := false }

/-- Modelled from the spec: `controllerutil.SetControllerReference`: the owner
becomes the controlling owner of the object, unless the object is already
controlled by another owner. -/
def SetControllerReference (env : Env) (requestInstance : OperandRequest) (kind : Kind)
    (key : NamespacedName) (owners : List OwnerReference) (w : World) :
    Except Err (List OwnerReference) × World :=
  match env.faults w.clock { verb := .setControllerReference, kind := kind, key := key } with
  | some e => (.error e, w.tick)
  | none =>
    match owners.find? (fun r => r.Controller) with
    | some existing =>
      if referSameObject existing (requestRef requestInstance) then
        (.ok (upsertOwnerRef (requestRef requestInstance) owners), w.tick)
      else (.error .AlreadyOwned, w.tick)
    | none => (.ok (upsertOwnerRef (requestRef requestInstance) owners), w.tick)

/-- Modelled from the spec: `controllerutil.SetOwnerReference`: the object receives
a non-controlling edge to the owner. -/
def SetOwnerReference (env : Env) (bindInfoInstance : OperandBindInfo) (kind : Kind)
    (key : NamespacedName) (owners : List OwnerReference) (w : World) :
    Except Err (List OwnerReference) × World :=
  match env.faults w.clock { verb := .setOwnerReference, kind := kind, key := key } with
  | some e => (.error e, w.tick)
  | none => (.ok (upsertOwnerRef (bindInfoRef bindInfoInstance) owners), w.tick)

/-! ## Resource synchronizers -/

/-- The create step of `copySecret`: `r.client.Create`, and when the answer is
already-exists, `r.client.Update` of the same object. -/
def createOrUpdateSecret (env : Env) (key : NamespacedName) (secretCopy : Secret) (w : World) :
    Option Err × World :=
  match createSecret env key secretCopy w with
  | (some err, w1) =>
    if err = Err.AlreadyExists then updateSecret env key secretCopy w1 else (some err, w1)
  | (none, w1) => (none, w1)

/-- The create step of `copyConfigmap`: `r.client.Create`, and when the answer is
already-exists, `r.client.Update` of the same object. -/
def createOrUpdateConfigMap (env : Env) (key : NamespacedName) (cmCopy : ConfigMap)
    (w : World) : Option Err × World :=
  match createConfigMap env key cmCopy w with
  | (some err, w1) =>
    if err = Err.AlreadyExists then updateConfigMap env key cmCopy w1 else (some err, w1)
  | (none, w1) => (none, w1)

/-- The method `copySecret`: copy secret `secName` of namespace `sourceNs` to
secret `secNameReq` of namespace `targetNs`. -/
def copySecret (env : Env) (secName secNameReq sourceNs targetNs : String)
    (bindInfoInstance : OperandBindInfo) (requestInstance : OperandRequest) (w0 : World) :
    Option Err × World :=
  let w := w0.record
    { kind := .secret, sourceName := secName, targetName := secNameReq,
      sourceNs := sourceNs, targetNs := targetNs }
  if secName = "" ∨ sourceNs = "" ∨ targetNs = "" ∨ secNameReq = "" then (none, w)
  else
    match getSecret env ⟨sourceNs, secName⟩ w with
    | (.error err, w1) => if err = Err.NotFound then (none, w1) else (some err, w1)
    | (.ok secret, w1) =>
      -- the copy: named secNameReq in targetNs, labels and payload of the source
      match SetControllerReference env requestInstance .secret ⟨targetNs, secNameReq⟩ [] w1 with
      | (.error err, w2) => (some err, w2)
      | (.ok owners, w2) =>
        let secretCopy : Secret :=
          { Labels := secret.Labels, OwnerReferences := owners, SecretType := secret.SecretType,
            Data := secret.Data, StringData := secret.StringData }
        match createOrUpdateSecret env ⟨targetNs, secNameReq⟩ secretCopy w2 with
        | (some err, w4) => (some err, w4)
        | (none, w4) =>
          match SetOwnerReference env bindInfoInstance .secret ⟨sourceNs, secName⟩
              secret.OwnerReferences w4 with
          | (.error err, w5) => (some err, w5)
          | (.ok owners', w5) =>
            updateSecret env ⟨sourceNs, secName⟩ { secret with OwnerReferences := owners' } w5

/-- The method `copyConfigmap`: copy configmap `cmName` of namespace `sourceNs` to
namespace `targetNs`. The copy is built with `Name: cmName`. -/
def copyConfigmap (env : Env) (cmName cmNameReq sourceNs targetNs : String)
    (bindInfoInstance : OperandBindInfo) (requestInstance : OperandRequest) (w0 : World) :
    Option Err × World :=
  let w := w0.record
    { kind := .configMap, sourceName := cmName, targetName := cmNameReq,
      sourceNs := sourceNs, targetNs := targetNs }
  if cmName = "" ∨ sourceNs = "" ∨ targetNs = "" ∨ cmNameReq = "" then (none, w)
  else
    match getConfigMap env ⟨sourceNs, cmName⟩ w with
    | (.error err, w1) => if err = Err.NotFound then (none, w1) else (some err, w1)
    | (.ok cm, w1) =>
      match SetControllerReference env requestInstance .configMap ⟨targetNs, cmName⟩ [] w1 with
      | (.error err, w2) => (some err, w2)
      | (.ok owners, w2) =>
        let cmCopy : ConfigMap :=
          { Labels := cm.Labels, OwnerReferences := owners, Data := cm.Data }
        match createOrUpdateConfigMap env ⟨targetNs, cmName⟩ cmCopy w2 with
        | (some err, w4) => (some err, w4)
        | (none, w4) =>
          match SetOwnerReference env bindInfoInstance .configMap ⟨sourceNs, cmName⟩
              cm.OwnerReferences w4 with
          | (.error err, w5) => (some err, w5)
          | (.ok owners', w5) =>
            updateConfigMap env ⟨sourceNs, cmName⟩ { cm with OwnerReferences := owners' } w5

/-! ## Orchestrator -/

/-- Modelled from the spec: `updateBindInfoPhase` (defined outside the controller
file): set the phase, record the consumer namespaces, persist the status. -/
def updateBindInfoPhase (env : Env) (cr : OperandBindInfo) (phase : String)
    (requestNamespaces : List ReconcileRequest) (w : World) : Option Err × World :=
  updateBindInfoStatus env
    { cr with Status :=
        { Phase := phase, RequestNamespaces := requestNamespaces.map (fun r => r.Namespace) } } w

/-- What `Reconcile` has resolved when it enters the consumer loop: the BindInfo
(defaults applied), the consumers and the namespace of the operand. -/
structure Resolved where
  bindInfoInstance : OperandBindInfo
  requestNamespaces : List ReconcileRequest
  operandNamespace : String
deriving DecidableEq, Repr

/-- The method `Reconcile` up to the consumer loop: load the BindInfo, apply defaults
and labels and persist them, initialise and persist the status, resolve the
Registry. `inl` is a `return` with that error. -/
def reconcileResolve (env : Env) (request : NamespacedName) (w : World) :
    (Option Failure ⊕ Resolved) × World :=
  match getBindInfo env request w with
  | (.error err, w1) => (.inl (IgnoreNotFound err), w1)
  | (.ok fetched, w1) =>
    let defaulted : OperandBindInfo :=
      { fetched with Spec := env.SetDefaultsRequestSpec fetched.Namespace fetched.Spec }
    let labelled : OperandBindInfo :=
      { defaulted with Labels := env.AddLabels defaulted.Spec defaulted.Labels }
    match updateBindInfo env labelled w1 with
    | (some err, w2) => (.inl (some (.single err)), w2)
    | (none, w2) =>
      let bindInfoInstance : OperandBindInfo :=
        { labelled with Status := env.InitBindInfoStatus labelled.Status }
      match updateBindInfoStatus env bindInfoInstance w2 with
      | (some err, w3) => (.inl (some (.single err)), w3)
      | (none, w3) =>
        match getRegistry env
            ⟨bindInfoInstance.Spec.RegistryNamespace, bindInfoInstance.Spec.Registry⟩ w3 with
        | (.error err, w4) => (.inl (some (.single err)), w4)
        | (.ok registryInstance, w4) =>
          let requestNamespaces :=
            (registryInstance.OperatorsStatus bindInfoInstance.Spec.Operand).ReconcileRequests
          if requestNamespaces.length = 0 then (.inl none, w4)
          else
            let operandNamespace :=
              (registryInstance.GetOperator bindInfoInstance.Spec.Operand).Namespace
            if operandNamespace = "" then (.inl (some (.single .OperatorNotFound)), w4)
            else
              (.inr { bindInfoInstance := bindInfoInstance,
                      requestNamespaces := requestNamespaces,
                      operandNamespace := operandNamespace }, w4)

/-- The loop `for _, binding := range bindInfoInstance.Spec.Bindings` of `Reconcile`. -/
def bindingLoop (env : Env) (secretReq cmReq operandNamespace targetNs : String)
    (bindInfoInstance : OperandBindInfo) (requestInstance : OperandRequest) :
    List Binding → MultiErr → World → MultiErr × World
  | [], merr, w => (merr, w)
  | binding :: rest, merr, w =>
    if binding.Scope = ScopePublic then
      match copySecret env binding.Secret secretReq operandNamespace targetNs
          bindInfoInstance requestInstance w with
      | (some err, w1) =>
        bindingLoop env secretReq cmReq operandNamespace targetNs bindInfoInstance
          requestInstance rest (merr.Add err) w1
      | (none, w1) =>
        match copyConfigmap env binding.Configmap cmReq operandNamespace targetNs
            bindInfoInstance requestInstance w1 with
        | (some err, w2) =>
          bindingLoop env secretReq cmReq operandNamespace targetNs bindInfoInstance
            requestInstance rest (merr.Add err) w2
        | (none, w2) =>
          bindingLoop env secretReq cmReq operandNamespace targetNs bindInfoInstance
            requestInstance rest merr w2
    else
      bindingLoop env secretReq cmReq operandNamespace targetNs bindInfoInstance
        requestInstance rest merr w

/-- The loop `for _, bindRequest := range requestNamespaces` of `Reconcile`. `inl` is
the `return` inside the loop, `inr` is falling out of the loop with the errors
collected. -/
def consumerLoop (env : Env) (bindInfoInstance : OperandBindInfo) (operandNamespace : String) :
    List ReconcileRequest → MultiErr → World → (Option Failure ⊕ MultiErr) × World
  | [], merr, w => (.inr merr, w)
  | bindRequest :: rest, merr, w =>
    if operandNamespace = bindRequest.Namespace then
      consumerLoop env bindInfoInstance operandNamespace rest merr w
    else
      match getRequest env ⟨bindRequest.Namespace, bindRequest.Name⟩ w with
      | (.error err, w1) => (.inl (IgnoreNotFound err), w1)
      | (.ok requestInstance, w1) =>
        match bindingLoop env (getBindingInfofromRequest bindInfoInstance requestInstance).1
            (getBindingInfofromRequest bindInfoInstance requestInstance).2
            operandNamespace bindRequest.Namespace bindInfoInstance requestInstance
            bindInfoInstance.Spec.Bindings merr w1 with
        | (merr1, w2) => consumerLoop env bindInfoInstance operandNamespace rest merr1 w2

/-- The end of `Reconcile`, after the consumer loop: the phase is chosen from the
errors collected and persisted. -/
def reconcileFinish (env : Env) (bindInfoInstance : OperandBindInfo)
    (requestNamespaces : List ReconcileRequest) (merr : MultiErr) (w : World) :
    Option Failure × World :=
  if merr.Errors.length ≠ 0 then
    match updateBindInfoPhase env bindInfoInstance BindInfoFailed requestNamespaces w with
    | (some err, w1) => (some (.single err), w1)
    | (none, w1) => (some (.combined merr), w1)
  else
    match updateBindInfoPhase env bindInfoInstance BindInfoCompleted requestNamespaces w with
    | (some err, w1) => (some (.single err), w1)
    | (none, w1) => (none, w1)

/-- The method `Reconcile`: the returned error and the cluster after the pass. -/
def Reconcile (env : Env) (request : NamespacedName) (w : World) : Option Failure × World :=
  match reconcileResolve env request w with
  | (.inl ret, w1) => (ret, w1)
  | (.inr res, w1) =>
    match consumerLoop env res.bindInfoInstance res.operandNamespace res.requestNamespaces
        { Errors := [] } w1 with
    | (.inl ret, w2) => (ret, w2)
    | (.inr merr, w2) => reconcileFinish env res.bindInfoInstance res.requestNamespaces merr w2

/-! ## Vocabulary of the statements -/

/-- No call is made to fail: every call is answered by the store. -/
def NoFaults (env : Env) : Prop :=
  ∀ n op, env.faults n op = none

/-- The copy of a secret made for a Request: labels and payload of the source,
the Request as single, controlling owner. -/
def secretCopyOf (q : OperandRequest) (s : Secret) : Secret :=
  { Labels := s.Labels, OwnerReferences := [requestRef q], SecretType := s.SecretType,
    Data := s.Data, StringData := s.StringData }

/-- A source secret after it received the edge to the BindInfo. -/
def secretOwnedBy (b : OperandBindInfo) (s : Secret) : Secret :=
  { s with OwnerReferences := upsertOwnerRef (bindInfoRef b) s.OwnerReferences }

/-- The copy of a configmap made for a Request. -/
def configMapCopyOf (q : OperandRequest) (c : ConfigMap) : ConfigMap :=
  { Labels := c.Labels, OwnerReferences := [requestRef q], Data := c.Data }

/-- A source configmap after it received the edge to the BindInfo. -/
def configMapOwnedBy (b : OperandBindInfo) (c : ConfigMap) : ConfigMap :=
  { c with OwnerReferences := upsertOwnerRef (bindInfoRef b) c.OwnerReferences }

/-- The guard at the head of both synchronizers: one of the four names is empty. -/
def emptyArg (sourceName targetName sourceNs targetNs : String) : Prop :=
  sourceName = "" ∨ sourceNs = "" ∨ targetNs = "" ∨ targetName = ""

instance (a b c d : String) : Decidable (emptyArg a b c d) := by
  unfold emptyArg; infer_instance

/-- A stretch of a pass from `w` to `w'` only recorded synchronizer invocations
satisfying `P`, and every secret or configmap of the store that changed is the
copy or the source of one of them. -/
def Effect (P : SyncCall → Prop) (w w' : World) : Prop :=
  ∃ calls, w'.syncCalls = w.syncCalls ++ calls
    ∧ (∀ c ∈ calls, P c)
    ∧ (∀ k, w'.store.secrets k ≠ w.store.secrets k →
        ∃ c ∈ calls, c.kind = Kind.secret
          ∧ (k = ⟨c.targetNs, c.targetName⟩ ∨ k = ⟨c.sourceNs, c.sourceName⟩))
    ∧ (∀ k, w'.store.configMaps k ≠ w.store.configMaps k →
        ∃ c ∈ calls, c.kind = Kind.configMap
          ∧ (k = ⟨c.targetNs, c.sourceName⟩ ∨ k = ⟨c.sourceNs, c.sourceName⟩))

/-- A synchronizer invocation that the orchestrator may issue once it has resolved
`res`: from the namespace of the operand, to the namespace of a recorded consumer
other than that one, for the secret or the configmap of a public binding of the
BindInfo. -/
def callAllowed (res : Resolved) (c : SyncCall) : Prop :=
  c.sourceNs = res.operandNamespace
  ∧ c.targetNs ≠ res.operandNamespace
  ∧ (∃ r ∈ res.requestNamespaces, r.Namespace = c.targetNs)
  ∧ ∃ binding ∈ res.bindInfoInstance.Spec.Bindings, binding.Scope = ScopePublic
      ∧ ((c.kind = Kind.secret ∧ c.sourceName = binding.Secret)
          ∨ (c.kind = Kind.configMap ∧ c.sourceName = binding.Configmap))

/-- The consumer loop of `Reconcile`, entered with what was resolved and no error
collected yet. -/
def loopFrom (env : Env) (res : Resolved) (w : World) : (Option Failure ⊕ MultiErr) × World :=
  consumerLoop env res.bindInfoInstance res.operandNamespace res.requestNamespaces
    { Errors := [] } w

/-- The phase `Reconcile` writes at the end of a pass that collected `merr`. -/
def phaseFor (merr : MultiErr) : String :=
  if merr.Errors = [] then BindInfoCompleted else BindInfoFailed

/-! ## Passes without failing calls -/

/-- One copy as the synchronizers perform it when no call fails: unless `skip`
holds or the namespace `ns` has no object named `sname`, the object at `tkey`
becomes the copy of that source and the source becomes its `owned` version. -/
structure CopyOp (α : Type) where
  skip : Bool
  sname : String
  tkey : NamespacedName
  copy : α → α

/-- The objects of one kind after one copy. -/
def CopyOp.apply {α : Type} (ns : String) (owned : α → α) (S : NamespacedName → Option α)
    (o : CopyOp α) : NamespacedName → Option α :=
  if o.skip then S
  else
    match S ⟨ns, o.sname⟩ with
    | none => S
    | some s =>
      Function.update (Function.update S o.tkey (some (o.copy s))) ⟨ns, o.sname⟩ (some (owned s))

/-- The objects of one kind after a sequence of copies. -/
def runOps {α : Type} (ns : String) (owned : α → α) (S : NamespacedName → Option α)
    (ops : List (CopyOp α)) : NamespacedName → Option α :=
  ops.foldl (CopyOp.apply ns owned) S

/-- What one copy does to the object at a key `k` outside the source namespace,
given the objects `S0` of the source namespace: nothing, or it puts there the
copy of its source. -/
def CopyOp.cell {α : Type} (ns : String) (S0 : NamespacedName → Option α) (k : NamespacedName)
    (v : Option α) (o : CopyOp α) : Option α :=
  if o.skip = false ∧ o.tkey = k then
    match S0 ⟨ns, o.sname⟩ with
    | some s => some (o.copy s)
    | none => v
  else v

/-- One pair of the consumer loop: a public binding, the names declared by the
Request of the consumer, the namespace of the consumer and the Request itself. -/
structure Job where
  binding : Binding
  secretReq : String
  cmReq : String
  targetNs : String
  request : OperandRequest

/-- The secret copy of a pair. -/
def secretOp (ns : String) (j : Job) : CopyOp Secret :=
  { skip := decide (emptyArg j.binding.Secret j.secretReq ns j.targetNs)
    sname := j.binding.Secret
    tkey := ⟨j.targetNs, j.secretReq⟩
    copy := secretCopyOf j.request }

/-- The configmap copy of a pair; the copy keeps the name of the source. -/
def configOp (ns : String) (j : Job) : CopyOp ConfigMap :=
  { skip := decide (emptyArg j.binding.Configmap j.cmReq ns j.targetNs)
    sname := j.binding.Configmap
    tkey := ⟨j.targetNs, j.binding.Configmap⟩
    copy := configMapCopyOf j.request }

/-- The pairs of one consumer: one per public binding, in declared order. -/
def jobsOfBindings (secretReq cmReq targetNs : String) (q : OperandRequest)
    (bs : List Binding) : List Job :=
  (bs.filter (fun x => x.Scope = ScopePublic)).map
    (fun x => { binding := x, secretReq := secretReq, cmReq := cmReq, targetNs := targetNs,
                request := q })

/-- The pairs the consumer loop serves when no call fails: consumers of the source
namespace are passed over, and the loop stops at the first consumer whose Request
does not exist. -/
def jobsOfConsumers (b : OperandBindInfo) (ns : String)
    (requests : NamespacedName → Option OperandRequestSpec) : List ReconcileRequest → List Job
  | [] => []
  | c :: rest =>
    if ns = c.Namespace then jobsOfConsumers b ns requests rest
    else
      match requests ⟨c.Namespace, c.Name⟩ with
      | none => []
      | some spec =>
        jobsOfBindings
          (getBindingInfofromRequest b { Name := c.Name, Namespace := c.Namespace, Spec := spec }).1
          (getBindingInfofromRequest b { Name := c.Name, Namespace := c.Namespace, Spec := spec }).2
          c.Namespace { Name := c.Name, Namespace := c.Namespace, Spec := spec } b.Spec.Bindings
        ++ jobsOfConsumers b ns requests rest

/-- Every consumer outside the source namespace has its Request in the store. -/
def requestsFound (ns : String) (requests : NamespacedName → Option OperandRequestSpec)
    (rs : List ReconcileRequest) : Prop :=
  ∀ c ∈ rs, ns ≠ c.Namespace → requests ⟨c.Namespace, c.Name⟩ ≠ none

/-- The objects of the source namespace in `S'` are those of `S`, some of them in
their `owned` version. -/
def SourceRel {α : Type} (ns : String) (owned : α → α) (S S' : NamespacedName → Option α) : Prop :=
  ∀ n, S' ⟨ns, n⟩ = S ⟨ns, n⟩ ∨ S' ⟨ns, n⟩ = (S ⟨ns, n⟩).map owned

instance (ns : String) (requests : NamespacedName → Option OperandRequestSpec)
    (rs : List ReconcileRequest) : Decidable (requestsFound ns requests rs) := by
  unfold requestsFound; infer_instance

/-- The store after the copies of a list of pairs, when no call fails. -/
def Store.withCopies (st : Store) (b : OperandBindInfo) (ns : String) (jobs : List Job) :
    Store :=
  { st with
    secrets := runOps ns (secretOwnedBy b) st.secrets (jobs.map (secretOp ns))
    configMaps := runOps ns (configMapOwnedBy b) st.configMaps (jobs.map (configOp ns)) }

/-- The outcome of the part of `Reconcile` before the consumer loop and the store
after it, when no call fails. -/
def resolvePure (env : Env) (key : NamespacedName) (st : Store) :
    (Option Failure ⊕ Resolved) × Store :=
  match st.bindInfos key with
  | none => (.inl none, st)
  | some sb =>
    let spec := env.SetDefaultsRequestSpec key.Namespace sb.Spec
    let labels := env.AddLabels spec sb.Labels
    let status := env.InitBindInfoStatus sb.Status
    let st1 := st.putBindInfo key { Labels := labels, Spec := spec, Status := status }
    match st.registries ⟨spec.RegistryNamespace, spec.Registry⟩ with
    | none => (.inl (some (.single .NotFound)), st1)
    | some reg =>
      if (reg.OperatorsStatus spec.Operand).ReconcileRequests.length = 0 then (.inl none, st1)
      else if (reg.GetOperator spec.Operand).Namespace = "" then
        (.inl (some (.single .OperatorNotFound)), st1)
      else
        (.inr { bindInfoInstance :=
                  { Name := key.Name, Namespace := key.Namespace, Labels := labels,
                    Spec := spec, Status := status }
                requestNamespaces := (reg.OperatorsStatus spec.Operand).ReconcileRequests
                operandNamespace := (reg.GetOperator spec.Operand).Namespace }, st1)

/-- The error returned by `Reconcile` and the store after the pass, when no call
fails. -/
def reconcilePure (env : Env) (key : NamespacedName) (st : Store) : Option Failure × Store :=
  match resolvePure env key st with
  | (.inl ret, st1) => (ret, st1)
  | (.inr res, st1) =>
    if requestsFound res.operandNamespace st1.requests res.requestNamespaces then
      (none,
        (st1.withCopies res.bindInfoInstance res.operandNamespace
          (jobsOfConsumers res.bindInfoInstance res.operandNamespace st1.requests
            res.requestNamespaces)).putBindInfo key
          { Labels := res.bindInfoInstance.Labels, Spec := res.bindInfoInstance.Spec
            Status :=
              { Phase := BindInfoCompleted
                RequestNamespaces := res.requestNamespaces.map (fun r => r.Namespace) } })
    else
      (none,
        st1.withCopies res.bindInfoInstance res.operandNamespace
          (jobsOfConsumers res.bindInfoInstance res.operandNamespace st1.requests
            res.requestNamespaces))

/-! ## The consumer loop as the spec words it -/

/-- The synchronization of one pair of a consumer and a binding: the secret and
then, when the secret returned no error, the configmap, both with the names that
the Request of the consumer declares; the result is the error of the pair. -/
def syncPair (env : Env) (b : OperandBindInfo) (ns : String) (c : ReconcileRequest)
    (spec : OperandRequestSpec) (binding : Binding) (w : World) : Option Err × World :=
  match copySecret env binding.Secret
      (getBindingInfofromRequest b { Name := c.Name, Namespace := c.Namespace, Spec := spec }).1
      ns c.Namespace b { Name := c.Name, Namespace := c.Namespace, Spec := spec } w with
  | (some err, w1) => (some err, w1)
  | (none, w1) =>
    copyConfigmap env binding.Configmap
      (getBindingInfofromRequest b { Name := c.Name, Namespace := c.Namespace, Spec := spec }).2
      ns c.Namespace b { Name := c.Name, Namespace := c.Namespace, Spec := spec } w1

/-- Every public binding of a list is synchronized for one consumer, in declared
order, and the errors returned are collected: nothing ends the iteration. -/
def servePairs (env : Env) (b : OperandBindInfo) (ns : String) (c : ReconcileRequest)
    (spec : OperandRequestSpec) (bs : List Binding) (acc : List Err × World) :
    List Err × World :=
  (bs.filter (fun x => x.Scope = ScopePublic)).foldl
    (fun acc x =>
      (acc.1 ++ (syncPair env b ns c spec x acc.2).1.toList,
        (syncPair env b ns c spec x acc.2).2)) acc

/-- Every consumer outside the source namespace is served in recorded order: its
Request is read and every public binding of the BindInfo is synchronized for it;
the errors returned by the synchronizations are collected. -/
def serveAll (env : Env) (b : OperandBindInfo) (ns : String) (rs : List ReconcileRequest)
    (acc : List Err × World) : List Err × World :=
  (rs.filter (fun c => ns ≠ c.Namespace)).foldl
    (fun acc c =>
      match acc.2.store.requests ⟨c.Namespace, c.Name⟩ with
      | some spec => servePairs env b ns c spec b.Spec.Bindings (acc.1, acc.2.tick)
      | none => acc) acc

/-! ## Concrete inputs -/

/-- A helper environment without faults, whose defaulting and labeling change
nothing and whose status initialisation sets the phase of a fresh status. -/
def plainEnv : Env :=
  { faults := fun _ _ => none
    SetDefaultsRequestSpec := fun _ s => s
    AddLabels := fun _ l => l
    InitBindInfoStatus := fun s => if s.Phase = "" then { s with Phase := "Init" } else s }

/-- A BindInfo `bi` of namespace `src`, the namespace of its operand, sharing, for
operand `db` of registry `reg` of namespace `ops`, the secret `db-secret` and the
configmap `db-cm` publicly. -/
def sampleBindInfo : OperandBindInfo :=
  { Name := "bi", Namespace := "src", Labels := []
    Spec :=
      { Operand := "db", Registry := "reg", RegistryNamespace := "ops"
        Bindings := [{ Scope := "public", Secret := "db-secret", Configmap := "db-cm" }] }
    Status := { Phase := "", RequestNamespaces := [] } }

/-- A Request whose first public binding for `db` of `reg` declares no name. -/
def unnamedRequest : OperandRequest :=
  { Name := "r1", Namespace := "c1"
    Spec :=
      { Requests :=
          [{ Registry := "reg"
             Operands :=
               [{ Name := "db"
                  Bindings := [{ Scope := "public", Secret := "", Configmap := "" }] }] }] } }

/-- A Request renaming the secret to `my-secret` and the configmap to `my-cm`. -/
def renamingRequest : OperandRequest :=
  { Name := "r1", Namespace := "c1"
    Spec :=
      { Requests :=
          [{ Registry := "reg"
             Operands :=
               [{ Name := "db"
                  Bindings :=
                    [{ Scope := "private", Secret := "p-secret", Configmap := "p-cm" },
                     { Scope := "public", Secret := "my-secret", Configmap := "my-cm" },
                     { Scope := "public", Secret := "late-secret", Configmap := "late-cm" }] }] }] } }

/-- The source secret of the examples, already controlled by a deployment. -/
def dbSecret : Secret :=
  { Labels := [("app", "db")]
    OwnerReferences := [{ Kind := "Deployment", Name := "db", Controller := true }]
    SecretType := "Opaque", Data := [("password", "s3cr3t")], StringData := [] }

/-- The source configmap of the examples. -/
def dbConfig : ConfigMap :=
  { Labels := [("app", "db")], OwnerReferences := [], Data := [("host", "db.src")] }

/-- A secret with another content than the source. -/
def staleSecret : Secret :=
  { Labels := [], OwnerReferences := [], SecretType := "Opaque"
    Data := [("password", "old")], StringData := [] }

/-- A configmap with another content than the source. -/
def staleConfig : ConfigMap :=
  { Labels := [], OwnerReferences := [], Data := [("host", "old")] }

/-- A cluster for the examples. Namespace `ops` holds, when `withRegistry` holds,
the Registry `reg`, which places operand `db` in namespace `src` and records
`consumers`; the Requests listed in `present` exist and rename the secret to
`my-secret` and the configmap to `my-cm`; namespace `src` holds the BindInfo `bi`,
the secret `db-secret` and the configmap `db-cm`. -/
def sampleStore (withRegistry : Bool) (consumers present : List ReconcileRequest) : Store :=
  { bindInfos := fun k =>
      if k = ⟨"src", "bi"⟩ then
        some { Labels := [], Spec := sampleBindInfo.Spec, Status := sampleBindInfo.Status }
      else none
    registries := fun k =>
      if withRegistry = true ∧ k = ⟨"ops", "reg"⟩ then
        some { Operators := [{ Name := "db", Namespace := "src" }]
               OperatorsStatus := fun n =>
                 if n = "db" then { ReconcileRequests := consumers }
                 else { ReconcileRequests := [] } }
      else none
    requests := fun k =>
      if (⟨k.Name, k.Namespace⟩ : ReconcileRequest) ∈ present then some renamingRequest.Spec
      else none
    secrets := fun k => if k = ⟨"src", "db-secret"⟩ then some dbSecret else none
    configMaps := fun k => if k = ⟨"src", "db-cm"⟩ then some dbConfig else none }

/-- The cluster of the examples at the start of a pass. -/
def sampleWorld (withRegistry : Bool) (consumers present : List ReconcileRequest) : World :=
  { store := sampleStore withRegistry consumers present, clock := 0, syncCalls := [] }

/-- The sample cluster with one consumer, where namespace `c1` already holds a
secret `my-secret` and a configmap `my-cm` with another content than the sources. -/
def staleWorld : World :=
  { store :=
      ((sampleStore true [⟨"r1", "c1"⟩] [⟨"r1", "c1"⟩]).putConfigMap ⟨"c1", "my-cm"⟩
        staleConfig).putSecret ⟨"c1", "my-secret"⟩ staleSecret
    clock := 0, syncCalls := [] }

/-- Three consumers, in the namespaces `c1`, `c2` and `c3`. -/
def threeConsumers : List ReconcileRequest :=
  [⟨"r1", "c1"⟩, ⟨"r2", "c2"⟩, ⟨"r3", "c3"⟩]

/-- An environment in which creating a secret in namespace `c2` fails. -/
def failingC2Env : Env :=
  { plainEnv with
    faults := fun _ op =>
      if op.verb = .create ∧ op.kind = .secret ∧ op.key.Namespace = "c2" then
        some (.Other 1)
      else none }

/-- An environment in which a status update issued after the third call fails. -/
def lateStatusFailureEnv : Env :=
  { plainEnv with
    faults := fun n op =>
      if op.verb = .updateStatus ∧ 2 < n then some (.Other 2) else none }

/-- What `Reconcile` resolves on the sample cluster. -/
def sampleResolved (consumers : List ReconcileRequest) : Resolved :=
  { bindInfoInstance := { sampleBindInfo with Status := { Phase := "Init", RequestNamespaces := [] } }
    requestNamespaces := consumers
    operandNamespace := "src" }

/-- A Request whose only binding for `db` of `reg` is private. -/
def privateRequestSpec : OperandRequestSpec :=
  { Requests :=
      [{ Registry := "reg"
         Operands :=
           [{ Name := "db"
              Bindings := [{ Scope := "private", Secret := "p-secret", Configmap := "p-cm" }] }] }] }

/-- The sample cluster with the single consumer `r1` of namespace `c1`, whose
Request declares no public binding. -/
def quietWorld : World :=
  { store :=
      { sampleStore true [⟨"r1", "c1"⟩] [] with
        requests := fun k => if k = ⟨"c1", "r1"⟩ then some privateRequestSpec else none }
    clock := 0, syncCalls := [] }

/-- An environment in which updating a secret of namespace `c1` fails, at any time. -/
def updateDeniedEnv : Env :=
  { plainEnv with
    faults := fun _ op =>
      if op.verb = .update ∧ op.kind = .secret ∧ op.key.Namespace = "c1" then
        some (.Other 3)
      else none }

/-- An environment in which reading a Request of namespace `c2` fails. -/
def unreadableC2Env : Env :=
  { plainEnv with
    faults := fun _ op =>
      if op.verb = .get ∧ op.kind = .request ∧ op.key.Namespace = "c2" then
        some (.Other 4)
      else none }

/-- A second source secret, with another type and payload than `dbSecret`. -/
def tlsSecret : Secret :=
  { Labels := [("app", "db")], OwnerReferences := [], SecretType := "kubernetes.io/tls"
    Data := [("tls.key", "k3y")], StringData := [] }

/-- The sample cluster with one consumer, where the BindInfo has two public
bindings, the first for the secret `db-secret` and the configmap `db-cm`, the second
for the secret `tls-secret` alone, and both secrets exist in namespace `src`. -/
def twoSecretsWorld : World :=
  { store :=
      { sampleStore true [⟨"r1", "c1"⟩] [⟨"r1", "c1"⟩] with
        bindInfos := fun k =>
          if k = ⟨"src", "bi"⟩ then
            some { Labels := []
                   Spec :=
                     { sampleBindInfo.Spec with
                       Bindings :=
                         [{ Scope := "public", Secret := "db-secret", Configmap := "db-cm" },
                          { Scope := "public", Secret := "tls-secret", Configmap := "" }] }
                   Status := sampleBindInfo.Status }
          else none
        secrets := fun k =>
          if k = ⟨"src", "db-secret"⟩ then some dbSecret
          else if k = ⟨"src", "tls-secret"⟩ then some tlsSecret
          else none }
    clock := 0, syncCalls := [] }

/-- The sample cluster with one consumer, where the BindInfo `bi` is in namespace
`ops`, not in the namespace `src` of the secret and the configmap it shares. -/
def remoteWorld : World :=
  { store :=
      { sampleStore true [⟨"r1", "c1"⟩] [⟨"r1", "c1"⟩] with
        bindInfos := fun k =>
          if k = ⟨"ops", "bi"⟩ then
            some { Labels := [], Spec := sampleBindInfo.Spec, Status := sampleBindInfo.Status }
          else none }
    clock := 0, syncCalls := [] }

/-- An environment in which every store operation is answered by the store and
`SetOwnerReference` refuses its owner, as it does for an owner of another namespace
than the object. -/
def ownerRefusedEnv : Env :=
  { plainEnv with
    faults := fun _ op => if op.verb = .setOwnerReference then some (.Other 5) else none }

/-- What `Reconcile` resolves on the cluster with two public bindings. -/
def twoSecretsResolved : Resolved :=
  { bindInfoInstance :=
      { sampleBindInfo with
        Spec :=
          { sampleBindInfo.Spec with
            Bindings :=
              [{ Scope := "public", Secret := "db-secret", Configmap := "db-cm" },
               { Scope := "public", Secret := "tls-secret", Configmap := "" }] }
        Status := { Phase := "Init", RequestNamespaces := [] } }
    requestNamespaces := [⟨"r1", "c1"⟩]
    operandNamespace := "src" }

/-! # Theorems -/

/-! ## Extractor lemmas -/

theorem scanBindings_eq_find (bs : List Binding) :
    scanBindings bs
      = (bs.find? (fun s => s.Scope = ScopePublic)).map (fun s => (s.Secret, s.Configmap)) := by
  induction bs with
  | nil => rfl
  | cons x xs ih =>
    by_cases h : x.Scope = ScopePublic
    · simp [scanBindings, List.find?, h]
    · simp [scanBindings, List.find?, h, ih]

theorem scanOperands_eq_find (name : String) (os : List Operand) :
    scanOperands name os
      = ((((os.filter (fun o => o.Name = name)).flatMap (fun o => o.Bindings)).find?
          (fun s => s.Scope = ScopePublic)).map (fun s => (s.Secret, s.Configmap))) := by
  induction os with
  | nil => rfl
  | cons o rest ih =>
    by_cases hn : o.Name = name
    · by_cases hl : o.Bindings.length = 0
      · have hnil : o.Bindings = [] := List.length_eq_zero.mp hl
        simp [scanOperands, hn, hl, ih, List.filter_cons, hnil]
      · rw [scanOperands]
        simp only [hn, ne_eq, not_true_eq_false, if_false, hl]
        rw [scanBindings_eq_find, ih]
        simp only [List.filter_cons, hn, decide_True, if_true, List.flatMap_cons,
          List.find?_append]
        cases List.find? (fun s => decide (s.Scope = ScopePublic)) o.Bindings <;> simp
    · simp [scanOperands, hn, ih, List.filter_cons]

theorem scanRequests_eq_find (registry name : String) (rs : List Request) :
    scanRequests registry name rs
      = ((((rs.filter (fun r => r.Registry = registry)).flatMap
            (fun r => (r.Operands.filter (fun o => o.Name = name)).flatMap
              (fun o => o.Bindings))).find?
          (fun s => s.Scope = ScopePublic)).map (fun s => (s.Secret, s.Configmap))) := by
  induction rs with
  | nil => rfl
  | cons r rest ih =>
    by_cases hr : r.Registry = registry
    · rw [scanRequests]
      simp only [hr, ne_eq, not_true_eq_false, if_false]
      rw [scanOperands_eq_find, ih]
      simp only [List.filter_cons, hr, decide_True, if_true, List.flatMap_cons,
        List.find?_append]
      cases List.find? (fun s => decide (s.Scope = ScopePublic))
        (List.flatMap (List.filter (fun o => decide (o.Name = name)) r.Operands)
          (fun o => o.Bindings)) <;> simp
    · simp [scanRequests, hr, ih, List.filter_cons]

theorem getBindingInfofromRequest_eq (b : OperandBindInfo) (q : OperandRequest) :
    getBindingInfofromRequest b q
      = match firstPublic b q with
        | some s => (s.Secret, s.Configmap)
        | none => ("", "") := by
  unfold getBindingInfofromRequest firstPublic matchingBindings
  rw [scanRequests_eq_find]
  cases List.find? _ _ <;> rfl

/-- C1 (amended): `getBindingInfofromRequest b q` returns the secret and configmap
names of the first public binding, in declared order, among the bindings of the
operands named `b.Spec.Operand` inside the request entries whose registry equals
`b.Spec.Registry`; it returns two empty strings when there is no such binding, and
a result of two empty strings means that there is none or that the first one
declares both names empty; the bindings after the first public one never
influence the result. -/
theorem getBindingInfofromRequest_first_public (b : OperandBindInfo) (q : OperandRequest) :
    (getBindingInfofromRequest b q
      = match firstPublic b q with
        | some s => (s.Secret, s.Configmap)
        | none => ("", ""))
    ∧ (firstPublic b q = none → getBindingInfofromRequest b q = ("", ""))
    ∧ (getBindingInfofromRequest b q = ("", "")
        ↔ (firstPublic b q = none
            ∨ ∃ s, firstPublic b q = some s ∧ s.Secret = "" ∧ s.Configmap = ""))
    ∧ (∀ pre s post, matchingBindings b q = pre ++ s :: post →
        (∀ x ∈ pre, x.Scope ≠ ScopePublic) → s.Scope = ScopePublic →
        getBindingInfofromRequest b q = (s.Secret, s.Configmap)) := by
  have hmain := getBindingInfofromRequest_eq b q
  refine ⟨hmain, ?_, ?_, ?_⟩
  · intro h
    rw [hmain, h]
  · rw [hmain]
    cases hf : firstPublic b q with
    | none => simp
    | some s => simp [Prod.ext_iff]
  · intro pre s post hsplit hpre hs
    have hfind : firstPublic b q = some s := by
      unfold firstPublic
      rw [hsplit, List.find?_append]
      have hnone : List.find? (fun s => decide (s.Scope = ScopePublic)) pre = none := by
        rw [List.find?_eq_none]
        intro x hx
        simpa using hpre x hx
      simp [hnone, List.find?, hs]
    rw [hmain, hfind]

/-- C1 (witness): on the renaming Request the result is the pair of names of the
second declared binding, the first public one. -/
theorem getBindingInfofromRequest_first_public_witness :
    getBindingInfofromRequest sampleBindInfo renamingRequest = ("my-secret", "my-cm") :=
  (getBindingInfofromRequest_first_public sampleBindInfo renamingRequest).2.2.2
    [{ Scope := "private", Secret := "p-secret", Configmap := "p-cm" }]
    { Scope := "public", Secret := "my-secret", Configmap := "my-cm" }
    [{ Scope := "public", Secret := "late-secret", Configmap := "late-cm" }]
    (by decide) (by decide) (by decide)

/-- C1 (counterexample): a Request whose first public binding declares no name
yields two empty strings although a matching public binding exists. -/
theorem getBindingInfofromRequest_empty_with_public :
    getBindingInfofromRequest sampleBindInfo unnamedRequest = ("", "")
      ∧ firstPublic sampleBindInfo unnamedRequest
          = some { Scope := "public", Secret := "", Configmap := "" } := by
  decide

/-! ## The client calls, one by one -/

theorem getSecret_spec {env : Env} {key : NamespacedName} {w : World}
    {r : Except Err Secret} {w1 : World} (h : getSecret env key w = (r, w1)) :
    w1 = w.tick
    ∧ (∀ s, r = .ok s →
        env.faults w.clock { verb := .get, kind := .secret, key := key } = none
          ∧ w.store.secrets key = some s)
    ∧ (r = .error .NotFound →
        env.faults w.clock { verb := .get, kind := .secret, key := key } ≠ none
          ∨ w.store.secrets key = none) := by
  unfold getSecret at h
  split at h
  · cases h; simp_all
  · split at h <;> cases h <;> simp_all

theorem createSecret_spec {env : Env} {key : NamespacedName} {s : Secret} {w : World}
    {r : Option Err} {w1 : World} (h : createSecret env key s w = (r, w1)) :
    (r = none → w1 = { w.tick with store := w.store.putSecret key s })
    ∧ (r ≠ none → w1 = w.tick) := by
  unfold createSecret at h
  split at h
  · cases h; simp
  · split at h <;> cases h <;> simp_all

theorem updateSecret_spec {env : Env} {key : NamespacedName} {s : Secret} {w : World}
    {r : Option Err} {w1 : World} (h : updateSecret env key s w = (r, w1)) :
    (r = none → w1 = { w.tick with store := w.store.putSecret key s })
    ∧ (r ≠ none → w1 = w.tick) := by
  unfold updateSecret at h
  split at h
  · cases h; simp
  · split at h <;> cases h <;> simp_all

theorem createOrUpdateSecret_spec {env : Env} {key : NamespacedName} {s : Secret} {w : World}
    {r : Option Err} {w1 : World} (h : createOrUpdateSecret env key s w = (r, w1)) :
    w1.syncCalls = w.syncCalls
    ∧ (r = none → w1.store = w.store.putSecret key s)
    ∧ (r ≠ none → w1.store = w.store) := by
  unfold createOrUpdateSecret at h
  rcases hc : createSecret env key s w with ⟨r3, w3⟩
  obtain ⟨c1, c2⟩ := createSecret_spec hc
  rw [hc] at h
  cases r3 with
  | none =>
    have := c1 rfl
    subst this
    simp only [Prod.mk.injEq] at h
    obtain ⟨rfl, rfl⟩ := h
    simp [World.tick]
  | some e3 =>
    have := c2 (by simp)
    subst this
    simp only [] at h
    split at h
    · obtain ⟨u1, u2⟩ := updateSecret_spec h
      cases r with
      | none =>
        have := u1 rfl
        subst this
        simp [World.tick]
      | some e4 =>
        have := u2 (by simp)
        subst this
        simp [World.tick]
    · simp only [Prod.mk.injEq] at h
      obtain ⟨rfl, rfl⟩ := h
      simp [World.tick]

theorem SetControllerReference_spec {env : Env} {q : OperandRequest} {kind : Kind}
    {key : NamespacedName} {w : World}
    {r : Except Err (List OwnerReference)} {w1 : World}
    (h : SetControllerReference env q kind key [] w = (r, w1)) :
    w1 = w.tick ∧ ∀ o, r = .ok o → o = [requestRef q] := by
  unfold SetControllerReference at h
  split at h
  · cases h; simp
  · simp only [List.find?, upsertOwnerRef] at h
    cases h; simp

theorem SetOwnerReference_spec {env : Env} {b : OperandBindInfo} {kind : Kind}
    {key : NamespacedName} {owners : List OwnerReference} {w : World}
    {r : Except Err (List OwnerReference)} {w1 : World}
    (h : SetOwnerReference env b kind key owners w = (r, w1)) :
    w1 = w.tick ∧ ∀ o, r = .ok o → o = upsertOwnerRef (bindInfoRef b) owners := by
  unfold SetOwnerReference at h
  split at h
  · cases h; simp
  · cases h; simp

/-- What one run of `copySecret` does to the cluster, whatever calls fail: the
invocation is recorded, and either the store is untouched, or only the copy has
been written (and the run reports an error), or the copy and the edge on the
source have both been written (and the run reports success). -/
theorem copySecret_outcome (env : Env) (secName secNameReq sourceNs targetNs : String)
    (b : OperandBindInfo) (q : OperandRequest) (w : World) :
    (copySecret env secName secNameReq sourceNs targetNs b q w).2.syncCalls
        = w.syncCalls ++ [⟨.secret, secName, secNameReq, sourceNs, targetNs⟩]
    ∧ (((copySecret env secName secNameReq sourceNs targetNs b q w).2.store = w.store
          ∧ ((copySecret env secName secNameReq sourceNs targetNs b q w).1 = none →
              emptyArg secName secNameReq sourceNs targetNs
              ∨ env.faults w.clock
                  { verb := .get, kind := .secret, key := ⟨sourceNs, secName⟩ } ≠ none
              ∨ w.store.secrets ⟨sourceNs, secName⟩ = none))
        ∨ (∃ s, ¬ emptyArg secName secNameReq sourceNs targetNs
            ∧ w.store.secrets ⟨sourceNs, secName⟩ = some s
            ∧ (copySecret env secName secNameReq sourceNs targetNs b q w).1 ≠ none
            ∧ (copySecret env secName secNameReq sourceNs targetNs b q w).2.store
                = w.store.putSecret ⟨targetNs, secNameReq⟩ (secretCopyOf q s))
        ∨ (∃ s, ¬ emptyArg secName secNameReq sourceNs targetNs
            ∧ w.store.secrets ⟨sourceNs, secName⟩ = some s
            ∧ (copySecret env secName secNameReq sourceNs targetNs b q w).1 = none
            ∧ (copySecret env secName secNameReq sourceNs targetNs b q w).2.store
                = (w.store.putSecret ⟨targetNs, secNameReq⟩ (secretCopyOf q s)).putSecret
                    ⟨sourceNs, secName⟩ (secretOwnedBy b s))) := by
  unfold copySecret emptyArg
  simp only []
  obtain ⟨w', hw'⟩ : ∃ w', w' = w.record ⟨.secret, secName, secNameReq, sourceNs, targetNs⟩ :=
    ⟨_, rfl⟩
  rw [← hw']
  have hcalls : w'.syncCalls
      = w.syncCalls ++ [⟨.secret, secName, secNameReq, sourceNs, targetNs⟩] := by
    rw [hw']; rfl
  have hclock : w'.clock = w.clock := by rw [hw']; rfl
  have hstore : w'.store = w.store := by rw [hw']; rfl
  clear hw'
  split
  · rename_i hg
    simp [hg, hcalls, hstore]
  · rename_i hg
    rcases hget : getSecret env ⟨sourceNs, secName⟩ w' with ⟨r1, w1⟩
    obtain ⟨e1, f1, n1⟩ := getSecret_spec hget
    rw [hclock, hstore] at f1 n1
    subst e1
    cases r1 with
    | error err =>
      simp only []
      split
      · rename_i he
        subst he
        refine ⟨by simp [World.tick, hcalls], Or.inl ⟨by simp [World.tick, hstore], ?_⟩⟩
        intro _
        exact Or.inr (n1 rfl)
      · simp [World.tick, hcalls, hstore]
    | ok secret =>
      obtain ⟨hf, hs⟩ := f1 secret rfl
      simp only []
      rcases hsc : SetControllerReference env q .secret ⟨targetNs, secNameReq⟩ [] w'.tick
        with ⟨r2, w2⟩
      obtain ⟨e2, f2⟩ := SetControllerReference_spec hsc
      subst e2
      cases r2 with
      | error err => simp [World.tick, hcalls, hstore]
      | ok owners =>
        have ho := f2 owners rfl
        subst ho
        simp only []
        rcases hcr : createOrUpdateSecret env ⟨targetNs, secNameReq⟩
          { Labels := secret.Labels, OwnerReferences := [requestRef q],
            SecretType := secret.SecretType, Data := secret.Data,
            StringData := secret.StringData } w'.tick.tick with ⟨r4, w4⟩
        obtain ⟨b1, b3, b2⟩ := createOrUpdateSecret_spec hcr
        cases r4 with
        | some e4 =>
          simp only []
          refine ⟨by simp [b1, World.tick, hcalls], Or.inl ⟨?_, by simp⟩⟩
          rw [b2 (by simp)]; simp [World.tick, hstore]
        | none =>
          have b3' := b3 rfl
          simp only []
          rcases hso : SetOwnerReference env b .secret ⟨sourceNs, secName⟩
              secret.OwnerReferences w4 with ⟨r5, w5⟩
          obtain ⟨e5, f5⟩ := SetOwnerReference_spec hso
          subst e5
          cases r5 with
          | error err =>
            simp only []
            refine ⟨by simp [World.tick, b1, hcalls],
              Or.inr (Or.inl ⟨secret, hg, hs, by simp, ?_⟩)⟩
            simp [World.tick, b3', hstore, secretCopyOf]
          | ok owners' =>
            have ho' := f5 owners' rfl
            subst ho'
            simp only []
            rcases hup : updateSecret env ⟨sourceNs, secName⟩
              { secret with
                OwnerReferences := upsertOwnerRef (bindInfoRef b) secret.OwnerReferences }
              w4.tick with ⟨r6, w6⟩
            obtain ⟨u1, u2⟩ := updateSecret_spec hup
            cases r6 with
            | none =>
              have := u1 rfl
              subst this
              refine ⟨by simp [World.tick, b1, hcalls],
                Or.inr (Or.inr ⟨secret, hg, hs, rfl, ?_⟩)⟩
              simp [World.tick, b3', hstore, secretOwnedBy, secretCopyOf]
            | some e6 =>
              have := u2 (by simp)
              subst this
              refine ⟨by simp [World.tick, b1, hcalls],
                Or.inr (Or.inl ⟨secret, hg, hs, by simp, ?_⟩)⟩
              simp [World.tick, b3', hstore, secretCopyOf]


theorem getConfigMap_spec {env : Env} {key : NamespacedName} {w : World}
    {r : Except Err ConfigMap} {w1 : World} (h : getConfigMap env key w = (r, w1)) :
    w1 = w.tick
    ∧ (∀ s, r = .ok s →
        env.faults w.clock { verb := .get, kind := .configMap, key := key } = none
          ∧ w.store.configMaps key = some s)
    ∧ (r = .error .NotFound →
        env.faults w.clock { verb := .get, kind := .configMap, key := key } ≠ none
          ∨ w.store.configMaps key = none) := by
  unfold getConfigMap at h
  split at h
  · cases h; simp_all
  · split at h <;> cases h <;> simp_all

theorem createConfigMap_spec {env : Env} {key : NamespacedName} {s : ConfigMap} {w : World}
    {r : Option Err} {w1 : World} (h : createConfigMap env key s w = (r, w1)) :
    (r = none → w1 = { w.tick with store := w.store.putConfigMap key s })
    ∧ (r ≠ none → w1 = w.tick) := by
  unfold createConfigMap at h
  split at h
  · cases h; simp
  · split at h <;> cases h <;> simp_all

theorem updateConfigMap_spec {env : Env} {key : NamespacedName} {s : ConfigMap} {w : World}
    {r : Option Err} {w1 : World} (h : updateConfigMap env key s w = (r, w1)) :
    (r = none → w1 = { w.tick with store := w.store.putConfigMap key s })
    ∧ (r ≠ none → w1 = w.tick) := by
  unfold updateConfigMap at h
  split at h
  · cases h; simp
  · split at h <;> cases h <;> simp_all

theorem createOrUpdateConfigMap_spec {env : Env} {key : NamespacedName} {s : ConfigMap} {w : World}
    {r : Option Err} {w1 : World} (h : createOrUpdateConfigMap env key s w = (r, w1)) :
    w1.syncCalls = w.syncCalls
    ∧ (r = none → w1.store = w.store.putConfigMap key s)
    ∧ (r ≠ none → w1.store = w.store) := by
  unfold createOrUpdateConfigMap at h
  rcases hc : createConfigMap env key s w with ⟨r3, w3⟩
  obtain ⟨c1, c2⟩ := createConfigMap_spec hc
  rw [hc] at h
  cases r3 with
  | none =>
    have := c1 rfl
    subst this
    simp only [Prod.mk.injEq] at h
    obtain ⟨rfl, rfl⟩ := h
    simp [World.tick]
  | some e3 =>
    have := c2 (by simp)
    subst this
    simp only [] at h
    split at h
    · obtain ⟨u1, u2⟩ := updateConfigMap_spec h
      cases r with
      | none =>
        have := u1 rfl
        subst this
        simp [World.tick]
      | some e4 =>
        have := u2 (by simp)
        subst this
        simp [World.tick]
    · simp only [Prod.mk.injEq] at h
      obtain ⟨rfl, rfl⟩ := h
      simp [World.tick]

/-- What one run of `copyConfigmap` does to the cluster, whatever calls fail: the
invocation is recorded, and either the store is untouched, or only the copy has
been written (and the run reports an error), or the copy and the edge on the
source have both been written (and the run reports success). -/
theorem copyConfigmap_outcome (env : Env) (cmName cmNameReq sourceNs targetNs : String)
    (b : OperandBindInfo) (q : OperandRequest) (w : World) :
    (copyConfigmap env cmName cmNameReq sourceNs targetNs b q w).2.syncCalls
        = w.syncCalls ++ [⟨.configMap, cmName, cmNameReq, sourceNs, targetNs⟩]
    ∧ (((copyConfigmap env cmName cmNameReq sourceNs targetNs b q w).2.store = w.store
          ∧ ((copyConfigmap env cmName cmNameReq sourceNs targetNs b q w).1 = none →
              emptyArg cmName cmNameReq sourceNs targetNs
              ∨ env.faults w.clock
                  { verb := .get, kind := .configMap, key := ⟨sourceNs, cmName⟩ } ≠ none
              ∨ w.store.configMaps ⟨sourceNs, cmName⟩ = none))
        ∨ (∃ s, ¬ emptyArg cmName cmNameReq sourceNs targetNs
            ∧ w.store.configMaps ⟨sourceNs, cmName⟩ = some s
            ∧ (copyConfigmap env cmName cmNameReq sourceNs targetNs b q w).1 ≠ none
            ∧ (copyConfigmap env cmName cmNameReq sourceNs targetNs b q w).2.store
                = w.store.putConfigMap ⟨targetNs, cmName⟩ (configMapCopyOf q s))
        ∨ (∃ s, ¬ emptyArg cmName cmNameReq sourceNs targetNs
            ∧ w.store.configMaps ⟨sourceNs, cmName⟩ = some s
            ∧ (copyConfigmap env cmName cmNameReq sourceNs targetNs b q w).1 = none
            ∧ (copyConfigmap env cmName cmNameReq sourceNs targetNs b q w).2.store
                = (w.store.putConfigMap ⟨targetNs, cmName⟩ (configMapCopyOf q s)).putConfigMap
                    ⟨sourceNs, cmName⟩ (configMapOwnedBy b s))) := by
  unfold copyConfigmap emptyArg
  simp only []
  obtain ⟨w', hw'⟩ : ∃ w', w' = w.record ⟨.configMap, cmName, cmNameReq, sourceNs, targetNs⟩ :=
    ⟨_, rfl⟩
  rw [← hw']
  have hcalls : w'.syncCalls
      = w.syncCalls ++ [⟨.configMap, cmName, cmNameReq, sourceNs, targetNs⟩] := by
    rw [hw']; rfl
  have hclock : w'.clock = w.clock := by rw [hw']; rfl
  have hstore : w'.store = w.store := by rw [hw']; rfl
  clear hw'
  split
  · rename_i hg
    simp [hg, hcalls, hstore]
  · rename_i hg
    rcases hget : getConfigMap env ⟨sourceNs, cmName⟩ w' with ⟨r1, w1⟩
    obtain ⟨e1, f1, n1⟩ := getConfigMap_spec hget
    rw [hclock, hstore] at f1 n1
    subst e1
    cases r1 with
    | error err =>
      simp only []
      split
      · rename_i he
        subst he
        refine ⟨by simp [World.tick, hcalls], Or.inl ⟨by simp [World.tick, hstore], ?_⟩⟩
        intro _
        exact Or.inr (n1 rfl)
      · simp [World.tick, hcalls, hstore]
    | ok cm =>
      obtain ⟨hf, hs⟩ := f1 cm rfl
      simp only []
      rcases hsc : SetControllerReference env q .configMap ⟨targetNs, cmName⟩ [] w'.tick
        with ⟨r2, w2⟩
      obtain ⟨e2, f2⟩ := SetControllerReference_spec hsc
      subst e2
      cases r2 with
      | error err => simp [World.tick, hcalls, hstore]
      | ok owners =>
        have ho := f2 owners rfl
        subst ho
        simp only []
        rcases hcr : createOrUpdateConfigMap env ⟨targetNs, cmName⟩
          { Labels := cm.Labels, OwnerReferences := [requestRef q], Data := cm.Data } w'.tick.tick with ⟨r4, w4⟩
        obtain ⟨b1, b3, b2⟩ := createOrUpdateConfigMap_spec hcr
        cases r4 with
        | some e4 =>
          simp only []
          refine ⟨by simp [b1, World.tick, hcalls], Or.inl ⟨?_, by simp⟩⟩
          rw [b2 (by simp)]; simp [World.tick, hstore]
        | none =>
          have b3' := b3 rfl
          simp only []
          rcases hso : SetOwnerReference env b .configMap ⟨sourceNs, cmName⟩
              cm.OwnerReferences w4 with ⟨r5, w5⟩
          obtain ⟨e5, f5⟩ := SetOwnerReference_spec hso
          subst e5
          cases r5 with
          | error err =>
            simp only []
            refine ⟨by simp [World.tick, b1, hcalls],
              Or.inr (Or.inl ⟨cm, hg, hs, by simp, ?_⟩)⟩
            simp [World.tick, b3', hstore, configMapCopyOf]
          | ok owners' =>
            have ho' := f5 owners' rfl
            subst ho'
            simp only []
            rcases hup : updateConfigMap env ⟨sourceNs, cmName⟩
              { cm with
                OwnerReferences := upsertOwnerRef (bindInfoRef b) cm.OwnerReferences }
              w4.tick with ⟨r6, w6⟩
            obtain ⟨u1, u2⟩ := updateConfigMap_spec hup
            cases r6 with
            | none =>
              have := u1 rfl
              subst this
              refine ⟨by simp [World.tick, b1, hcalls],
                Or.inr (Or.inr ⟨cm, hg, hs, rfl, ?_⟩)⟩
              simp [World.tick, b3', hstore, configMapOwnedBy, configMapCopyOf]
            | some e6 =>
              have := u2 (by simp)
              subst this
              refine ⟨by simp [World.tick, b1, hcalls],
                Or.inr (Or.inl ⟨cm, hg, hs, by simp, ?_⟩)⟩
              simp [World.tick, b3', hstore, configMapCopyOf]

/-! ## Ownership edges -/

theorem referSameObject_self (r : OwnerReference) : referSameObject r r = true := by
  simp [referSameObject]

theorem mem_upsertOwnerRef_self (ref : OwnerReference) (l : List OwnerReference) :
    ref ∈ upsertOwnerRef ref l := by
  induction l with
  | nil => simp [upsertOwnerRef]
  | cons r rest ih =>
    unfold upsertOwnerRef
    split <;> simp [ih]

theorem mem_upsertOwnerRef_of_mem (ref : OwnerReference) (l : List OwnerReference)
    (r : OwnerReference) (hr : r ∈ l) (hne : referSameObject r ref = false) :
    r ∈ upsertOwnerRef ref l := by
  induction l with
  | nil => cases hr
  | cons x rest ih =>
    unfold upsertOwnerRef
    rcases List.mem_cons.mp hr with rfl | hmem
    · simp [hne]
    · split
      · exact List.mem_cons_of_mem _ hmem
      · exact List.mem_cons_of_mem _ (ih hmem)

theorem mem_of_mem_upsertOwnerRef (ref : OwnerReference) (l : List OwnerReference)
    (r : OwnerReference) (hr : r ∈ upsertOwnerRef ref l) : r = ref ∨ r ∈ l := by
  induction l with
  | nil => simpa [upsertOwnerRef] using hr
  | cons x rest ih =>
    unfold upsertOwnerRef at hr
    split at hr
    · rcases List.mem_cons.mp hr with h | h
      · exact Or.inl h
      · exact Or.inr (List.mem_cons_of_mem _ h)
    · rcases List.mem_cons.mp hr with h | h
      · exact Or.inr (h ▸ List.mem_cons_self _ _)
      · rcases ih h with h' | h'
        · exact Or.inl h'
        · exact Or.inr (List.mem_cons_of_mem _ h')

theorem controllers_upsertOwnerRef_le (ref : OwnerReference) (hc : ref.Controller = false)
    (l : List OwnerReference) :
    ((upsertOwnerRef ref l).filter (fun r => r.Controller)).length
      ≤ (l.filter (fun r => r.Controller)).length := by
  induction l with
  | nil => simp [upsertOwnerRef, hc]
  | cons x rest ih =>
    unfold upsertOwnerRef
    split
    · by_cases hx : x.Controller = true <;> simp [List.filter_cons, hc, hx]
    · by_cases hx : x.Controller = true <;> simp [List.filter_cons, hx, ih]

theorem upsertOwnerRef_idem (ref : OwnerReference) (l : List OwnerReference) :
    upsertOwnerRef ref (upsertOwnerRef ref l) = upsertOwnerRef ref l := by
  induction l with
  | nil => simp [upsertOwnerRef, referSameObject_self]
  | cons x rest ih =>
    by_cases h : referSameObject x ref = true
    · simp [upsertOwnerRef, h, referSameObject_self]
    · simp [upsertOwnerRef, h, ih]

/-! ## Claims on the synchronizers -/

/-- C8: for both kinds, when a synchronizer run between two different namespaces
found the source object and returned success, the store holds the copy with the
Request as its single, controlling owner, and the source object with the edge to
the BindInfo added to its owner references: that edge is not controlling, the
other edges of the source are kept, and every controlling edge of the source
after the run was one before it. -/
theorem sync_ownership (env : Env) (sourceName targetName sourceNs targetNs : String)
    (b : OperandBindInfo) (q : OperandRequest) (w : World)
    (hns : sourceNs ≠ targetNs) (hargs : ¬ emptyArg sourceName targetName sourceNs targetNs) :
    (∀ s, w.store.secrets ⟨sourceNs, sourceName⟩ = some s →
        env.faults w.clock { verb := .get, kind := .secret, key := ⟨sourceNs, sourceName⟩ } = none →
        (copySecret env sourceName targetName sourceNs targetNs b q w).1 = none →
        (copySecret env sourceName targetName sourceNs targetNs b q w).2.store.secrets
            ⟨targetNs, targetName⟩ = some (secretCopyOf q s)
        ∧ (copySecret env sourceName targetName sourceNs targetNs b q w).2.store.secrets
            ⟨sourceNs, sourceName⟩ = some (secretOwnedBy b s))
    ∧ (∀ c, w.store.configMaps ⟨sourceNs, sourceName⟩ = some c →
        env.faults w.clock { verb := .get, kind := .configMap, key := ⟨sourceNs, sourceName⟩ } = none →
        (copyConfigmap env sourceName targetName sourceNs targetNs b q w).1 = none →
        (copyConfigmap env sourceName targetName sourceNs targetNs b q w).2.store.configMaps
            ⟨targetNs, sourceName⟩ = some (configMapCopyOf q c)
        ∧ (copyConfigmap env sourceName targetName sourceNs targetNs b q w).2.store.configMaps
            ⟨sourceNs, sourceName⟩ = some (configMapOwnedBy b c))
    ∧ (∀ s, (secretCopyOf q s).OwnerReferences
          = [{ Kind := "OperandRequest", Name := q.Name, Controller := true }])
    ∧ (∀ c, (configMapCopyOf q c).OwnerReferences
          = [{ Kind := "OperandRequest", Name := q.Name, Controller := true }])
    ∧ (∀ s, (secretOwnedBy b s).OwnerReferences
          = upsertOwnerRef (bindInfoRef b) s.OwnerReferences)
    ∧ (∀ c, (configMapOwnedBy b c).OwnerReferences
          = upsertOwnerRef (bindInfoRef b) c.OwnerReferences)
    ∧ (∀ owners : List OwnerReference,
        ({ Kind := "OperandBindInfo", Name := b.Name, Controller := false } : OwnerReference)
            ∈ upsertOwnerRef (bindInfoRef b) owners
        ∧ (∀ r ∈ owners, referSameObject r (bindInfoRef b) = false →
            r ∈ upsertOwnerRef (bindInfoRef b) owners)
        ∧ (∀ r ∈ upsertOwnerRef (bindInfoRef b) owners, r.Controller = true → r ∈ owners)
        ∧ ((upsertOwnerRef (bindInfoRef b) owners).filter (fun r => r.Controller)).length
            ≤ (owners.filter (fun r => r.Controller)).length) := by
  refine ⟨?_, ?_, fun _ => rfl, fun _ => rfl, fun _ => rfl, fun _ => rfl, ?_⟩
  · intro s hs hf hok
    obtain ⟨-, hcase⟩ := copySecret_outcome env sourceName targetName sourceNs targetNs b q w
    rcases hcase with ⟨-, h⟩ | ⟨s', -, -, hne, -⟩ | ⟨s', -, hs', -, hst⟩
    · rcases h hok with h | h | h
      · exact absurd h hargs
      · exact absurd hf h
      · rw [hs] at h; cases h
    · exact absurd hok hne
    · rw [hs] at hs'
      cases hs'
      rw [hst]
      have hkey : (⟨targetNs, targetName⟩ : NamespacedName) ≠ ⟨sourceNs, sourceName⟩ := by
        intro h
        exact hns (congrArg NamespacedName.Namespace h).symm
      simp [Store.putSecret, Function.update_noteq hkey]
  · intro c hs hf hok
    obtain ⟨-, hcase⟩ := copyConfigmap_outcome env sourceName targetName sourceNs targetNs b q w
    rcases hcase with ⟨-, h⟩ | ⟨s', -, -, hne, -⟩ | ⟨s', -, hs', -, hst⟩
    · rcases h hok with h | h | h
      · exact absurd h hargs
      · exact absurd hf h
      · rw [hs] at h; cases h
    · exact absurd hok hne
    · rw [hs] at hs'
      cases hs'
      rw [hst]
      have hkey : (⟨targetNs, sourceName⟩ : NamespacedName) ≠ ⟨sourceNs, sourceName⟩ := by
        intro h
        exact hns (congrArg NamespacedName.Namespace h).symm
      simp [Store.putConfigMap, Function.update_noteq hkey]
  · intro owners
    refine ⟨mem_upsertOwnerRef_self _ _, fun r hr hne => mem_upsertOwnerRef_of_mem _ _ r hr hne,
      ?_, controllers_upsertOwnerRef_le _ rfl _⟩
    intro r hr hc
    rcases mem_of_mem_upsertOwnerRef _ _ r hr with h | h
    · rw [h] at hc
      cases hc
    · exact h

/-- C8 (witness): copying the sample secret and the sample configmap from `src` to
`c1`: the copies are controlled by the Request `r1` alone; the source secret keeps
its controlling deployment and gains the non-controlling edge to the BindInfo. -/
theorem sync_ownership_witness :
    ((copySecret plainEnv "db-secret" "my-secret" "src" "c1" sampleBindInfo renamingRequest
        (sampleWorld true [] [])).2.store.secrets ⟨"c1", "my-secret"⟩
      = some { Labels := [("app", "db")]
               OwnerReferences := [{ Kind := "OperandRequest", Name := "r1", Controller := true }]
               SecretType := "Opaque", Data := [("password", "s3cr3t")], StringData := [] })
    ∧ ((copySecret plainEnv "db-secret" "my-secret" "src" "c1" sampleBindInfo renamingRequest
        (sampleWorld true [] [])).2.store.secrets ⟨"src", "db-secret"⟩
      = some { Labels := [("app", "db")]
               OwnerReferences :=
                 [{ Kind := "Deployment", Name := "db", Controller := true },
                  { Kind := "OperandBindInfo", Name := "bi", Controller := false }]
               SecretType := "Opaque", Data := [("password", "s3cr3t")], StringData := [] })
    ∧ ((copyConfigmap plainEnv "db-cm" "my-cm" "src" "c1" sampleBindInfo renamingRequest
        (sampleWorld true [] [])).2.store.configMaps ⟨"c1", "db-cm"⟩
      = some { Labels := [("app", "db")]
               OwnerReferences := [{ Kind := "OperandRequest", Name := "r1", Controller := true }]
               Data := [("host", "db.src")] }) := by
  have hs := (sync_ownership plainEnv "db-secret" "my-secret" "src" "c1" sampleBindInfo
    renamingRequest (sampleWorld true [] []) (by decide) (by decide)).1 dbSecret
    (by decide) (by decide) (by decide)
  have hc := (sync_ownership plainEnv "db-cm" "my-cm" "src" "c1" sampleBindInfo
    renamingRequest (sampleWorld true [] []) (by decide) (by decide)).2.1 dbConfig
    (by decide) (by decide) (by decide)
  exact ⟨hs.1, hs.2, hc.1⟩

/-- C5 (the code at the failing input): asked to copy the configmap `db-cm` of `src`
to `my-cm` of `c1`, `copyConfigmap` succeeds and leaves no object named `my-cm` in
`c1`; the copy is stored under the source name `db-cm`. The secret synchronizer,
on the same shape of input, stores the copy under the target name. -/
theorem copyConfigmap_stores_under_source_name :
    (copyConfigmap plainEnv "db-cm" "my-cm" "src" "c1" sampleBindInfo renamingRequest
        (sampleWorld true [] [])).1 = none
    ∧ (copyConfigmap plainEnv "db-cm" "my-cm" "src" "c1" sampleBindInfo renamingRequest
        (sampleWorld true [] [])).2.store.configMaps ⟨"c1", "my-cm"⟩ = none
    ∧ (copyConfigmap plainEnv "db-cm" "my-cm" "src" "c1" sampleBindInfo renamingRequest
        (sampleWorld true [] [])).2.store.configMaps ⟨"c1", "db-cm"⟩
        = some (configMapCopyOf renamingRequest dbConfig)
    ∧ (copySecret plainEnv "db-secret" "my-secret" "src" "c1" sampleBindInfo renamingRequest
        (sampleWorld true [] [])).2.store.secrets ⟨"c1", "my-secret"⟩
        = some (secretCopyOf renamingRequest dbSecret)
    ∧ (copySecret plainEnv "db-secret" "my-secret" "src" "c1" sampleBindInfo renamingRequest
        (sampleWorld true [] [])).2.store.secrets ⟨"c1", "db-secret"⟩ = none := by
  decide

/-- C9 (the code at the failing input): namespace `c1` already holds a configmap
under the target name `my-cm` with another content than the source; `copyConfigmap`
succeeds, leaves that object as it was and creates a second object under the
source name `db-cm`. The secret synchronizer, on the same shape of input,
overwrites the existing secret `my-secret` with the copy of the source. -/
theorem copyConfigmap_leaves_existing_target :
    (copyConfigmap plainEnv "db-cm" "my-cm" "src" "c1" sampleBindInfo renamingRequest
        staleWorld).1 = none
    ∧ (copyConfigmap plainEnv "db-cm" "my-cm" "src" "c1" sampleBindInfo renamingRequest
        staleWorld).2.store.configMaps ⟨"c1", "my-cm"⟩ = some staleConfig
    ∧ staleConfig.Data ≠ dbConfig.Data
    ∧ staleConfig.Labels ≠ dbConfig.Labels
    ∧ (copyConfigmap plainEnv "db-cm" "my-cm" "src" "c1" sampleBindInfo renamingRequest
        staleWorld).2.store.configMaps ⟨"c1", "db-cm"⟩
        = some (configMapCopyOf renamingRequest dbConfig)
    ∧ staleWorld.store.secrets ⟨"c1", "my-secret"⟩ = some staleSecret
    ∧ (copySecret plainEnv "db-secret" "my-secret" "src" "c1" sampleBindInfo renamingRequest
        staleWorld).1 = none
    ∧ (copySecret plainEnv "db-secret" "my-secret" "src" "c1" sampleBindInfo renamingRequest
        staleWorld).2.store.secrets ⟨"c1", "my-secret"⟩
        = some (secretCopyOf renamingRequest dbSecret) := by
  decide

/-- C4 (the code at the failing input): the Registry records the consumer `r1` of
namespace `c1` and no such Request exists: `Reconcile` returns `nil` and leaves the
phase at its initial value; with the Registry missing it returns the not-found
error. With three consumers of which the second has no Request, the third is not
served. -/
theorem Reconcile_missing_request_returns_nil :
    (Reconcile plainEnv ⟨"src", "bi"⟩ (sampleWorld true [⟨"r1", "c1"⟩] [])).1 = none
    ∧ ((Reconcile plainEnv ⟨"src", "bi"⟩
          (sampleWorld true [⟨"r1", "c1"⟩] [])).2.store.bindInfos ⟨"src", "bi"⟩).map
        (fun s => s.Status.Phase) = some "Init"
    ∧ (Reconcile plainEnv ⟨"src", "bi"⟩ (sampleWorld false [⟨"r1", "c1"⟩] [])).1
        = some (.single .NotFound)
    ∧ (Reconcile plainEnv ⟨"src", "bi"⟩
          (sampleWorld true threeConsumers [⟨"r1", "c1"⟩, ⟨"r3", "c3"⟩])).1 = none
    ∧ (Reconcile plainEnv ⟨"src", "bi"⟩
          (sampleWorld true threeConsumers [⟨"r1", "c1"⟩, ⟨"r3", "c3"⟩])).2.store.secrets
        ⟨"c3", "my-secret"⟩ = none := by
  decide

/-! ## Recorded invocations and touched objects -/

theorem Effect.of_same {P : SyncCall → Prop} {w w' : World}
    (hc : w'.syncCalls = w.syncCalls) (hs : w'.store.secrets = w.store.secrets)
    (hm : w'.store.configMaps = w.store.configMaps) : Effect P w w' :=
  ⟨[], by simp [hc], by simp, by simp [hs], by simp [hm]⟩

theorem Effect.trans {P : SyncCall → Prop} {w w' w'' : World}
    (h1 : Effect P w w') (h2 : Effect P w' w'') : Effect P w w'' := by
  obtain ⟨c1, e1, p1, s1, m1⟩ := h1
  obtain ⟨c2, e2, p2, s2, m2⟩ := h2
  refine ⟨c1 ++ c2, by rw [e2, e1, List.append_assoc], ?_, ?_, ?_⟩
  · intro c hc
    rcases List.mem_append.mp hc with h | h
    · exact p1 c h
    · exact p2 c h
  · intro k hk
    by_cases h : w''.store.secrets k = w'.store.secrets k
    · obtain ⟨c, hc, hr⟩ := s1 k (by rw [← h]; exact hk)
      exact ⟨c, List.mem_append_left _ hc, hr⟩
    · obtain ⟨c, hc, hr⟩ := s2 k h
      exact ⟨c, List.mem_append_right _ hc, hr⟩
  · intro k hk
    by_cases h : w''.store.configMaps k = w'.store.configMaps k
    · obtain ⟨c, hc, hr⟩ := m1 k (by rw [← h]; exact hk)
      exact ⟨c, List.mem_append_left _ hc, hr⟩
    · obtain ⟨c, hc, hr⟩ := m2 k h
      exact ⟨c, List.mem_append_right _ hc, hr⟩

theorem Effect.copySecret {P : SyncCall → Prop} (env : Env)
    (secName secNameReq sourceNs targetNs : String) (b : OperandBindInfo) (q : OperandRequest)
    (w : World) (hP : P ⟨.secret, secName, secNameReq, sourceNs, targetNs⟩) :
    Effect P w (copySecret env secName secNameReq sourceNs targetNs b q w).2 := by
  obtain ⟨hcalls, hcase⟩ := copySecret_outcome env secName secNameReq sourceNs targetNs b q w
  refine ⟨[⟨.secret, secName, secNameReq, sourceNs, targetNs⟩], hcalls, by simpa using hP, ?_, ?_⟩
  · intro k hk
    refine ⟨_, List.mem_singleton_self _, rfl, ?_⟩
    by_contra hcon
    push_neg at hcon
    apply hk
    rcases hcase with ⟨h, -⟩ | ⟨s, -, -, -, h⟩ | ⟨s, -, -, -, h⟩
    · rw [h]
    · rw [h]; simp [Store.putSecret, Function.update_noteq hcon.1]
    · rw [h]; simp [Store.putSecret, Function.update_noteq hcon.1, Function.update_noteq hcon.2]
  · intro k hk
    exfalso
    apply hk
    rcases hcase with ⟨h, -⟩ | ⟨s, -, -, -, h⟩ | ⟨s, -, -, -, h⟩ <;> rw [h] <;> rfl

theorem Effect.copyConfigmap {P : SyncCall → Prop} (env : Env)
    (cmName cmNameReq sourceNs targetNs : String) (b : OperandBindInfo) (q : OperandRequest)
    (w : World) (hP : P ⟨.configMap, cmName, cmNameReq, sourceNs, targetNs⟩) :
    Effect P w (copyConfigmap env cmName cmNameReq sourceNs targetNs b q w).2 := by
  obtain ⟨hcalls, hcase⟩ := copyConfigmap_outcome env cmName cmNameReq sourceNs targetNs b q w
  refine ⟨[⟨.configMap, cmName, cmNameReq, sourceNs, targetNs⟩], hcalls, by simpa using hP,
    ?_, ?_⟩
  · intro k hk
    exfalso
    apply hk
    rcases hcase with ⟨h, -⟩ | ⟨s, -, -, -, h⟩ | ⟨s, -, -, -, h⟩ <;> rw [h] <;> rfl
  · intro k hk
    refine ⟨_, List.mem_singleton_self _, rfl, ?_⟩
    by_contra hcon
    push_neg at hcon
    apply hk
    rcases hcase with ⟨h, -⟩ | ⟨s, -, -, -, h⟩ | ⟨s, -, -, -, h⟩
    · rw [h]
    · rw [h]; simp [Store.putConfigMap, Function.update_noteq hcon.1]
    · rw [h]
      simp [Store.putConfigMap, Function.update_noteq hcon.1, Function.update_noteq hcon.2]

/-- The binding loop records, for each public binding, the invocations of the two
synchronizers with the names of that binding, and touches nothing else. -/
theorem bindingLoop_effect {P : SyncCall → Prop} (env : Env)
    (secretReq cmReq operandNamespace targetNs : String) (b : OperandBindInfo)
    (q : OperandRequest) (bs : List Binding)
    (hP : ∀ binding ∈ bs, binding.Scope = ScopePublic →
      P ⟨.secret, binding.Secret, secretReq, operandNamespace, targetNs⟩
      ∧ P ⟨.configMap, binding.Configmap, cmReq, operandNamespace, targetNs⟩)
    (merr : MultiErr) (w : World) :
    Effect P w (bindingLoop env secretReq cmReq operandNamespace targetNs b q bs merr w).2 := by
  induction bs generalizing merr w with
  | nil => exact Effect.of_same rfl rfl rfl
  | cons binding rest ih =>
    have ih' := ih (fun x hx => hP x (List.mem_cons_of_mem _ hx))
    unfold bindingLoop
    split
    · rename_i hpub
      obtain ⟨hPs, hPc⟩ := hP binding (List.mem_cons_self _ _) hpub
      have e1 := Effect.copySecret env binding.Secret secretReq operandNamespace targetNs b q w hPs
      rcases hcs : Odlm.copySecret env binding.Secret secretReq operandNamespace targetNs b q w
        with ⟨r1, w1⟩
      rw [hcs] at e1
      cases r1 with
      | some err => exact e1.trans (ih' _ _)
      | none =>
        simp only []
        have e2 := Effect.copyConfigmap env binding.Configmap cmReq operandNamespace targetNs
          b q w1 hPc
        rcases hcc : Odlm.copyConfigmap env binding.Configmap cmReq operandNamespace targetNs
          b q w1 with ⟨r2, w2⟩
        rw [hcc] at e2
        cases r2 with
        | some err => exact e1.trans (e2.trans (ih' _ _))
        | none => exact e1.trans (e2.trans (ih' _ _))
    · exact ih' _ _

/-! ## The orchestrator, step by step -/

theorem getRequest_spec {env : Env} {key : NamespacedName} {w : World}
    {r : Except Err OperandRequest} {w1 : World} (h : getRequest env key w = (r, w1)) :
    w1 = w.tick
    ∧ ∀ q, r = .ok q →
        q.Name = key.Name ∧ q.Namespace = key.Namespace ∧ w.store.requests key = some q.Spec := by
  unfold getRequest at h
  split at h
  · cases h; simp
  · split at h <;> cases h <;> simp_all

theorem getBindInfo_spec {env : Env} {key : NamespacedName} {w : World}
    {r : Except Err OperandBindInfo} {w1 : World} (h : getBindInfo env key w = (r, w1)) :
    w1 = w.tick
    ∧ ∀ b, r = .ok b → ∃ s, w.store.bindInfos key = some s ∧ b = s.toInstance key := by
  unfold getBindInfo at h
  split at h
  · cases h; simp
  · split at h <;> cases h <;> simp_all

theorem updateBindInfo_spec {env : Env} {b : OperandBindInfo} {w : World}
    {r : Option Err} {w1 : World} (h : updateBindInfo env b w = (r, w1)) :
    (r = none → ∃ s, w.store.bindInfos ⟨b.Namespace, b.Name⟩ = some s
        ∧ w1 = { w.tick with
                  store := w.store.putBindInfo ⟨b.Namespace, b.Name⟩
                    { s with Labels := b.Labels, Spec := b.Spec } })
    ∧ (r ≠ none → w1 = w.tick) := by
  unfold updateBindInfo at h
  split at h
  · cases h; simp
  · split at h <;> cases h <;> simp_all

theorem updateBindInfoStatus_spec {env : Env} {b : OperandBindInfo} {w : World}
    {r : Option Err} {w1 : World} (h : updateBindInfoStatus env b w = (r, w1)) :
    (r = none → ∃ s, w.store.bindInfos ⟨b.Namespace, b.Name⟩ = some s
        ∧ w1 = { w.tick with
                  store := w.store.putBindInfo ⟨b.Namespace, b.Name⟩
                    { s with Status := b.Status } })
    ∧ (r ≠ none → w1 = w.tick) := by
  unfold updateBindInfoStatus at h
  split at h
  · cases h; simp
  · split at h <;> cases h <;> simp_all

theorem getRegistry_spec {env : Env} {key : NamespacedName} {w : World}
    {r : Except Err OperandRegistry} {w1 : World} (h : getRegistry env key w = (r, w1)) :
    w1 = w.tick ∧ ∀ reg, r = .ok reg → w.store.registries key = some reg := by
  unfold getRegistry at h
  split at h
  · cases h; simp
  · split at h <;> cases h <;> simp_all

/-- The part of `Reconcile` before the consumer loop records no invocation and
touches no secret, configmap, Request or Registry; when it reaches the loop, there
is at least one consumer, the namespace of the operand is not empty, and the
BindInfo in hand is the one at the reconciled key. -/
theorem reconcileResolve_spec (env : Env) (key : NamespacedName) (w : World) :
    (reconcileResolve env key w).2.syncCalls = w.syncCalls
    ∧ (reconcileResolve env key w).2.store.secrets = w.store.secrets
    ∧ (reconcileResolve env key w).2.store.configMaps = w.store.configMaps
    ∧ (reconcileResolve env key w).2.store.requests = w.store.requests
    ∧ (reconcileResolve env key w).2.store.registries = w.store.registries
    ∧ ∀ res, (reconcileResolve env key w).1 = .inr res →
        res.requestNamespaces ≠ [] ∧ res.operandNamespace ≠ ""
        ∧ res.bindInfoInstance.Name = key.Name
        ∧ res.bindInfoInstance.Namespace = key.Namespace := by
  unfold reconcileResolve
  rcases h1 : getBindInfo env key w with ⟨r1, w1⟩
  obtain ⟨e1, f1⟩ := getBindInfo_spec h1
  subst e1
  cases r1 with
  | error err => simp [World.tick]
  | ok fetched =>
    obtain ⟨s, hs, hb⟩ := f1 fetched rfl
    simp only []
    rcases h2 : updateBindInfo env _ w.tick with ⟨r2, w2⟩
    obtain ⟨u1, u2⟩ := updateBindInfo_spec h2
    cases r2 with
    | some err =>
      have := u2 (by simp)
      subst this
      simp [World.tick]
    | none =>
      obtain ⟨s2, -, hw2⟩ := u1 rfl
      subst hw2
      simp only []
      rcases h3 : updateBindInfoStatus env _ _ with ⟨r3, w3⟩
      obtain ⟨v1, v2⟩ := updateBindInfoStatus_spec h3
      cases r3 with
      | some err =>
        have := v2 (by simp)
        subst this
        simp [World.tick, Store.putBindInfo]
      | none =>
        obtain ⟨s3, -, hw3⟩ := v1 rfl
        subst hw3
        simp only []
        rcases h4 : getRegistry env _ _ with ⟨r4, w4⟩
        obtain ⟨g1, -⟩ := getRegistry_spec h4
        subst g1
        cases r4 with
        | error err => simp [World.tick, Store.putBindInfo]
        | ok reg =>
          simp only []
          split
          · simp [World.tick, Store.putBindInfo]
          · rename_i hlen
            split
            · simp [World.tick, Store.putBindInfo]
            · rename_i hns
              refine ⟨by simp [World.tick], by simp [World.tick, Store.putBindInfo],
                by simp [World.tick, Store.putBindInfo], by simp [World.tick, Store.putBindInfo],
                by simp [World.tick, Store.putBindInfo], ?_⟩
              intro res hres
              simp only [Sum.inr.injEq] at hres
              subst hres
              subst hb
              refine ⟨?_, hns, rfl, rfl⟩
              intro hnil
              exact hlen (congrArg List.length hnil)

/-- The consumer loop only records invocations for consumers outside the namespace
of the operand and for public bindings of the BindInfo. -/
theorem consumerLoop_effect {P : SyncCall → Prop} (env : Env) (b : OperandBindInfo)
    (operandNamespace : String) (rs : List ReconcileRequest)
    (hP : ∀ c ∈ rs, operandNamespace ≠ c.Namespace → ∀ binding ∈ b.Spec.Bindings,
      binding.Scope = ScopePublic → ∀ secretReq cmReq,
        P ⟨.secret, binding.Secret, secretReq, operandNamespace, c.Namespace⟩
        ∧ P ⟨.configMap, binding.Configmap, cmReq, operandNamespace, c.Namespace⟩)
    (merr : MultiErr) (w : World) :
    Effect P w (consumerLoop env b operandNamespace rs merr w).2 := by
  induction rs generalizing merr w with
  | nil => exact Effect.of_same rfl rfl rfl
  | cons c rest ih =>
    have ih' := ih (fun x hx => hP x (List.mem_cons_of_mem _ hx))
    unfold consumerLoop
    split
    · exact ih' _ _
    · rename_i hne
      rcases hg : getRequest env ⟨c.Namespace, c.Name⟩ w with ⟨r1, w1⟩
      obtain ⟨e1, -⟩ := getRequest_spec hg
      subst e1
      have e0 : Effect P w w.tick := Effect.of_same rfl rfl rfl
      cases r1 with
      | error err => exact e0
      | ok q =>
        simp only []
        have eb := bindingLoop_effect (P := P) env (getBindingInfofromRequest b q).1
          (getBindingInfofromRequest b q).2 operandNamespace c.Namespace b q b.Spec.Bindings
          (fun binding hb hpub => hP c (List.mem_cons_self _ _) hne binding hb hpub _ _)
          merr w.tick
        rcases hbl : bindingLoop env (getBindingInfofromRequest b q).1
          (getBindingInfofromRequest b q).2 operandNamespace c.Namespace b q b.Spec.Bindings
          merr w.tick with ⟨m1, w2⟩
        rw [hbl] at eb
        exact e0.trans (eb.trans (ih' _ _))

/-- The binding loop invokes the secret synchronizer for every public binding,
whatever the earlier invocations returned. -/
theorem bindingLoop_attempts (env : Env)
    (secretReq cmReq operandNamespace targetNs : String) (b : OperandBindInfo)
    (q : OperandRequest) (bs : List Binding) (merr : MultiErr) (w : World) :
    ∀ binding ∈ bs, binding.Scope = ScopePublic →
      (⟨.secret, binding.Secret, secretReq, operandNamespace, targetNs⟩ : SyncCall)
        ∈ (bindingLoop env secretReq cmReq operandNamespace targetNs b q bs merr w).2.syncCalls := by
  induction bs generalizing merr w with
  | nil => intro x hx; cases hx
  | cons binding rest ih =>
    intro x hx hpub
    -- what follows the first binding keeps the invocations recorded so far
    have hkeep : ∀ (m : MultiErr) (w1 : World) (c : SyncCall), c ∈ w1.syncCalls →
        c ∈ (bindingLoop env secretReq cmReq operandNamespace targetNs b q rest m w1).2.syncCalls := by
      intro m w1 c hc
      obtain ⟨calls, hcalls, -⟩ := bindingLoop_effect (P := fun _ => True) env secretReq cmReq
        operandNamespace targetNs b q rest (fun _ _ _ => ⟨trivial, trivial⟩) m w1
      rw [hcalls]
      exact List.mem_append_left _ hc
    unfold bindingLoop
    rcases List.mem_cons.mp hx with rfl | hmem
    · simp only [hpub, if_true]
      have hs := (copySecret_outcome env x.Secret secretReq operandNamespace targetNs b q w).1
      rcases hcs : copySecret env x.Secret secretReq operandNamespace targetNs b q w
        with ⟨r1, w1⟩
      rw [hcs] at hs
      have hin : (⟨.secret, x.Secret, secretReq, operandNamespace, targetNs⟩ : SyncCall)
          ∈ w1.syncCalls := by
        rw [hs]; simp
      cases r1 with
      | some err => exact hkeep _ _ _ hin
      | none =>
        simp only []
        have hc := (copyConfigmap_outcome env x.Configmap cmReq operandNamespace targetNs
          b q w1).1
        rcases hcc : copyConfigmap env x.Configmap cmReq operandNamespace targetNs b q w1
          with ⟨r2, w2⟩
        rw [hcc] at hc
        have hin2 : (⟨.secret, x.Secret, secretReq, operandNamespace, targetNs⟩ : SyncCall)
            ∈ w2.syncCalls := by
          rw [hc]; exact List.mem_append_left _ hin
        cases r2 with
        | some err => exact hkeep _ _ _ hin2
        | none => exact hkeep _ _ _ hin2
    · split
      · rcases hcs : copySecret env binding.Secret secretReq operandNamespace targetNs b q w
          with ⟨r1, w1⟩
        cases r1 with
        | some err => exact ih _ _ x hmem hpub
        | none =>
          simp only []
          rcases hcc : copyConfigmap env binding.Configmap cmReq operandNamespace targetNs
            b q w1 with ⟨r2, w2⟩
          cases r2 with
          | some err => exact ih _ _ x hmem hpub
          | none => exact ih _ _ x hmem hpub
      · exact ih _ _ x hmem hpub

/-- The end of `Reconcile`: the phase written is `Failed` when an error was
collected and `Completed` otherwise; when persisting it succeeds the combined error
(or `nil`) is returned and the stored phase is the chosen one, and when persisting
it fails that failure is returned. -/
theorem reconcileFinish_spec (env : Env) (b : OperandBindInfo) (rs : List ReconcileRequest)
    (merr : MultiErr) (w : World) :
    (reconcileFinish env b rs merr w).2
        = (updateBindInfoPhase env b
            (if merr.Errors = [] then BindInfoCompleted else BindInfoFailed) rs w).2
    ∧ ((updateBindInfoPhase env b
            (if merr.Errors = [] then BindInfoCompleted else BindInfoFailed) rs w).1 = none →
        (reconcileFinish env b rs merr w).1
            = (if merr.Errors = [] then none else some (.combined merr))
        ∧ ((reconcileFinish env b rs merr w).2.store.bindInfos ⟨b.Namespace, b.Name⟩).map
            (fun s => s.Status.Phase)
            = some (if merr.Errors = [] then BindInfoCompleted else BindInfoFailed))
    ∧ (∀ err, (updateBindInfoPhase env b
            (if merr.Errors = [] then BindInfoCompleted else BindInfoFailed) rs w).1 = some err →
        (reconcileFinish env b rs merr w).1 = some (.single err))
    ∧ (reconcileFinish env b rs merr w).2.syncCalls = w.syncCalls
    ∧ (reconcileFinish env b rs merr w).2.store.secrets = w.store.secrets
    ∧ (reconcileFinish env b rs merr w).2.store.configMaps = w.store.configMaps := by
  have hphase : ∀ phase (r : Option Err) (w1 : World),
      updateBindInfoPhase env b phase rs w = (r, w1) →
      w1.syncCalls = w.syncCalls ∧ w1.store.secrets = w.store.secrets
      ∧ w1.store.configMaps = w.store.configMaps
      ∧ (r = none → (w1.store.bindInfos ⟨b.Namespace, b.Name⟩).map (fun s => s.Status.Phase)
            = some phase) := by
    intro phase r w1 h
    unfold updateBindInfoPhase at h
    obtain ⟨u1, u2⟩ := updateBindInfoStatus_spec h
    cases r with
    | none =>
      obtain ⟨s, -, hw1⟩ := u1 rfl
      subst hw1
      simp [World.tick, Store.putBindInfo]
    | some e =>
      have := u2 (by simp)
      subst this
      simp [World.tick]
  unfold reconcileFinish
  by_cases he : merr.Errors = []
  · have hl : ¬ merr.Errors.length ≠ 0 := by simp [he]
    rw [if_neg hl, if_pos he]
    rcases hu : updateBindInfoPhase env b BindInfoCompleted rs w with ⟨r, w1⟩
    obtain ⟨a1, a2, a3, a4⟩ := hphase _ _ _ hu
    cases r with
    | none => simp [a1, a2, a3, a4, he]
    | some e => simp [a1, a2, a3]
  · have hl : merr.Errors.length ≠ 0 := by
      intro h; exact he (List.length_eq_zero.mp h)
    rw [if_pos hl, if_neg he]
    rcases hu : updateBindInfoPhase env b BindInfoFailed rs w with ⟨r, w1⟩
    obtain ⟨a1, a2, a3, a4⟩ := hphase _ _ _ hu
    cases r with
    | none => simp [a1, a2, a3, a4, he]
    | some e => simp [a1, a2, a3]

/-! ## The loops and the iteration over all pairs -/

theorem bindingLoop_eq_servePairs (env : Env) (b : OperandBindInfo) (ns : String)
    (c : ReconcileRequest) (spec : OperandRequestSpec) (bs : List Binding) (merr : MultiErr)
    (w : World) :
    bindingLoop env
        (getBindingInfofromRequest b { Name := c.Name, Namespace := c.Namespace, Spec := spec }).1
        (getBindingInfofromRequest b { Name := c.Name, Namespace := c.Namespace, Spec := spec }).2
        ns c.Namespace b { Name := c.Name, Namespace := c.Namespace, Spec := spec } bs merr w
      = ({ Errors := (servePairs env b ns c spec bs (merr.Errors, w)).1 },
          (servePairs env b ns c spec bs (merr.Errors, w)).2) := by
  induction bs generalizing merr w with
  | nil => rfl
  | cons x rest ih =>
    unfold bindingLoop
    by_cases hpub : x.Scope = ScopePublic
    · rw [if_pos hpub]
      have hstep : servePairs env b ns c spec (x :: rest) (merr.Errors, w)
          = servePairs env b ns c spec rest
              (merr.Errors ++ (syncPair env b ns c spec x w).1.toList,
                (syncPair env b ns c spec x w).2) := by
        simp [servePairs, List.filter_cons, hpub]
      rw [hstep]
      unfold syncPair
      rcases hcs : copySecret env x.Secret
        (getBindingInfofromRequest b { Name := c.Name, Namespace := c.Namespace, Spec := spec }).1
        ns c.Namespace b { Name := c.Name, Namespace := c.Namespace, Spec := spec } w
        with ⟨r1, w1⟩
      cases r1 with
      | some err =>
        simp only []
        rw [ih]
        rfl
      | none =>
        simp only []
        rcases hcc : copyConfigmap env x.Configmap
          (getBindingInfofromRequest b
            { Name := c.Name, Namespace := c.Namespace, Spec := spec }).2
          ns c.Namespace b { Name := c.Name, Namespace := c.Namespace, Spec := spec } w1
          with ⟨r2, w2⟩
        cases r2 with
        | some err =>
          simp only []
          rw [ih]
          rfl
        | none =>
          simp only []
          rw [ih]
          simp
    · rw [if_neg hpub]
      have hstep : servePairs env b ns c spec (x :: rest) (merr.Errors, w)
          = servePairs env b ns c spec rest (merr.Errors, w) := by
        simp [servePairs, List.filter_cons, hpub]
      rw [hstep]
      exact ih merr w

theorem serveAll_cons_skip (env : Env) (b : OperandBindInfo) (ns : String)
    (c : ReconcileRequest) (rest : List ReconcileRequest) (acc : List Err × World)
    (h : ns = c.Namespace) :
    serveAll env b ns (c :: rest) acc = serveAll env b ns rest acc := by
  simp [serveAll, List.filter_cons, h]

theorem serveAll_cons_serve (env : Env) (b : OperandBindInfo) (ns : String)
    (c : ReconcileRequest) (rest : List ReconcileRequest) (acc : List Err × World)
    (h : ns ≠ c.Namespace) (spec : OperandRequestSpec)
    (hspec : acc.2.store.requests ⟨c.Namespace, c.Name⟩ = some spec) :
    serveAll env b ns (c :: rest) acc
      = serveAll env b ns rest (servePairs env b ns c spec b.Spec.Bindings (acc.1, acc.2.tick)) := by
  simp [serveAll, List.filter_cons, h, hspec]

/-- When the consumer loop runs to its end, it has done what the iteration over all
pairs does: the errors it collected are those returned by the synchronizations of
the pairs, in order, and the cluster is the one they left. -/
theorem consumerLoop_eq_serveAll (env : Env) (b : OperandBindInfo) (ns : String)
    (rs : List ReconcileRequest) (merr : MultiErr) (w : World) (merr' : MultiErr)
    (hend : (consumerLoop env b ns rs merr w).1 = .inr merr') :
    merr'.Errors = (serveAll env b ns rs (merr.Errors, w)).1
    ∧ (consumerLoop env b ns rs merr w).2 = (serveAll env b ns rs (merr.Errors, w)).2 := by
  induction rs generalizing merr w with
  | nil =>
    unfold consumerLoop at hend
    simp only [Sum.inr.injEq] at hend
    subst hend
    exact ⟨rfl, rfl⟩
  | cons c rest ih =>
    unfold consumerLoop at hend ⊢
    by_cases hsame : ns = c.Namespace
    · rw [if_pos hsame] at hend ⊢
      rw [serveAll_cons_skip env b ns c rest _ hsame]
      exact ih merr w hend
    · rw [if_neg hsame] at hend ⊢
      rcases hg : getRequest env ⟨c.Namespace, c.Name⟩ w with ⟨r1, w1⟩
      rw [hg] at hend
      obtain ⟨e1, f1⟩ := getRequest_spec hg
      subst e1
      cases r1 with
      | error err => simp at hend
      | ok q =>
        obtain ⟨hn, hns, hspec⟩ := f1 q rfl
        have hq : q = { Name := c.Name, Namespace := c.Namespace, Spec := q.Spec } := by
          cases q
          simp only at hn hns
          subst hn
          subst hns
          rfl
        simp only [] at hend ⊢
        rw [hq] at hend ⊢
        rw [bindingLoop_eq_servePairs] at hend ⊢
        simp only [] at hend ⊢
        rw [serveAll_cons_serve env b ns c rest (merr.Errors, w) hsame q.Spec hspec]
        exact ih _ _ hend

theorem copySecret_requests (env : Env) (secName secNameReq sourceNs targetNs : String)
    (b : OperandBindInfo) (q : OperandRequest) (w : World) :
    (copySecret env secName secNameReq sourceNs targetNs b q w).2.store.requests
      = w.store.requests := by
  obtain ⟨-, hcase⟩ := copySecret_outcome env secName secNameReq sourceNs targetNs b q w
  rcases hcase with ⟨h, -⟩ | ⟨s, -, -, -, h⟩ | ⟨s, -, -, -, h⟩ <;> rw [h] <;> rfl

theorem copyConfigmap_requests (env : Env) (cmName cmNameReq sourceNs targetNs : String)
    (b : OperandBindInfo) (q : OperandRequest) (w : World) :
    (copyConfigmap env cmName cmNameReq sourceNs targetNs b q w).2.store.requests
      = w.store.requests := by
  obtain ⟨-, hcase⟩ := copyConfigmap_outcome env cmName cmNameReq sourceNs targetNs b q w
  rcases hcase with ⟨h, -⟩ | ⟨s, -, -, -, h⟩ | ⟨s, -, -, -, h⟩ <;> rw [h] <;> rfl

theorem bindingLoop_requests (env : Env)
    (secretReq cmReq operandNamespace targetNs : String) (b : OperandBindInfo)
    (q : OperandRequest) (bs : List Binding) (merr : MultiErr) (w : World) :
    (bindingLoop env secretReq cmReq operandNamespace targetNs b q bs merr w).2.store.requests
      = w.store.requests := by
  induction bs generalizing merr w with
  | nil => rfl
  | cons x rest ih =>
    unfold bindingLoop
    split
    · have h1 := copySecret_requests env x.Secret secretReq operandNamespace targetNs b q w
      rcases hcs : copySecret env x.Secret secretReq operandNamespace targetNs b q w
        with ⟨r1, w1⟩
      rw [hcs] at h1
      cases r1 with
      | some err =>
        simp only []
        rw [ih]; exact h1
      | none =>
        simp only []
        have h2 := copyConfigmap_requests env x.Configmap cmReq operandNamespace targetNs b q w1
        rcases hcc : copyConfigmap env x.Configmap cmReq operandNamespace targetNs b q w1
          with ⟨r2, w2⟩
        rw [hcc] at h2
        cases r2 with
        | some err =>
          simp only []
          rw [ih]; exact h2.trans h1
        | none =>
          simp only []
          rw [ih]; exact h2.trans h1
    · exact ih merr w

/-- When every Request of a consumer outside the source namespace is in the store
and reading it never fails, the consumer loop runs to its end, whatever the
synchronizations return. -/
theorem consumerLoop_finishes (env : Env) (b : OperandBindInfo) (ns : String)
    (rs : List ReconcileRequest)
    (hread : ∀ n, ∀ c ∈ rs,
      env.faults n { verb := .get, kind := .request, key := ⟨c.Namespace, c.Name⟩ } = none)
    (merr : MultiErr) (w : World) (hfound : requestsFound ns w.store.requests rs) :
    ∃ merr', (consumerLoop env b ns rs merr w).1 = .inr merr' := by
  induction rs generalizing merr w with
  | nil => exact ⟨merr, rfl⟩
  | cons c rest ih =>
    have hread' : ∀ n, ∀ x ∈ rest,
        env.faults n { verb := .get, kind := .request, key := ⟨x.Namespace, x.Name⟩ } = none :=
      fun n x hx => hread n x (List.mem_cons_of_mem _ hx)
    have hfound' : requestsFound ns w.store.requests rest :=
      fun x hx => hfound x (List.mem_cons_of_mem _ hx)
    unfold consumerLoop
    by_cases hsame : ns = c.Namespace
    · rw [if_pos hsame]
      exact ih hread' merr w hfound'
    · rw [if_neg hsame]
      cases hq : w.store.requests ⟨c.Namespace, c.Name⟩ with
      | none => exact absurd hq (hfound c (List.mem_cons_self _ _) hsame)
      | some spec =>
        have hg : getRequest env ⟨c.Namespace, c.Name⟩ w
            = (.ok { Name := c.Name, Namespace := c.Namespace, Spec := spec }, w.tick) := by
          simp [getRequest, hread w.clock c (List.mem_cons_self _ _), hq]
        rw [hg]
        simp only []
        have hreq := bindingLoop_requests env
          (getBindingInfofromRequest b { Name := c.Name, Namespace := c.Namespace, Spec := spec }).1
          (getBindingInfofromRequest b { Name := c.Name, Namespace := c.Namespace, Spec := spec }).2
          ns c.Namespace b { Name := c.Name, Namespace := c.Namespace, Spec := spec }
          b.Spec.Bindings merr w.tick
        rcases hbl : bindingLoop env
          (getBindingInfofromRequest b { Name := c.Name, Namespace := c.Namespace, Spec := spec }).1
          (getBindingInfofromRequest b { Name := c.Name, Namespace := c.Namespace, Spec := spec }).2
          ns c.Namespace b { Name := c.Name, Namespace := c.Namespace, Spec := spec }
          b.Spec.Bindings merr w.tick with ⟨m1, w2⟩
        rw [hbl] at hreq
        simp only []
        exact ih hread' m1 w2 (by
          have : w2.store.requests = w.store.requests := hreq
          rw [this]; exact hfound')

/-- When the consumer loop runs to its end, the secret synchronizer has been
invoked, for every consumer outside the namespace of the operand and every public
binding, with the target name that the Request of the consumer declares. -/
theorem consumerLoop_attempts_named (env : Env) (b : OperandBindInfo) (ns : String)
    (rs : List ReconcileRequest) (merr : MultiErr) (w : World) (merr' : MultiErr)
    (hend : (consumerLoop env b ns rs merr w).1 = .inr merr') :
    ∀ c ∈ rs, c.Namespace ≠ ns → ∀ spec, w.store.requests ⟨c.Namespace, c.Name⟩ = some spec →
      ∀ binding ∈ b.Spec.Bindings, binding.Scope = ScopePublic →
      (⟨.secret, binding.Secret,
          (getBindingInfofromRequest b
            { Name := c.Name, Namespace := c.Namespace, Spec := spec }).1,
          ns, c.Namespace⟩ : SyncCall)
        ∈ (consumerLoop env b ns rs merr w).2.syncCalls := by
  induction rs generalizing merr w with
  | nil => intro c hc; cases hc
  | cons c0 rest ih =>
    intro c hc hne spec hspec binding hb hpub
    have hkeep : ∀ (m : MultiErr) (w1 : World) (x : SyncCall), x ∈ w1.syncCalls →
        x ∈ (consumerLoop env b ns rest m w1).2.syncCalls := by
      intro m w1 x hx
      obtain ⟨calls, hcalls, -⟩ := consumerLoop_effect (P := fun _ => True) env b
        ns rest (fun _ _ _ _ _ _ _ _ => ⟨trivial, trivial⟩) m w1
      rw [hcalls]
      exact List.mem_append_left _ hx
    unfold consumerLoop at hend ⊢
    by_cases hsame : ns = c0.Namespace
    · rw [if_pos hsame] at hend ⊢
      rcases List.mem_cons.mp hc with rfl | hmem
      · exact absurd hsame.symm hne
      · exact ih _ _ hend c hmem hne spec hspec binding hb hpub
    · rw [if_neg hsame] at hend ⊢
      rcases hg : getRequest env ⟨c0.Namespace, c0.Name⟩ w with ⟨r1, w1⟩
      rw [hg] at hend
      obtain ⟨e1, f1⟩ := getRequest_spec hg
      subst e1
      cases r1 with
      | error err => simp at hend
      | ok q =>
        obtain ⟨hn, hns, hq⟩ := f1 q rfl
        have hqe : q = { Name := c0.Name, Namespace := c0.Namespace, Spec := q.Spec } := by
          cases q
          simp only at hn hns
          subst hn
          subst hns
          rfl
        simp only [] at hend ⊢
        have hreq := bindingLoop_requests env (getBindingInfofromRequest b q).1
          (getBindingInfofromRequest b q).2 ns c0.Namespace b q b.Spec.Bindings merr w.tick
        rcases hbl : bindingLoop env (getBindingInfofromRequest b q).1
          (getBindingInfofromRequest b q).2 ns c0.Namespace b q b.Spec.Bindings
          merr w.tick with ⟨m1, w2⟩
        rw [hbl] at hend hreq
        simp only [] at hend
        rcases List.mem_cons.mp hc with rfl | hmem
        · refine hkeep _ _ _ ?_
          have hsp : q.Spec = spec := by
            rw [hq] at hspec
            exact Option.some.inj hspec
          have := bindingLoop_attempts env (getBindingInfofromRequest b q).1
            (getBindingInfofromRequest b q).2 ns c.Namespace b q b.Spec.Bindings
            merr w.tick binding hb hpub
          rw [hbl] at this
          rw [← hsp, ← hqe]
          exact this
        · have hreq' : w2.store.requests = w.store.requests := hreq
          exact ih _ _ hend c hmem hne spec (by rw [hreq']; exact hspec) binding hb hpub

/-! ## Claims on the orchestrator -/

/-- The method `Reconcile` is its three parts in sequence. -/
theorem Reconcile_of_loop_end (env : Env) (key : NamespacedName) (w : World) (res : Resolved)
    (merr : MultiErr) (hres : (reconcileResolve env key w).1 = .inr res)
    (hloop : (loopFrom env res (reconcileResolve env key w).2).1 = .inr merr) :
    Reconcile env key w
      = reconcileFinish env res.bindInfoInstance res.requestNamespaces merr
          (loopFrom env res (reconcileResolve env key w).2).2 := by
  unfold Reconcile
  rcases h1 : reconcileResolve env key w with ⟨r1, w1⟩
  rw [h1] at hres hloop
  simp only [] at hres hloop
  subst hres
  simp only []
  unfold loopFrom at hloop ⊢
  rcases h2 : consumerLoop env res.bindInfoInstance res.operandNamespace res.requestNamespaces
    { Errors := [] } w1 with ⟨r2, w2⟩
  rw [h2] at hloop
  simp only [] at hloop
  subst hloop
  rfl

/-- C2 (amended): in a pass that gets past Registry resolution (with at least one
consumer and a non-empty source namespace) and finishes the consumer loop, the
errors collected are exactly the errors returned by the secret and configmap
synchronizations of the pairs of the pass; the phase to write is `Failed` when at
least one synchronization returned an error and `Completed` otherwise, whatever the
phase before the pass; when persisting that phase succeeds, it is the stored phase
and `Reconcile` returns the combined error in the first case and `nil` in the
second; when persisting it fails, `Reconcile` returns that failure. -/
theorem Reconcile_phase_from_errors (env : Env) (key : NamespacedName) (w : World)
    (res : Resolved) (merr : MultiErr)
    (hres : (reconcileResolve env key w).1 = .inr res)
    (hloop : (loopFrom env res (reconcileResolve env key w).2).1 = .inr merr) :
    res.requestNamespaces ≠ [] ∧ res.operandNamespace ≠ ""
    ∧ merr.Errors
        = (serveAll env res.bindInfoInstance res.operandNamespace res.requestNamespaces
            ([], (reconcileResolve env key w).2)).1
    ∧ ((updateBindInfoPhase env res.bindInfoInstance (phaseFor merr) res.requestNamespaces
          (loopFrom env res (reconcileResolve env key w).2).2).1 = none →
        (Reconcile env key w).1
            = (if (serveAll env res.bindInfoInstance res.operandNamespace res.requestNamespaces
                    ([], (reconcileResolve env key w).2)).1 = [] then none
               else some (.combined
                { Errors := (serveAll env res.bindInfoInstance res.operandNamespace
                    res.requestNamespaces ([], (reconcileResolve env key w).2)).1 }))
        ∧ ((Reconcile env key w).2.store.bindInfos key).map (fun s => s.Status.Phase)
            = some (if (serveAll env res.bindInfoInstance res.operandNamespace
                          res.requestNamespaces ([], (reconcileResolve env key w).2)).1 = []
                    then BindInfoCompleted else BindInfoFailed))
    ∧ (∀ err, (updateBindInfoPhase env res.bindInfoInstance (phaseFor merr)
          res.requestNamespaces (loopFrom env res (reconcileResolve env key w).2).2).1
            = some err →
        (Reconcile env key w).1 = some (.single err)) := by
  obtain ⟨-, -, -, -, -, hfacts⟩ := reconcileResolve_spec env key w
  obtain ⟨hrs, hns, hname, hnamespace⟩ := hfacts res hres
  have hkey : (⟨res.bindInfoInstance.Namespace, res.bindInfoInstance.Name⟩ : NamespacedName)
      = key := by
    rw [hname, hnamespace]
  obtain ⟨hE, -⟩ := consumerLoop_eq_serveAll env res.bindInfoInstance res.operandNamespace
    res.requestNamespaces { Errors := [] } (reconcileResolve env key w).2 merr hloop
  have hm : merr = { Errors := (serveAll env res.bindInfoInstance res.operandNamespace
      res.requestNamespaces ([], (reconcileResolve env key w).2)).1 } := by
    cases merr
    simp only [MultiErr.mk.injEq]
    exact hE
  rw [Reconcile_of_loop_end env key w res merr hres hloop]
  obtain ⟨-, hok, herr, -⟩ := reconcileFinish_spec env res.bindInfoInstance
    res.requestNamespaces merr (loopFrom env res (reconcileResolve env key w).2).2
  rw [hkey] at hok
  refine ⟨hrs, hns, hE, ?_, herr⟩
  intro hp
  have h := hok hp
  rw [hE] at h
  rw [hm]
  rw [hm] at h
  exact h

/-- C2 (witness): on the sample cluster with one consumer and no failing call the
pass ends with phase `Completed` and returns `nil`; on the sample cluster with
three consumers where creating the secret of the second one fails, it ends with
phase `Failed` and returns the combined error. -/
theorem Reconcile_phase_from_errors_witness :
    ((Reconcile plainEnv ⟨"src", "bi"⟩ (sampleWorld true [⟨"r1", "c1"⟩] [⟨"r1", "c1"⟩])).1 = none
      ∧ ((Reconcile plainEnv ⟨"src", "bi"⟩
            (sampleWorld true [⟨"r1", "c1"⟩] [⟨"r1", "c1"⟩])).2.store.bindInfos
          ⟨"src", "bi"⟩).map (fun s => s.Status.Phase) = some "Completed")
    ∧ ((Reconcile failingC2Env ⟨"src", "bi"⟩
          (sampleWorld true threeConsumers threeConsumers)).1
        = some (.combined { Errors := [.Other 1] })
      ∧ ((Reconcile failingC2Env ⟨"src", "bi"⟩
            (sampleWorld true threeConsumers threeConsumers)).2.store.bindInfos
          ⟨"src", "bi"⟩).map (fun s => s.Status.Phase) = some "Failed") :=
  ⟨(Reconcile_phase_from_errors plainEnv ⟨"src", "bi"⟩
      (sampleWorld true [⟨"r1", "c1"⟩] [⟨"r1", "c1"⟩]) (sampleResolved [⟨"r1", "c1"⟩])
      { Errors := [] } (by decide) (by decide)).2.2.2.1 (by decide),
   (Reconcile_phase_from_errors failingC2Env ⟨"src", "bi"⟩
      (sampleWorld true threeConsumers threeConsumers) (sampleResolved threeConsumers)
      { Errors := [.Other 1] } (by decide) (by decide)).2.2.2.1 (by decide)⟩

/-- C2 (counterexample): on the sample cluster with one consumer, when the status
update issued at the end of the pass fails, the pass gets past Registry resolution
and finishes the consumer loop, no synchronization returns an error, yet
`Reconcile` returns an error and the stored phase is not `Completed`. -/
theorem Reconcile_clean_pass_returns_error :
    (reconcileResolve lateStatusFailureEnv ⟨"src", "bi"⟩
        (sampleWorld true [⟨"r1", "c1"⟩] [⟨"r1", "c1"⟩])).1
      = .inr (sampleResolved [⟨"r1", "c1"⟩])
    ∧ (loopFrom lateStatusFailureEnv (sampleResolved [⟨"r1", "c1"⟩])
        (reconcileResolve lateStatusFailureEnv ⟨"src", "bi"⟩
          (sampleWorld true [⟨"r1", "c1"⟩] [⟨"r1", "c1"⟩])).2).1 = .inr { Errors := [] }
    ∧ (serveAll lateStatusFailureEnv (sampleResolved [⟨"r1", "c1"⟩]).bindInfoInstance "src"
        [⟨"r1", "c1"⟩]
        ([], (reconcileResolve lateStatusFailureEnv ⟨"src", "bi"⟩
          (sampleWorld true [⟨"r1", "c1"⟩] [⟨"r1", "c1"⟩])).2)).1 = []
    ∧ (Reconcile lateStatusFailureEnv ⟨"src", "bi"⟩
        (sampleWorld true [⟨"r1", "c1"⟩] [⟨"r1", "c1"⟩])).1 = some (.single (.Other 2))
    ∧ ((Reconcile lateStatusFailureEnv ⟨"src", "bi"⟩
          (sampleWorld true [⟨"r1", "c1"⟩] [⟨"r1", "c1"⟩])).2.store.bindInfos
        ⟨"src", "bi"⟩).map (fun s => s.Status.Phase) = some "Init" := by
  decide

/-- C3 (amended): in a pass that reaches the consumer loop, when the Request of
every recorded consumer outside the source namespace exists and reading it does not
fail, the loop runs to its end whatever the synchronizations return, and it does
what the iteration over all pairs does: every pair of a consumer outside the source
namespace and a public binding is synchronized (the secret, and the configmap when
the secret of the pair returned no error) and the errors are collected; so the
secret synchronization of every such pair is invoked, with the name that the
Request of the consumer declares. In particular, with three consumers where
creating the secret of the second one fails, the copies for the first and the third
are in the store, the second has none, the combined error is returned and the phase
is `Failed`. -/
theorem Reconcile_serves_every_pair (env : Env) (key : NamespacedName) (w : World)
    (res : Resolved)
    (hres : (reconcileResolve env key w).1 = .inr res)
    (hread : ∀ n, ∀ c ∈ res.requestNamespaces,
      env.faults n { verb := .get, kind := .request, key := ⟨c.Namespace, c.Name⟩ } = none)
    (hfound : requestsFound res.operandNamespace w.store.requests res.requestNamespaces) :
    loopFrom env res (reconcileResolve env key w).2
        = (.inr { Errors := (serveAll env res.bindInfoInstance res.operandNamespace
                    res.requestNamespaces ([], (reconcileResolve env key w).2)).1 },
            (serveAll env res.bindInfoInstance res.operandNamespace
              res.requestNamespaces ([], (reconcileResolve env key w).2)).2)
    ∧ (∀ c ∈ res.requestNamespaces, c.Namespace ≠ res.operandNamespace →
        ∀ spec, w.store.requests ⟨c.Namespace, c.Name⟩ = some spec →
        ∀ binding ∈ res.bindInfoInstance.Spec.Bindings, binding.Scope = ScopePublic →
          (⟨.secret, binding.Secret,
              (getBindingInfofromRequest res.bindInfoInstance
                { Name := c.Name, Namespace := c.Namespace, Spec := spec }).1,
              res.operandNamespace, c.Namespace⟩ : SyncCall)
            ∈ (Reconcile env key w).2.syncCalls)
    ∧ ((Reconcile failingC2Env ⟨"src", "bi"⟩
          (sampleWorld true threeConsumers threeConsumers)).1
        = some (.combined { Errors := [.Other 1] })
      ∧ (Reconcile failingC2Env ⟨"src", "bi"⟩
          (sampleWorld true threeConsumers threeConsumers)).2.store.secrets ⟨"c1", "my-secret"⟩
        = some (secretCopyOf { renamingRequest with Name := "r1", Namespace := "c1" } dbSecret)
      ∧ (Reconcile failingC2Env ⟨"src", "bi"⟩
          (sampleWorld true threeConsumers threeConsumers)).2.store.secrets ⟨"c2", "my-secret"⟩
        = none
      ∧ (Reconcile failingC2Env ⟨"src", "bi"⟩
          (sampleWorld true threeConsumers threeConsumers)).2.store.secrets ⟨"c3", "my-secret"⟩
        = some (secretCopyOf { renamingRequest with Name := "r3", Namespace := "c3" } dbSecret)
      ∧ (Reconcile failingC2Env ⟨"src", "bi"⟩
          (sampleWorld true threeConsumers threeConsumers)).2.store.configMaps ⟨"c1", "db-cm"⟩
        = some (configMapCopyOf { renamingRequest with Name := "r1", Namespace := "c1" } dbConfig)
      ∧ (Reconcile failingC2Env ⟨"src", "bi"⟩
          (sampleWorld true threeConsumers threeConsumers)).2.store.configMaps ⟨"c3", "db-cm"⟩
        = some (configMapCopyOf { renamingRequest with Name := "r3", Namespace := "c3" } dbConfig)
      ∧ ((Reconcile failingC2Env ⟨"src", "bi"⟩
            (sampleWorld true threeConsumers threeConsumers)).2.store.bindInfos
          ⟨"src", "bi"⟩).map (fun s => s.Status.Phase) = some "Failed") := by
  obtain ⟨-, -, -, hreq, -, -⟩ := reconcileResolve_spec env key w
  obtain ⟨merr, hend⟩ := consumerLoop_finishes env res.bindInfoInstance res.operandNamespace
    res.requestNamespaces hread { Errors := [] } (reconcileResolve env key w).2
    (by rw [hreq]; exact hfound)
  obtain ⟨hE, hW⟩ := consumerLoop_eq_serveAll env res.bindInfoInstance res.operandNamespace
    res.requestNamespaces { Errors := [] } (reconcileResolve env key w).2 merr hend
  have hloop : (loopFrom env res (reconcileResolve env key w).2).1 = .inr merr := hend
  refine ⟨?_, ?_, by decide⟩
  · have h1 : (loopFrom env res (reconcileResolve env key w).2).1
        = .inr { Errors := (serveAll env res.bindInfoInstance res.operandNamespace
            res.requestNamespaces ([], (reconcileResolve env key w).2)).1 } := by
      rw [hloop, ← hE]
    have h2 : (loopFrom env res (reconcileResolve env key w).2).2
        = (serveAll env res.bindInfoInstance res.operandNamespace
            res.requestNamespaces ([], (reconcileResolve env key w).2)).2 := hW
    exact Prod.ext h1 h2
  · intro c hc hne spec hspec binding hb hpub
    rw [Reconcile_of_loop_end env key w res merr hres hloop]
    obtain ⟨-, -, -, hcalls, -⟩ := reconcileFinish_spec env res.bindInfoInstance
      res.requestNamespaces merr (loopFrom env res (reconcileResolve env key w).2).2
    rw [hcalls]
    exact consumerLoop_attempts_named env res.bindInfoInstance res.operandNamespace
      res.requestNamespaces { Errors := [] } (reconcileResolve env key w).2 merr hend
      c hc hne spec (by rw [hreq]; exact hspec) binding hb hpub

/-- C3 (witness): in the pass over three consumers in which creating the secret of
the second one fails, every Request is read, and the secret synchronization for the
third consumer is invoked with the name `my-secret` that its Request declares. -/
theorem Reconcile_serves_every_pair_witness :
    (⟨.secret, "db-secret", "my-secret", "src", "c3"⟩ : SyncCall)
      ∈ (Reconcile failingC2Env ⟨"src", "bi"⟩
          (sampleWorld true threeConsumers threeConsumers)).2.syncCalls :=
  (Reconcile_serves_every_pair failingC2Env ⟨"src", "bi"⟩
    (sampleWorld true threeConsumers threeConsumers) (sampleResolved threeConsumers)
    (by decide) (fun _ _ _ => rfl) (by decide)).2.1
    ⟨"r3", "c3"⟩ (by decide) (by decide) renamingRequest.Spec (by decide)
    { Scope := "public", Secret := "db-secret", Configmap := "db-cm" } (by decide) (by decide)

/-- C3 (counterexample): three consumers are recorded and their Requests exist, but
reading the Request of the second one fails. The pair of the first consumer is
synchronized; then `Reconcile` returns the read error at once: no synchronizer is
invoked for the third consumer, which gets no copy, and the phase is not written. -/
theorem Reconcile_stops_at_unreadable_request :
    (Reconcile unreadableC2Env ⟨"src", "bi"⟩
        (sampleWorld true threeConsumers threeConsumers)).1 = some (.single (.Other 4))
    ∧ (Reconcile unreadableC2Env ⟨"src", "bi"⟩
        (sampleWorld true threeConsumers threeConsumers)).2.syncCalls
      = [⟨.secret, "db-secret", "my-secret", "src", "c1"⟩,
         ⟨.configMap, "db-cm", "my-cm", "src", "c1"⟩]
    ∧ (sampleWorld true threeConsumers threeConsumers).store.requests ⟨"c3", "r3"⟩
      = some renamingRequest.Spec
    ∧ (Reconcile unreadableC2Env ⟨"src", "bi"⟩
        (sampleWorld true threeConsumers threeConsumers)).2.store.secrets ⟨"c1", "my-secret"⟩
      = some (secretCopyOf { renamingRequest with Name := "r1", Namespace := "c1" } dbSecret)
    ∧ (Reconcile unreadableC2Env ⟨"src", "bi"⟩
        (sampleWorld true threeConsumers threeConsumers)).2.store.secrets ⟨"c3", "my-secret"⟩
      = none
    ∧ (Reconcile unreadableC2Env ⟨"src", "bi"⟩
        (sampleWorld true threeConsumers threeConsumers)).2.store.configMaps ⟨"c3", "db-cm"⟩
      = none
    ∧ ((Reconcile unreadableC2Env ⟨"src", "bi"⟩
          (sampleWorld true threeConsumers threeConsumers)).2.store.bindInfos
        ⟨"src", "bi"⟩).map (fun s => s.Status.Phase) = some "Init" := by
  decide

/-- C7: every synchronizer invocation of a `Reconcile` pass is made after the
Registry was resolved, from the namespace of the operand to the namespace of a
recorded consumer different from it, for the secret or the configmap of a binding
of the BindInfo whose scope is `public`; and every secret or configmap that the
pass created or changed is the copy or the source of such an invocation. -/
theorem Reconcile_copies_only_public_foreign (env : Env) (key : NamespacedName) (w : World) :
    ∃ calls, (Reconcile env key w).2.syncCalls = w.syncCalls ++ calls
      ∧ (∀ c ∈ calls, ∃ res, (reconcileResolve env key w).1 = .inr res
          ∧ c.sourceNs = res.operandNamespace
          ∧ c.targetNs ≠ res.operandNamespace
          ∧ (∃ r ∈ res.requestNamespaces, r.Namespace = c.targetNs)
          ∧ ∃ binding ∈ res.bindInfoInstance.Spec.Bindings, binding.Scope = ScopePublic
              ∧ ((c.kind = Kind.secret ∧ c.sourceName = binding.Secret)
                  ∨ (c.kind = Kind.configMap ∧ c.sourceName = binding.Configmap)))
      ∧ (∀ k, (Reconcile env key w).2.store.secrets k ≠ w.store.secrets k →
          ∃ c ∈ calls, c.kind = Kind.secret
            ∧ (k = ⟨c.targetNs, c.targetName⟩ ∨ k = ⟨c.sourceNs, c.sourceName⟩))
      ∧ (∀ k, (Reconcile env key w).2.store.configMaps k ≠ w.store.configMaps k →
          ∃ c ∈ calls, c.kind = Kind.configMap
            ∧ (k = ⟨c.targetNs, c.sourceName⟩ ∨ k = ⟨c.sourceNs, c.sourceName⟩)) := by
  obtain ⟨hc0, hs0, hm0, -, -, -⟩ := reconcileResolve_spec env key w
  -- the statement is an `Effect` with the predicate below
  suffices h : Effect (fun c => ∃ res, (reconcileResolve env key w).1 = .inr res
      ∧ callAllowed res c) w (Reconcile env key w).2 by
    obtain ⟨calls, h1, h2, h3, h4⟩ := h
    exact ⟨calls, h1, h2, h3, h4⟩
  unfold Reconcile
  rcases h1 : reconcileResolve env key w with ⟨r1, w1⟩
  rw [h1] at hc0 hs0 hm0
  simp only [] at hc0 hs0 hm0
  have e0 : Effect (fun c => ∃ res, r1 = .inr res ∧ callAllowed res c) w w1 :=
    Effect.of_same hc0 hs0 hm0
  cases r1 with
  | inl ret => exact e0
  | inr res =>
    simp only []
    have eloop := consumerLoop_effect
      (P := fun c => ∃ res', (Sum.inr res : Option Failure ⊕ Resolved) = .inr res'
        ∧ callAllowed res' c) env res.bindInfoInstance
      res.operandNamespace res.requestNamespaces
      (by
        intro c hc hne binding hb hpub secretReq cmReq
        exact ⟨⟨res, rfl, rfl, fun h => hne h.symm, ⟨c, hc, rfl⟩, binding, hb, hpub,
            Or.inl ⟨rfl, rfl⟩⟩,
          ⟨res, rfl, rfl, fun h => hne h.symm, ⟨c, hc, rfl⟩, binding, hb, hpub,
            Or.inr ⟨rfl, rfl⟩⟩⟩)
      { Errors := [] } w1
    rcases h2 : consumerLoop env res.bindInfoInstance res.operandNamespace
      res.requestNamespaces { Errors := [] } w1 with ⟨r2, w2⟩
    rw [h2] at eloop
    cases r2 with
    | inl ret => exact e0.trans eloop
    | inr merr =>
      simp only []
      obtain ⟨-, -, -, f1, f2, f3⟩ := reconcileFinish_spec env res.bindInfoInstance
        res.requestNamespaces merr w2
      exact e0.trans (eloop.trans (Effect.of_same f1 f2 f3))

/-! ## Sequences of copies -/

section Copies

variable {α : Type}

theorem CopyOp.apply_source (ns : String) (owned : α → α) (S : NamespacedName → Option α)
    (o : CopyOp α) (htk : o.skip = false → o.tkey.Namespace ≠ ns) (n : String) :
    o.apply ns owned S ⟨ns, n⟩
      = if o.skip = false ∧ o.sname = n then (S ⟨ns, n⟩).map owned else S ⟨ns, n⟩ := by
  unfold CopyOp.apply
  by_cases hskip : o.skip = true
  · simp [hskip]
  · have hskip' : o.skip = false := by simpa using hskip
    have hne : (⟨ns, n⟩ : NamespacedName) ≠ o.tkey := by
      intro h
      exact htk hskip' (by rw [← h])
    simp only [hskip', Bool.false_eq_true, if_false, true_and]
    cases hs : S ⟨ns, o.sname⟩ with
    | none =>
      by_cases hn : o.sname = n
      · subst hn; simp [hs]
      · simp [hn]
    | some s =>
      by_cases hn : o.sname = n
      · subst hn; simp [hs]
      · have hk : (⟨ns, n⟩ : NamespacedName) ≠ ⟨ns, o.sname⟩ := by
          intro h
          exact hn (congrArg NamespacedName.Name h).symm
        simp [hn, Function.update_noteq hk, Function.update_noteq hne]

theorem CopyOp.apply_target (ns : String) (owned : α → α) (S : NamespacedName → Option α)
    (o : CopyOp α) (k : NamespacedName) (hk : k.Namespace ≠ ns) :
    o.apply ns owned S k = o.cell ns S k (S k) := by
  unfold CopyOp.apply CopyOp.cell
  have hsrc : ∀ n, k ≠ (⟨ns, n⟩ : NamespacedName) := by
    intro n h
    exact hk (by rw [h])
  by_cases hskip : o.skip = true
  · simp [hskip]
  · have hskip' : o.skip = false := by simpa using hskip
    simp only [hskip', Bool.false_eq_true, if_false, true_and]
    cases hs : S ⟨ns, o.sname⟩ with
    | none => simp
    | some s =>
      by_cases hkey : o.tkey = k
      · subst hkey
        simp [Function.update_noteq (hsrc _)]
      · have hkey' : k ≠ o.tkey := fun h => hkey h.symm
        simp [hkey, Function.update_noteq (hsrc _), Function.update_noteq hkey']

theorem CopyOp.cell_congr (ns : String) (owned : α → α) (S S' : NamespacedName → Option α)
    (hrel : SourceRel ns owned S S') (o : CopyOp α) (hcopy : ∀ s, o.copy (owned s) = o.copy s)
    (k : NamespacedName) (v : Option α) :
    o.cell ns S' k v = o.cell ns S k v := by
  unfold CopyOp.cell
  split
  · rcases hrel o.sname with h | h
    · rw [h]
    · rw [h]
      cases S ⟨ns, o.sname⟩ with
      | none => rfl
      | some s => simp [hcopy]
  · rfl

theorem foldl_cell_congr (ns : String) (owned : α → α) (S S' : NamespacedName → Option α)
    (hrel : SourceRel ns owned S S') (ops : List (CopyOp α))
    (hcopy : ∀ o ∈ ops, ∀ s, o.copy (owned s) = o.copy s) (k : NamespacedName) (v : Option α) :
    ops.foldl (CopyOp.cell ns S' k) v = ops.foldl (CopyOp.cell ns S k) v := by
  induction ops generalizing v with
  | nil => rfl
  | cons o rest ih =>
    simp only [List.foldl_cons]
    rw [CopyOp.cell_congr ns owned S S' hrel o (hcopy o (List.mem_cons_self _ _))]
    exact ih (fun x hx => hcopy x (List.mem_cons_of_mem _ hx)) _

theorem runOps_source (ns : String) (owned : α → α) (hidem : ∀ s, owned (owned s) = owned s)
    (ops : List (CopyOp α)) (htk : ∀ o ∈ ops, o.skip = false → o.tkey.Namespace ≠ ns)
    (S : NamespacedName → Option α) (n : String) :
    runOps ns owned S ops ⟨ns, n⟩
      = if (∃ o ∈ ops, o.skip = false ∧ o.sname = n) then (S ⟨ns, n⟩).map owned
        else S ⟨ns, n⟩ := by
  induction ops generalizing S with
  | nil => simp [runOps]
  | cons o rest ih =>
    have ih' := ih (fun x hx => htk x (List.mem_cons_of_mem _ hx)) (o.apply ns owned S)
    unfold runOps at ih' ⊢
    rw [List.foldl_cons, ih', CopyOp.apply_source ns owned S o (htk o (List.mem_cons_self _ _))]
    by_cases ho : o.skip = false ∧ o.sname = n
    · have hex : ∃ x ∈ o :: rest, x.skip = false ∧ x.sname = n :=
        ⟨o, List.mem_cons_self _ _, ho⟩
      simp only [if_pos ho, if_pos hex]
      split
      · cases S ⟨ns, n⟩ with
        | none => rfl
        | some s => simp [hidem]
      · rfl
    · simp only [if_neg ho]
      by_cases hr : ∃ x ∈ rest, x.skip = false ∧ x.sname = n
      · have hex : ∃ x ∈ o :: rest, x.skip = false ∧ x.sname = n := by
          obtain ⟨x, hx, hp⟩ := hr
          exact ⟨x, List.mem_cons_of_mem _ hx, hp⟩
        rw [if_pos hr, if_pos hex]
      · have hex : ¬ ∃ x ∈ o :: rest, x.skip = false ∧ x.sname = n := by
          rintro ⟨x, hx, hp⟩
          rcases List.mem_cons.mp hx with rfl | hx'
          · exact ho hp
          · exact hr ⟨x, hx', hp⟩
        rw [if_neg hr, if_neg hex]

theorem runOps_sourceRel (ns : String) (owned : α → α) (hidem : ∀ s, owned (owned s) = owned s)
    (ops : List (CopyOp α)) (htk : ∀ o ∈ ops, o.skip = false → o.tkey.Namespace ≠ ns)
    (S : NamespacedName → Option α) :
    SourceRel ns owned S (runOps ns owned S ops) := by
  intro n
  rw [runOps_source ns owned hidem ops htk S n]
  split
  · exact Or.inr rfl
  · exact Or.inl rfl

theorem runOps_target (ns : String) (owned : α → α) (hidem : ∀ s, owned (owned s) = owned s)
    (ops : List (CopyOp α)) (htk : ∀ o ∈ ops, o.skip = false → o.tkey.Namespace ≠ ns)
    (hcopy : ∀ o ∈ ops, ∀ s, o.copy (owned s) = o.copy s)
    (S : NamespacedName → Option α) (k : NamespacedName) (hk : k.Namespace ≠ ns) :
    runOps ns owned S ops k = ops.foldl (CopyOp.cell ns S k) (S k) := by
  induction ops generalizing S with
  | nil => rfl
  | cons o rest ih =>
    have ih' := ih (fun x hx => htk x (List.mem_cons_of_mem _ hx))
      (fun x hx => hcopy x (List.mem_cons_of_mem _ hx)) (o.apply ns owned S)
    unfold runOps at ih' ⊢
    rw [List.foldl_cons, ih', List.foldl_cons, CopyOp.apply_target ns owned S o k hk]
    have hrel : SourceRel ns owned S (o.apply ns owned S) := by
      have := runOps_sourceRel ns owned hidem [o]
        (fun x hx => htk x (by rw [List.mem_singleton.mp hx]; exact List.mem_cons_self _ _)) S
      simpa [runOps] using this
    exact foldl_cell_congr ns owned S _ hrel rest
      (fun x hx => hcopy x (List.mem_cons_of_mem _ hx)) k _

theorem foldl_cell_absorb (ns : String) (S0 : NamespacedName → Option α) (k : NamespacedName)
    (ops : List (CopyOp α)) (v : Option α) :
    (ops.foldl (CopyOp.cell ns S0 k) v = v
      ∧ ∀ o ∈ ops, CopyOp.cell ns S0 k v o = v)
    ∨ ∀ v', ops.foldl (CopyOp.cell ns S0 k) v' = ops.foldl (CopyOp.cell ns S0 k) v := by
  induction ops generalizing v with
  | nil => exact Or.inl ⟨rfl, fun o ho => by cases ho⟩
  | cons o rest ih =>
    simp only [List.foldl_cons]
    by_cases hc : o.skip = false ∧ o.tkey = k ∧ (S0 ⟨ns, o.sname⟩).isSome = true
    · right
      intro v'
      obtain ⟨h1, h2, h3⟩ := hc
      obtain ⟨s, hs⟩ := Option.isSome_iff_exists.mp h3
      have : ∀ u, CopyOp.cell ns S0 k u o = some (o.copy s) := by
        intro u
        simp [CopyOp.cell, h1, h2, hs]
      rw [this v, this v']
    · have hid : ∀ u, CopyOp.cell ns S0 k u o = u := by
        intro u
        unfold CopyOp.cell
        split
        · rename_i h
          cases hs : S0 ⟨ns, o.sname⟩ with
          | none => rfl
          | some s => exact absurd ⟨h.1, h.2, by simp [hs]⟩ hc
        · rfl
      rw [hid v]
      rcases ih v with ⟨h1, h2⟩ | h
      · left
        refine ⟨h1, ?_⟩
        intro x hx
        rcases List.mem_cons.mp hx with rfl | hx'
        · exact hid v
        · exact h2 x hx'
      · right
        intro v'
        rw [hid v']
        exact h v'

theorem foldl_cell_idem (ns : String) (S0 : NamespacedName → Option α) (k : NamespacedName)
    (ops : List (CopyOp α)) (v : Option α) :
    ops.foldl (CopyOp.cell ns S0 k) (ops.foldl (CopyOp.cell ns S0 k) v)
      = ops.foldl (CopyOp.cell ns S0 k) v := by
  rcases foldl_cell_absorb ns S0 k ops v with ⟨h1, -⟩ | h
  · rw [h1, h1]
  · exact h _

/-- Running a sequence of copies a second time changes nothing. -/
theorem runOps_idem (ns : String) (owned : α → α) (hidem : ∀ s, owned (owned s) = owned s)
    (ops : List (CopyOp α)) (htk : ∀ o ∈ ops, o.skip = false → o.tkey.Namespace ≠ ns)
    (hcopy : ∀ o ∈ ops, ∀ s, o.copy (owned s) = o.copy s)
    (S : NamespacedName → Option α) :
    runOps ns owned (runOps ns owned S ops) ops = runOps ns owned S ops := by
  funext k
  by_cases hk : k.Namespace = ns
  · have hkey : k = ⟨ns, k.Name⟩ := by
      cases k
      simp only at hk
      subst hk
      rfl
    rw [hkey, runOps_source ns owned hidem ops htk, runOps_source ns owned hidem ops htk]
    split
    · cases S ⟨ns, k.Name⟩ with
      | none => rfl
      | some s => simp [hidem]
    · rfl
  · rw [runOps_target ns owned hidem ops htk hcopy _ k hk,
      foldl_cell_congr ns owned S _ (runOps_sourceRel ns owned hidem ops htk S) ops hcopy,
      runOps_target ns owned hidem ops htk hcopy S k hk]
    exact foldl_cell_idem ns S k ops (S k)

end Copies

/-! ## Passes without failing calls -/

theorem copySecret_noFaults {env : Env} (h : NoFaults env)
    (secName secNameReq sourceNs targetNs : String)
    (b : OperandBindInfo) (q : OperandRequest) (w : World) :
    (copySecret env secName secNameReq sourceNs targetNs b q w).1 = none
    ∧ (copySecret env secName secNameReq sourceNs targetNs b q w).2.store
        = { w.store with
            secrets := CopyOp.apply sourceNs (secretOwnedBy b) w.store.secrets
              { skip := decide (emptyArg secName secNameReq sourceNs targetNs)
                sname := secName, tkey := ⟨targetNs, secNameReq⟩, copy := secretCopyOf q } } := by
  unfold copySecret CopyOp.apply
  by_cases hg : emptyArg secName secNameReq sourceNs targetNs
  · have hg' := hg
    unfold emptyArg at hg'
    simp [hg, hg', World.record]
  · have hg' := hg
    unfold emptyArg at hg'
    simp only [hg', if_false, hg, decide_False, Bool.false_eq_true]
    cases hs : w.store.secrets ⟨sourceNs, secName⟩ with
    | none =>
      simp [getSecret, h _ _, World.record, World.tick, hs]
    | some s =>
      by_cases hk : (⟨targetNs, secNameReq⟩ : NamespacedName) = ⟨sourceNs, secName⟩
      · cases ht : w.store.secrets ⟨targetNs, secNameReq⟩ <;>
        simp [getSecret, SetControllerReference, createOrUpdateSecret, createSecret, updateSecret,
          SetOwnerReference, h _ _, World.record, World.tick, hs, ht, upsertOwnerRef, hk,
          Function.update_same, Store.putSecret, secretCopyOf, secretOwnedBy]
      · cases ht : w.store.secrets ⟨targetNs, secNameReq⟩ <;>
        simp [getSecret, SetControllerReference, createOrUpdateSecret, createSecret, updateSecret,
          SetOwnerReference, h _ _, World.record, World.tick, hs, ht, upsertOwnerRef, hk,
          Function.update_noteq, Ne.symm hk, Function.update_same, Store.putSecret,
          secretCopyOf, secretOwnedBy]

theorem copyConfigmap_noFaults {env : Env} (h : NoFaults env)
    (cmName cmNameReq sourceNs targetNs : String)
    (b : OperandBindInfo) (q : OperandRequest) (w : World) :
    (copyConfigmap env cmName cmNameReq sourceNs targetNs b q w).1 = none
    ∧ (copyConfigmap env cmName cmNameReq sourceNs targetNs b q w).2.store
        = { w.store with
            configMaps := CopyOp.apply sourceNs (configMapOwnedBy b) w.store.configMaps
              { skip := decide (emptyArg cmName cmNameReq sourceNs targetNs)
                sname := cmName, tkey := ⟨targetNs, cmName⟩, copy := configMapCopyOf q } } := by
  unfold copyConfigmap CopyOp.apply
  by_cases hg : emptyArg cmName cmNameReq sourceNs targetNs
  · have hg' := hg
    unfold emptyArg at hg'
    simp [hg, hg', World.record]
  · have hg' := hg
    unfold emptyArg at hg'
    simp only [hg', if_false, hg, decide_False, Bool.false_eq_true]
    cases hs : w.store.configMaps ⟨sourceNs, cmName⟩ with
    | none =>
      simp [getConfigMap, h _ _, World.record, World.tick, hs]
    | some s =>
      by_cases hk : (⟨targetNs, cmName⟩ : NamespacedName) = ⟨sourceNs, cmName⟩
      · cases ht : w.store.configMaps ⟨targetNs, cmName⟩ <;>
        simp [getConfigMap, SetControllerReference, createOrUpdateConfigMap, createConfigMap,
          updateConfigMap, SetOwnerReference, h _ _, World.record, World.tick, hs, ht,
          upsertOwnerRef, hk, Function.update_same, Store.putConfigMap, configMapCopyOf,
          configMapOwnedBy]
      · cases ht : w.store.configMaps ⟨targetNs, cmName⟩ <;>
        simp [getConfigMap, SetControllerReference, createOrUpdateConfigMap, createConfigMap,
          updateConfigMap, SetOwnerReference, h _ _, World.record, World.tick, hs, ht,
          upsertOwnerRef, hk, Function.update_noteq, Ne.symm hk, Function.update_same,
          Store.putConfigMap, configMapCopyOf, configMapOwnedBy]

theorem Store.withCopies_nil (st : Store) (b : OperandBindInfo) (ns : String) :
    st.withCopies b ns [] = st := rfl

theorem Store.withCopies_append (st : Store) (b : OperandBindInfo) (ns : String)
    (j1 j2 : List Job) :
    (st.withCopies b ns j1).withCopies b ns j2 = st.withCopies b ns (j1 ++ j2) := by
  simp [Store.withCopies, runOps, List.foldl_append]

theorem Store.withCopies_cons (st : Store) (b : OperandBindInfo) (ns : String)
    (j : Job) (rest : List Job) :
    st.withCopies b ns (j :: rest)
      = ({ ({ st with secrets := CopyOp.apply ns (secretOwnedBy b) st.secrets (secretOp ns j) }
            : Store) with
          configMaps := CopyOp.apply ns (configMapOwnedBy b) st.configMaps (configOp ns j) }
          : Store).withCopies b ns rest := by
  simp [Store.withCopies, runOps]

theorem bindingLoop_noFaults {env : Env} (h : NoFaults env)
    (secretReq cmReq operandNamespace targetNs : String) (b : OperandBindInfo)
    (q : OperandRequest) (bs : List Binding) (merr : MultiErr) (w : World) :
    (bindingLoop env secretReq cmReq operandNamespace targetNs b q bs merr w).1 = merr
    ∧ (bindingLoop env secretReq cmReq operandNamespace targetNs b q bs merr w).2.store
        = w.store.withCopies b operandNamespace
            (jobsOfBindings secretReq cmReq targetNs q bs) := by
  induction bs generalizing merr w with
  | nil => exact ⟨rfl, rfl⟩
  | cons binding rest ih =>
    unfold bindingLoop
    by_cases hpub : binding.Scope = ScopePublic
    · rw [if_pos hpub]
      obtain ⟨s1, s2⟩ := copySecret_noFaults h binding.Secret secretReq operandNamespace
        targetNs b q w
      rcases hcs : copySecret env binding.Secret secretReq operandNamespace targetNs b q w
        with ⟨r1, w1⟩
      rw [hcs] at s1 s2
      simp only [] at s1 s2
      subst s1
      simp only []
      obtain ⟨c1, c2⟩ := copyConfigmap_noFaults h binding.Configmap cmReq operandNamespace
        targetNs b q w1
      rcases hcc : copyConfigmap env binding.Configmap cmReq operandNamespace targetNs b q w1
        with ⟨r2, w2⟩
      rw [hcc] at c1 c2
      simp only [] at c1 c2
      subst c1
      simp only []
      obtain ⟨i1, i2⟩ := ih merr w2
      refine ⟨i1, ?_⟩
      rw [i2, c2, s2]
      have hjobs : jobsOfBindings secretReq cmReq targetNs q (binding :: rest)
          = { binding := binding, secretReq := secretReq, cmReq := cmReq, targetNs := targetNs,
              request := q } :: jobsOfBindings secretReq cmReq targetNs q rest := by
        simp [jobsOfBindings, List.filter_cons, hpub]
      rw [hjobs, Store.withCopies_cons]
      rfl
    · rw [if_neg hpub]
      have hjobs : jobsOfBindings secretReq cmReq targetNs q (binding :: rest)
          = jobsOfBindings secretReq cmReq targetNs q rest := by
        simp [jobsOfBindings, List.filter_cons, hpub]
      rw [hjobs]
      exact ih merr w

theorem consumerLoop_noFaults {env : Env} (h : NoFaults env) (b : OperandBindInfo)
    (ns : String) (rs : List ReconcileRequest) (merr : MultiErr) (w : World) :
    (consumerLoop env b ns rs merr w).2.store
        = w.store.withCopies b ns (jobsOfConsumers b ns w.store.requests rs)
    ∧ (requestsFound ns w.store.requests rs → (consumerLoop env b ns rs merr w).1 = .inr merr)
    ∧ (¬ requestsFound ns w.store.requests rs →
        (consumerLoop env b ns rs merr w).1 = .inl none) := by
  induction rs generalizing merr w with
  | nil =>
    refine ⟨rfl, fun _ => rfl, fun hn => ?_⟩
    exact absurd (fun c hc => by cases hc) hn
  | cons c rest ih =>
    unfold consumerLoop
    by_cases hsame : ns = c.Namespace
    · rw [if_pos hsame]
      obtain ⟨i1, i2, i3⟩ := ih merr w
      have hj : jobsOfConsumers b ns w.store.requests (c :: rest)
          = jobsOfConsumers b ns w.store.requests rest := by
        simp [jobsOfConsumers, hsame]
      have hf : requestsFound ns w.store.requests (c :: rest)
          ↔ requestsFound ns w.store.requests rest := by
        unfold requestsFound
        constructor
        · intro hall x hx
          exact hall x (List.mem_cons_of_mem _ hx)
        · intro hall x hx
          rcases List.mem_cons.mp hx with rfl | hx'
          · intro hne; exact absurd hsame hne
          · exact hall x hx'
      rw [hj]
      exact ⟨i1, fun hh => i2 (hf.mp hh), fun hh => i3 (fun hh' => hh (hf.mpr hh'))⟩
    · rw [if_neg hsame]
      cases hq : w.store.requests ⟨c.Namespace, c.Name⟩ with
      | none =>
        have hj : jobsOfConsumers b ns w.store.requests (c :: rest) = [] := by
          simp [jobsOfConsumers, hsame, hq]
        have hnf : ¬ requestsFound ns w.store.requests (c :: rest) := by
          intro hall
          exact hall c (List.mem_cons_self _ _) hsame hq
        rw [hj]
        simp [getRequest, h _ _, hq, IgnoreNotFound, World.tick, Store.withCopies_nil, hnf]
      | some spec =>
        have hg : getRequest env ⟨c.Namespace, c.Name⟩ w
            = (.ok { Name := c.Name, Namespace := c.Namespace, Spec := spec }, w.tick) := by
          simp [getRequest, h _ _, hq]
        rw [hg]
        simp only []
        obtain ⟨b1, b2⟩ := bindingLoop_noFaults h
          (getBindingInfofromRequest b { Name := c.Name, Namespace := c.Namespace, Spec := spec }).1
          (getBindingInfofromRequest b { Name := c.Name, Namespace := c.Namespace, Spec := spec }).2
          ns c.Namespace b { Name := c.Name, Namespace := c.Namespace, Spec := spec }
          b.Spec.Bindings merr w.tick
        rcases hbl : bindingLoop env
          (getBindingInfofromRequest b { Name := c.Name, Namespace := c.Namespace, Spec := spec }).1
          (getBindingInfofromRequest b { Name := c.Name, Namespace := c.Namespace, Spec := spec }).2
          ns c.Namespace b { Name := c.Name, Namespace := c.Namespace, Spec := spec }
          b.Spec.Bindings merr w.tick with ⟨m1, w2⟩
        rw [hbl] at b1 b2
        simp only [] at b1 b2
        subst b1
        simp only []
        obtain ⟨i1, i2, i3⟩ := ih m1 w2
        have hreq : w2.store.requests = w.store.requests := by
          rw [b2]; rfl
        have hj : jobsOfConsumers b ns w.store.requests (c :: rest)
            = jobsOfBindings
                (getBindingInfofromRequest b
                  { Name := c.Name, Namespace := c.Namespace, Spec := spec }).1
                (getBindingInfofromRequest b
                  { Name := c.Name, Namespace := c.Namespace, Spec := spec }).2
                c.Namespace { Name := c.Name, Namespace := c.Namespace, Spec := spec }
                b.Spec.Bindings
              ++ jobsOfConsumers b ns w.store.requests rest := by
          simp [jobsOfConsumers, hsame, hq]
        have hf : requestsFound ns w.store.requests (c :: rest)
            ↔ requestsFound ns w.store.requests rest := by
          unfold requestsFound
          constructor
          · intro hall x hx
            exact hall x (List.mem_cons_of_mem _ hx)
          · intro hall x hx
            rcases List.mem_cons.mp hx with rfl | hx'
            · intro _; rw [hq]; simp
            · exact hall x hx'
        rw [hreq] at i1 i2 i3
        refine ⟨?_, fun hh => i2 (hf.mp hh), fun hh => i3 (fun hh' => hh (hf.mpr hh'))⟩
        rw [i1, b2, hj, ← Store.withCopies_append]
        rfl

theorem Store.putBindInfo_putBindInfo (st : Store) (key : NamespacedName)
    (a b : StoredBindInfo) :
    (st.putBindInfo key a).putBindInfo key b = st.putBindInfo key b := by
  simp [Store.putBindInfo]

theorem reconcileResolve_noFaults {env : Env} (h : NoFaults env) (key : NamespacedName)
    (w : World) :
    (reconcileResolve env key w).1 = (resolvePure env key w.store).1
    ∧ (reconcileResolve env key w).2.store = (resolvePure env key w.store).2 := by
  unfold reconcileResolve resolvePure
  cases hb : w.store.bindInfos key with
  | none => simp [getBindInfo, h _ _, hb, IgnoreNotFound, World.tick]
  | some sb =>
    have hg : getBindInfo env key w = (.ok (sb.toInstance key), w.tick) := by
      simp [getBindInfo, h _ _, hb]
    rw [hg]
    simp only [StoredBindInfo.toInstance]
    have hu : ∀ (l : List (String × String)) (sp : OperandBindInfoSpec)
        (stt : OperandBindInfoStatus),
        updateBindInfo env
          { Name := key.Name, Namespace := key.Namespace, Labels := l, Spec := sp, Status := stt }
          w.tick
        = (none, { w.tick.tick with
            store := w.store.putBindInfo key { sb with Labels := l, Spec := sp } }) := by
      intro l sp stt
      have hkey : (⟨key.Namespace, key.Name⟩ : NamespacedName) = key := rfl
      simp [updateBindInfo, h _ _, World.tick, hkey, hb]
    rw [hu]
    simp only []
    have hus : ∀ (l : List (String × String)) (sp : OperandBindInfoSpec)
        (stt : OperandBindInfoStatus) (cl : Nat) (sc : List SyncCall),
        updateBindInfoStatus env
          { Name := key.Name, Namespace := key.Namespace, Labels := l, Spec := sp, Status := stt }
          { store := w.store.putBindInfo key { sb with Labels := l, Spec := sp },
            clock := cl, syncCalls := sc }
        = (none, { store := w.store.putBindInfo key { Labels := l, Spec := sp, Status := stt },
                   clock := cl + 1, syncCalls := sc }) := by
      intro l sp stt cl sc
      have hkey : (⟨key.Namespace, key.Name⟩ : NamespacedName) = key := rfl
      simp [updateBindInfoStatus, h _ _, World.tick, hkey, Store.putBindInfo]
    simp only [World.tick]
    rw [hus]
    simp only []
    cases hr : w.store.registries
        ⟨(env.SetDefaultsRequestSpec key.Namespace sb.Spec).RegistryNamespace,
          (env.SetDefaultsRequestSpec key.Namespace sb.Spec).Registry⟩ with
    | none =>
      simp [getRegistry, h _ _, Store.putBindInfo, hr, World.tick]
    | some reg =>
      have hgr : ∀ (stt : Store) (cl : Nat) (sc : List SyncCall),
          stt.registries = w.store.registries →
          getRegistry env
            ⟨(env.SetDefaultsRequestSpec key.Namespace sb.Spec).RegistryNamespace,
              (env.SetDefaultsRequestSpec key.Namespace sb.Spec).Registry⟩
            { store := stt, clock := cl, syncCalls := sc }
          = (.ok reg, { store := stt, clock := cl + 1, syncCalls := sc }) := by
        intro stt cl sc hreg
        simp [getRegistry, h _ _, hreg, hr, World.tick]
      rw [hgr (w.store.putBindInfo key _) _ _ (by rfl)]
      simp only []
      split
      · exact ⟨rfl, rfl⟩
      · split
        · exact ⟨rfl, rfl⟩
        · exact ⟨rfl, rfl⟩

theorem resolvePure_spec (env : Env) (key : NamespacedName) (st : Store) :
    (resolvePure env key st).2.secrets = st.secrets
    ∧ (resolvePure env key st).2.configMaps = st.configMaps
    ∧ (resolvePure env key st).2.requests = st.requests
    ∧ (resolvePure env key st).2.registries = st.registries
    ∧ ∀ res, (resolvePure env key st).1 = .inr res →
        res.bindInfoInstance.Name = key.Name ∧ res.bindInfoInstance.Namespace = key.Namespace
        ∧ (resolvePure env key st).2.bindInfos key
            = some { Labels := res.bindInfoInstance.Labels, Spec := res.bindInfoInstance.Spec,
                     Status := res.bindInfoInstance.Status } := by
  unfold resolvePure
  cases st.bindInfos key with
  | none => simp
  | some sb =>
    simp only []
    cases st.registries _ with
    | none => simp [Store.putBindInfo]
    | some reg =>
      simp only []
      split
      · simp [Store.putBindInfo]
      · split
        · simp [Store.putBindInfo]
        · refine ⟨rfl, rfl, rfl, rfl, ?_⟩
          intro res hres
          simp only [Sum.inr.injEq] at hres
          subst hres
          simp [Store.putBindInfo]

/-- Without failing calls, the error returned by `Reconcile` and the store after
the pass are those of `reconcilePure`. -/
theorem Reconcile_noFaults {env : Env} (h : NoFaults env) (key : NamespacedName) (w : World) :
    (Reconcile env key w).1 = (reconcilePure env key w.store).1
    ∧ (Reconcile env key w).2.store = (reconcilePure env key w.store).2 := by
  obtain ⟨r1, r2⟩ := reconcileResolve_noFaults h key w
  obtain ⟨-, -, -, -, hfacts⟩ := resolvePure_spec env key w.store
  unfold Reconcile reconcilePure
  rcases hrr : reconcileResolve env key w with ⟨a, w1⟩
  rcases hrp : resolvePure env key w.store with ⟨a', st1⟩
  rw [hrr, hrp] at r1 r2
  rw [hrp] at hfacts
  have r1' : a = a' := r1
  have r2' : w1.store = st1 := r2
  clear r1 r2
  have r2 := r2'
  subst r1'
  have hfacts' : ∀ res, a = .inr res →
      res.bindInfoInstance.Name = key.Name ∧ res.bindInfoInstance.Namespace = key.Namespace
      ∧ st1.bindInfos key
          = some { Labels := res.bindInfoInstance.Labels, Spec := res.bindInfoInstance.Spec,
                   Status := res.bindInfoInstance.Status } := hfacts
  clear hfacts
  have hfacts := hfacts'
  cases a with
  | inl ret => exact ⟨rfl, r2⟩
  | inr res =>
    simp only []
    obtain ⟨hname, hnamespace, hstored⟩ := hfacts res rfl
    obtain ⟨c1, c2, c3⟩ := consumerLoop_noFaults h res.bindInfoInstance res.operandNamespace
      res.requestNamespaces { Errors := [] } w1
    rcases hcl : consumerLoop env res.bindInfoInstance res.operandNamespace
      res.requestNamespaces { Errors := [] } w1 with ⟨r, w2⟩
    rw [hcl] at c1 c2 c3
    have c1' : w2.store = w1.store.withCopies res.bindInfoInstance res.operandNamespace
        (jobsOfConsumers res.bindInfoInstance res.operandNamespace w1.store.requests
          res.requestNamespaces) := c1
    have c2' : requestsFound res.operandNamespace w1.store.requests res.requestNamespaces →
        r = .inr { Errors := [] } := c2
    have c3' : ¬ requestsFound res.operandNamespace w1.store.requests res.requestNamespaces →
        r = .inl none := c3
    clear c1 c2 c3
    rw [r2] at c1' c2' c3'
    by_cases hf : requestsFound res.operandNamespace st1.requests res.requestNamespaces
    · rw [if_pos hf]
      have := c2' hf
      subst this
      simp only []
      have hkey : (⟨res.bindInfoInstance.Namespace, res.bindInfoInstance.Name⟩ : NamespacedName)
          = key := by rw [hname, hnamespace]
      have hex : w2.store.bindInfos key
          = some { Labels := res.bindInfoInstance.Labels, Spec := res.bindInfoInstance.Spec,
                   Status := res.bindInfoInstance.Status } := by
        rw [c1']; exact hstored
      have hex' : (st1.withCopies res.bindInfoInstance res.operandNamespace
          (jobsOfConsumers res.bindInfoInstance res.operandNamespace st1.requests
            res.requestNamespaces)).bindInfos key
          = some { Labels := res.bindInfoInstance.Labels, Spec := res.bindInfoInstance.Spec,
                   Status := res.bindInfoInstance.Status } := hstored
      simp [reconcileFinish, updateBindInfoPhase, updateBindInfoStatus, h _ _, hkey, hex, hex',
        World.tick, c1']
    · rw [if_neg hf]
      have := c3' hf
      subst this
      exact ⟨rfl, c1'⟩

/-! ## The pairs served by a pass -/

theorem mem_jobsOfBindings {secretReq cmReq targetNs : String} {q : OperandRequest}
    {bs : List Binding} {j : Job} :
    j ∈ jobsOfBindings secretReq cmReq targetNs q bs
      ↔ ∃ x ∈ bs, x.Scope = ScopePublic
          ∧ j = { binding := x, secretReq := secretReq, cmReq := cmReq, targetNs := targetNs,
                  request := q } := by
  unfold jobsOfBindings
  simp only [List.mem_map, List.mem_filter, decide_eq_true_eq]
  constructor
  · rintro ⟨x, ⟨hx, hp⟩, rfl⟩
    exact ⟨x, hx, hp, rfl⟩
  · rintro ⟨x, hx, hp, rfl⟩
    exact ⟨x, ⟨hx, hp⟩, rfl⟩

/-- Every pair served is a public binding of the BindInfo and a recorded consumer
outside the source namespace, with the names declared by its Request. -/
theorem jobsOfConsumers_sound (b : OperandBindInfo) (ns : String)
    (R : NamespacedName → Option OperandRequestSpec) (rs : List ReconcileRequest) (j : Job)
    (hj : j ∈ jobsOfConsumers b ns R rs) :
    j.targetNs ≠ ns ∧ j.binding ∈ b.Spec.Bindings ∧ j.binding.Scope = ScopePublic
    ∧ ∃ c ∈ rs, j.targetNs = c.Namespace := by
  induction rs with
  | nil => cases hj
  | cons c rest ih =>
    unfold jobsOfConsumers at hj
    split at hj
    · obtain ⟨h1, h2, h3, c', hc', h4⟩ := ih hj
      exact ⟨h1, h2, h3, c', List.mem_cons_of_mem _ hc', h4⟩
    · rename_i hne
      split at hj
      · cases hj
      · rcases List.mem_append.mp hj with h | h
        · obtain ⟨x, hx, hp, rfl⟩ := mem_jobsOfBindings.mp h
          exact ⟨fun h' => hne h'.symm, hx, hp, c, List.mem_cons_self _ _, rfl⟩
        · obtain ⟨h1, h2, h3, c', hc', h4⟩ := ih h
          exact ⟨h1, h2, h3, c', List.mem_cons_of_mem _ hc', h4⟩

/-- When every Request exists, every pair of a consumer outside the source
namespace and a public binding is served. -/
theorem jobsOfConsumers_complete (b : OperandBindInfo) (ns : String)
    (R : NamespacedName → Option OperandRequestSpec) (rs : List ReconcileRequest)
    (hfound : requestsFound ns R rs) (c : ReconcileRequest) (hc : c ∈ rs)
    (hne : c.Namespace ≠ ns) (spec : OperandRequestSpec)
    (hspec : R ⟨c.Namespace, c.Name⟩ = some spec) (x : Binding) (hx : x ∈ b.Spec.Bindings)
    (hp : x.Scope = ScopePublic) :
    ({ binding := x
       secretReq := (getBindingInfofromRequest b
         { Name := c.Name, Namespace := c.Namespace, Spec := spec }).1
       cmReq := (getBindingInfofromRequest b
         { Name := c.Name, Namespace := c.Namespace, Spec := spec }).2
       targetNs := c.Namespace
       request := { Name := c.Name, Namespace := c.Namespace, Spec := spec } } : Job)
      ∈ jobsOfConsumers b ns R rs := by
  induction rs with
  | nil => cases hc
  | cons c0 rest ih =>
    have hrest : requestsFound ns R rest := fun y hy => hfound y (List.mem_cons_of_mem _ hy)
    unfold jobsOfConsumers
    by_cases hsame : ns = c0.Namespace
    · rw [if_pos hsame]
      rcases List.mem_cons.mp hc with rfl | hmem
      · exact absurd hsame.symm hne
      · exact ih hrest hmem
    · rw [if_neg hsame]
      cases hq : R ⟨c0.Namespace, c0.Name⟩ with
      | none => exact absurd hq (hfound c0 (List.mem_cons_self _ _) hsame)
      | some spec0 =>
        simp only []
        apply List.mem_append.mpr
        rcases List.mem_cons.mp hc with rfl | hmem
        · rw [hq] at hspec
          cases hspec
          exact Or.inl (mem_jobsOfBindings.mpr ⟨x, hx, hp, rfl⟩)
        · exact Or.inr (ih hrest hmem)

theorem jobsOfConsumers_congr (b b' : OperandBindInfo) (hspec : b.Spec = b'.Spec) (ns : String)
    (R : NamespacedName → Option OperandRequestSpec) (rs : List ReconcileRequest) :
    jobsOfConsumers b ns R rs = jobsOfConsumers b' ns R rs := by
  have hg : ∀ q, getBindingInfofromRequest b q = getBindingInfofromRequest b' q := by
    intro q
    unfold getBindingInfofromRequest
    rw [hspec]
  induction rs with
  | nil => rfl
  | cons c rest ih =>
    unfold jobsOfConsumers
    rw [ih]
    simp only [hg, hspec]

/-! ## What a sequence of copies leaves at a key -/

theorem foldl_cell_none {α : Type} (ns : String) (S0 : NamespacedName → Option α)
    (k : NamespacedName) (ops : List (CopyOp α)) (v : Option α)
    (hnone : ∀ o ∈ ops, ¬ (o.skip = false ∧ o.tkey = k ∧ (S0 ⟨ns, o.sname⟩).isSome = true)) :
    ops.foldl (CopyOp.cell ns S0 k) v = v := by
  induction ops generalizing v with
  | nil => rfl
  | cons o rest ih =>
    have hid : CopyOp.cell ns S0 k v o = v := by
      unfold CopyOp.cell
      split
      · rename_i h
        cases hs : S0 ⟨ns, o.sname⟩ with
        | none => rfl
        | some s =>
          exact absurd ⟨h.1, h.2, by simp [hs]⟩ (hnone o (List.mem_cons_self _ _))
      · rfl
    rw [List.foldl_cons, hid]
    exact ih v (fun x hx => hnone x (List.mem_cons_of_mem _ hx))

/-- When some copy of the sequence writes at `k`, what is left at `k` is the copy
made by one of them. -/
theorem foldl_cell_some {α : Type} (ns : String) (S0 : NamespacedName → Option α)
    (k : NamespacedName) (ops : List (CopyOp α)) (v : Option α)
    (hsome : ∃ o ∈ ops, o.skip = false ∧ o.tkey = k ∧ (S0 ⟨ns, o.sname⟩).isSome = true) :
    ∃ o ∈ ops, o.skip = false ∧ o.tkey = k
      ∧ ∃ s, S0 ⟨ns, o.sname⟩ = some s
          ∧ ops.foldl (CopyOp.cell ns S0 k) v = some (o.copy s) := by
  induction ops generalizing v with
  | nil =>
    obtain ⟨o, ho, -⟩ := hsome
    cases ho
  | cons o rest ih =>
    rw [List.foldl_cons]
    by_cases hrest : ∃ x ∈ rest, x.skip = false ∧ x.tkey = k
        ∧ (S0 ⟨ns, x.sname⟩).isSome = true
    · obtain ⟨x, hx, h1, h2, s, hs, hfold⟩ := ih (CopyOp.cell ns S0 k v o) hrest
      exact ⟨x, List.mem_cons_of_mem _ hx, h1, h2, s, hs, hfold⟩
    · have ho : o.skip = false ∧ o.tkey = k ∧ (S0 ⟨ns, o.sname⟩).isSome = true := by
        obtain ⟨x, hx, hp⟩ := hsome
        rcases List.mem_cons.mp hx with rfl | hx'
        · exact hp
        · exact absurd ⟨x, hx', hp⟩ hrest
      obtain ⟨s, hs⟩ := Option.isSome_iff_exists.mp ho.2.2
      refine ⟨o, List.mem_cons_self _ _, ho.1, ho.2.1, s, hs, ?_⟩
      rw [foldl_cell_none ns S0 k rest _ (fun x hx hp => hrest ⟨x, hx, hp⟩)]
      simp [CopyOp.cell, ho.1, ho.2.1, hs]

theorem secretOwnedBy_idem (b : OperandBindInfo) (s : Secret) :
    secretOwnedBy b (secretOwnedBy b s) = secretOwnedBy b s := by
  simp [secretOwnedBy, upsertOwnerRef_idem]

theorem configMapOwnedBy_idem (b : OperandBindInfo) (c : ConfigMap) :
    configMapOwnedBy b (configMapOwnedBy b c) = configMapOwnedBy b c := by
  simp [configMapOwnedBy, upsertOwnerRef_idem]

theorem secretOps_targets (b : OperandBindInfo) (ns : String)
    (R : NamespacedName → Option OperandRequestSpec) (rs : List ReconcileRequest) :
    (∀ o ∈ (jobsOfConsumers b ns R rs).map (secretOp ns),
        o.skip = false → o.tkey.Namespace ≠ ns)
    ∧ (∀ o ∈ (jobsOfConsumers b ns R rs).map (secretOp ns),
        ∀ s, o.copy (secretOwnedBy b s) = o.copy s) := by
  constructor
  · intro o ho _
    obtain ⟨j, hj, rfl⟩ := List.mem_map.mp ho
    exact (jobsOfConsumers_sound b ns R rs j hj).1
  · intro o ho s
    obtain ⟨j, -, rfl⟩ := List.mem_map.mp ho
    rfl

theorem configOps_targets (b : OperandBindInfo) (ns : String)
    (R : NamespacedName → Option OperandRequestSpec) (rs : List ReconcileRequest) :
    (∀ o ∈ (jobsOfConsumers b ns R rs).map (configOp ns),
        o.skip = false → o.tkey.Namespace ≠ ns)
    ∧ (∀ o ∈ (jobsOfConsumers b ns R rs).map (configOp ns),
        ∀ s, o.copy (configMapOwnedBy b s) = o.copy s) := by
  constructor
  · intro o ho _
    obtain ⟨j, hj, rfl⟩ := List.mem_map.mp ho
    exact (jobsOfConsumers_sound b ns R rs j hj).1
  · intro o ho s
    obtain ⟨j, -, rfl⟩ := List.mem_map.mp ho
    rfl

/-! ## The secret left under a declared name -/

theorem jobsOfBindings_append (secretReq cmReq targetNs : String) (q : OperandRequest)
    (l1 l2 : List Binding) :
    jobsOfBindings secretReq cmReq targetNs q (l1 ++ l2)
      = jobsOfBindings secretReq cmReq targetNs q l1
        ++ jobsOfBindings secretReq cmReq targetNs q l2 := by
  simp [jobsOfBindings, List.filter_append]

/-- The secret copies of one consumer, seen at a key `k` of a consumer namespace:
when the consumer writes at `k`, what is left there is the copy of the secret of the
last public binding that names an existing secret; otherwise nothing changes. -/
theorem foldl_cell_secret_block (ns : String) (S0 : NamespacedName → Option Secret)
    (k : NamespacedName) (secretReq cmReq targetNs : String) (q : OperandRequest)
    (bs pre post : List Binding) (x : Binding) (s : Secret)
    (hbs : bs = pre ++ x :: post) (hx : x.Scope = ScopePublic) (hxn : x.Secret ≠ "")
    (hs : S0 ⟨ns, x.Secret⟩ = some s)
    (hpost : ∀ y ∈ post, y.Scope = ScopePublic → y.Secret ≠ "" → S0 ⟨ns, y.Secret⟩ = none)
    (hns : ns ≠ "") (hk1 : k.Namespace ≠ "") (hk2 : k.Name ≠ "") (v : Option Secret) :
    ((jobsOfBindings secretReq cmReq targetNs q bs).map (secretOp ns)).foldl
        (CopyOp.cell ns S0 k) v
      = if (⟨targetNs, secretReq⟩ : NamespacedName) = k then some (secretCopyOf q s) else v := by
  subst hbs
  by_cases hkey : (⟨targetNs, secretReq⟩ : NamespacedName) = k
  · rw [if_pos hkey]
    have hpostid : ∀ v', ((jobsOfBindings secretReq cmReq targetNs q post).map
        (secretOp ns)).foldl (CopyOp.cell ns S0 k) v' = v' := by
      intro v'
      apply foldl_cell_none
      intro o ho hp
      obtain ⟨j, hj, rfl⟩ := List.mem_map.mp ho
      obtain ⟨y, hy, hyp, rfl⟩ := mem_jobsOfBindings.mp hj
      obtain ⟨h1, -, h3⟩ := hp
      by_cases hye : y.Secret = ""
      · simp [secretOp, emptyArg, hye] at h1
      · have := hpost y hy hyp hye
        simp [secretOp, this] at h3
    have hone : jobsOfBindings secretReq cmReq targetNs q (x :: post)
        = { binding := x, secretReq := secretReq, cmReq := cmReq, targetNs := targetNs,
            request := q } :: jobsOfBindings secretReq cmReq targetNs q post := by
      simp [jobsOfBindings, List.filter_cons, hx]
    rw [jobsOfBindings_append, hone, List.map_append, List.foldl_append, List.map_cons,
      List.foldl_cons, hpostid]
    have e1 : targetNs = k.Namespace := by rw [← hkey]
    have e2 : secretReq = k.Name := by rw [← hkey]
    have hskip : ¬ emptyArg x.Secret secretReq ns targetNs := by
      unfold emptyArg
      rw [e1, e2]
      simp [hxn, hns, hk1, hk2]
    simp [CopyOp.cell, secretOp, hskip, hkey, hs]
  · rw [if_neg hkey]
    apply foldl_cell_none
    intro o ho hp
    obtain ⟨j, hj, rfl⟩ := List.mem_map.mp ho
    obtain ⟨y, -, -, rfl⟩ := mem_jobsOfBindings.mp hj
    exact hkey hp.2.1

/-- Once a key of a consumer namespace holds a copy of the secret of the last
public binding that names an existing secret, the copies of further consumers leave
there a copy of the same secret. -/
theorem foldl_cell_secret_keep (b : OperandBindInfo) (ns : String)
    (S0 : NamespacedName → Option Secret) (R : NamespacedName → Option OperandRequestSpec)
    (k : NamespacedName) (pre post : List Binding) (x : Binding) (s : Secret)
    (hbs : b.Spec.Bindings = pre ++ x :: post) (hx : x.Scope = ScopePublic)
    (hxn : x.Secret ≠ "") (hs : S0 ⟨ns, x.Secret⟩ = some s)
    (hpost : ∀ y ∈ post, y.Scope = ScopePublic → y.Secret ≠ "" → S0 ⟨ns, y.Secret⟩ = none)
    (hns : ns ≠ "") (hk1 : k.Namespace ≠ "") (hk2 : k.Name ≠ "")
    (rs : List ReconcileRequest) (v : Option Secret)
    (hv : ∃ q, v = some (secretCopyOf q s)) :
    ∃ q, ((jobsOfConsumers b ns R rs).map (secretOp ns)).foldl (CopyOp.cell ns S0 k) v
      = some (secretCopyOf q s) := by
  induction rs generalizing v with
  | nil => exact hv
  | cons c rest ih =>
    unfold jobsOfConsumers
    split
    · exact ih v hv
    · split
      · exact hv
      · rename_i spec hspec
        rw [List.map_append, List.foldl_append,
          foldl_cell_secret_block ns S0 k _ _ _ _ b.Spec.Bindings pre post x s hbs hx hxn hs
            hpost hns hk1 hk2 v]
        apply ih
        split
        · exact ⟨_, rfl⟩
        · exact hv

/-- When every Request exists, the key of a consumer namespace named as the Request
of a recorded consumer declares holds, after the secret copies of the pass, a copy
of the secret of the last public binding that names an existing secret. -/
theorem foldl_cell_secret_last (b : OperandBindInfo) (ns : String)
    (S0 : NamespacedName → Option Secret) (R : NamespacedName → Option OperandRequestSpec)
    (pre post : List Binding) (x : Binding) (s : Secret)
    (hbs : b.Spec.Bindings = pre ++ x :: post) (hx : x.Scope = ScopePublic)
    (hxn : x.Secret ≠ "") (hs : S0 ⟨ns, x.Secret⟩ = some s)
    (hpost : ∀ y ∈ post, y.Scope = ScopePublic → y.Secret ≠ "" → S0 ⟨ns, y.Secret⟩ = none)
    (hns : ns ≠ "") (rs : List ReconcileRequest) (hfound : requestsFound ns R rs)
    (c : ReconcileRequest) (hc : c ∈ rs) (hne : c.Namespace ≠ ns) (hcns : c.Namespace ≠ "")
    (spec : OperandRequestSpec) (hspec : R ⟨c.Namespace, c.Name⟩ = some spec)
    (hreq : (getBindingInfofromRequest b
      { Name := c.Name, Namespace := c.Namespace, Spec := spec }).1 ≠ "")
    (v : Option Secret) :
    ∃ q, ((jobsOfConsumers b ns R rs).map (secretOp ns)).foldl
        (CopyOp.cell ns S0
          ⟨c.Namespace, (getBindingInfofromRequest b
            { Name := c.Name, Namespace := c.Namespace, Spec := spec }).1⟩) v
      = some (secretCopyOf q s) := by
  induction rs generalizing v with
  | nil => cases hc
  | cons c0 rest ih =>
    have hrest : requestsFound ns R rest := fun y hy => hfound y (List.mem_cons_of_mem _ hy)
    unfold jobsOfConsumers
    by_cases hsame : ns = c0.Namespace
    · rw [if_pos hsame]
      rcases List.mem_cons.mp hc with rfl | hmem
      · exact absurd hsame.symm hne
      · exact ih hrest hmem v
    · rw [if_neg hsame]
      cases hq : R ⟨c0.Namespace, c0.Name⟩ with
      | none => exact absurd hq (hfound c0 (List.mem_cons_self _ _) hsame)
      | some spec0 =>
        simp only []
        rw [List.map_append, List.foldl_append,
          foldl_cell_secret_block ns S0 _ _ _ _ _ b.Spec.Bindings pre post x s hbs hx hxn hs
            hpost hns hcns hreq v]
        rcases List.mem_cons.mp hc with rfl | hmem
        · rw [hq] at hspec
          cases hspec
          rw [if_pos rfl]
          exact foldl_cell_secret_keep b ns S0 R _ pre post x s hbs hx hxn hs hpost hns hcns
            hreq rest _ ⟨_, rfl⟩
        · exact ih hrest hmem _

/-- The store after a pass without failing calls that reached the consumer loop
with every Request present: the pass returns `nil`, and the secrets and configmaps
are those left by the copies of the pairs served. -/
theorem Reconcile_store_of_found {env : Env} (hnf : NoFaults env) (key : NamespacedName)
    (w : World) (res : Resolved) (hres : (reconcileResolve env key w).1 = .inr res)
    (hfound : requestsFound res.operandNamespace w.store.requests res.requestNamespaces) :
    (Reconcile env key w).1 = none
    ∧ (Reconcile env key w).2.store.secrets
        = runOps res.operandNamespace (secretOwnedBy res.bindInfoInstance) w.store.secrets
            ((jobsOfConsumers res.bindInfoInstance res.operandNamespace w.store.requests
              res.requestNamespaces).map (secretOp res.operandNamespace))
    ∧ (Reconcile env key w).2.store.configMaps
        = runOps res.operandNamespace (configMapOwnedBy res.bindInfoInstance) w.store.configMaps
            ((jobsOfConsumers res.bindInfoInstance res.operandNamespace w.store.requests
              res.requestNamespaces).map (configOp res.operandNamespace)) := by
  obtain ⟨p1, p2⟩ := Reconcile_noFaults hnf key w
  obtain ⟨r1, -⟩ := reconcileResolve_noFaults hnf key w
  obtain ⟨q1, q2, q3, -, -⟩ := resolvePure_spec env key w.store
  rw [p1, p2]
  unfold reconcilePure
  rcases hrp : resolvePure env key w.store with ⟨a, st1⟩
  rw [hrp] at r1 q1 q2 q3
  have ha : a = .inr res := by
    rw [hres] at r1
    exact r1.symm
  have e1 : st1.secrets = w.store.secrets := q1
  have e2 : st1.configMaps = w.store.configMaps := q2
  have e3 : st1.requests = w.store.requests := q3
  subst ha
  simp only []
  rw [e3, if_pos hfound]
  simp [Store.putBindInfo, Store.withCopies, e1, e2]

/-- C6 (amended): after a pass in which no call fails (neither a store operation nor
an owner-reference assignment), which reached the consumer loop and found the
Request of every recorded consumer, for every recorded consumer of a non-empty
namespace other than the source namespace and every public binding of the BindInfo:
if the binding names a secret that exists in the source namespace and the Request
declares a non-empty secret name, the consumer namespace holds under that name a
copy (labels, type, data, string-data) of the source secret of a public binding of
the BindInfo, namely of the last public binding, in declared order, that names an
existing secret; if the binding names a configmap that exists in the source
namespace and the Request declares a non-empty configmap name, the consumer
namespace holds a copy (labels, data) of that configmap. -/
theorem Reconcile_copies_present (env : Env) (hnf : NoFaults env) (key : NamespacedName)
    (w : World) (res : Resolved) (hres : (reconcileResolve env key w).1 = .inr res)
    (hfound : requestsFound res.operandNamespace w.store.requests res.requestNamespaces)
    (c : ReconcileRequest) (hc : c ∈ res.requestNamespaces)
    (hne : c.Namespace ≠ res.operandNamespace) (hcns : c.Namespace ≠ "")
    (spec : OperandRequestSpec) (hspec : w.store.requests ⟨c.Namespace, c.Name⟩ = some spec)
    (binding : Binding) (hb : binding ∈ res.bindInfoInstance.Spec.Bindings)
    (hpub : binding.Scope = ScopePublic) :
    (∀ s, binding.Secret ≠ "" →
        w.store.secrets ⟨res.operandNamespace, binding.Secret⟩ = some s →
        (getBindingInfofromRequest res.bindInfoInstance
          { Name := c.Name, Namespace := c.Namespace, Spec := spec }).1 ≠ "" →
        ∃ copy, (Reconcile env key w).2.store.secrets
            ⟨c.Namespace, (getBindingInfofromRequest res.bindInfoInstance
              { Name := c.Name, Namespace := c.Namespace, Spec := spec }).1⟩ = some copy
          ∧ ∃ binding' ∈ res.bindInfoInstance.Spec.Bindings, binding'.Scope = ScopePublic
              ∧ ∃ s', w.store.secrets ⟨res.operandNamespace, binding'.Secret⟩ = some s'
                  ∧ copy.Labels = s'.Labels ∧ copy.SecretType = s'.SecretType
                  ∧ copy.Data = s'.Data ∧ copy.StringData = s'.StringData)
    ∧ (∀ pre post s, res.bindInfoInstance.Spec.Bindings = pre ++ binding :: post →
        binding.Secret ≠ "" →
        w.store.secrets ⟨res.operandNamespace, binding.Secret⟩ = some s →
        (∀ y ∈ post, y.Scope = ScopePublic → y.Secret ≠ "" →
          w.store.secrets ⟨res.operandNamespace, y.Secret⟩ = none) →
        (getBindingInfofromRequest res.bindInfoInstance
          { Name := c.Name, Namespace := c.Namespace, Spec := spec }).1 ≠ "" →
        ∃ copy, (Reconcile env key w).2.store.secrets
            ⟨c.Namespace, (getBindingInfofromRequest res.bindInfoInstance
              { Name := c.Name, Namespace := c.Namespace, Spec := spec }).1⟩ = some copy
          ∧ copy.Labels = s.Labels ∧ copy.SecretType = s.SecretType
          ∧ copy.Data = s.Data ∧ copy.StringData = s.StringData)
    ∧ (∀ cm, binding.Configmap ≠ "" →
        w.store.configMaps ⟨res.operandNamespace, binding.Configmap⟩ = some cm →
        (getBindingInfofromRequest res.bindInfoInstance
          { Name := c.Name, Namespace := c.Namespace, Spec := spec }).2 ≠ "" →
        ∃ name copy, (Reconcile env key w).2.store.configMaps ⟨c.Namespace, name⟩ = some copy
          ∧ copy.Labels = cm.Labels ∧ copy.Data = cm.Data) := by
  obtain ⟨-, hsec, hcm⟩ := Reconcile_store_of_found hnf key w res hres hfound
  obtain ⟨-, -, -, -, -, hfacts⟩ := reconcileResolve_spec env key w
  obtain ⟨-, hns, -, -⟩ := hfacts res hres
  have hjob := jobsOfConsumers_complete res.bindInfoInstance res.operandNamespace
    w.store.requests res.requestNamespaces hfound c hc hne spec hspec binding hb hpub
  refine ⟨?_, ?_, ?_⟩
  · intro s hname hsrc hreq
    obtain ⟨htk, hcopy⟩ := secretOps_targets res.bindInfoInstance res.operandNamespace
      w.store.requests res.requestNamespaces
    rw [hsec, runOps_target res.operandNamespace _ (secretOwnedBy_idem _) _ htk hcopy _ _ hne]
    obtain ⟨o, ho, -, -, s', hs', hfold⟩ := foldl_cell_some res.operandNamespace
      w.store.secrets
      ⟨c.Namespace, (getBindingInfofromRequest res.bindInfoInstance
        { Name := c.Name, Namespace := c.Namespace, Spec := spec }).1⟩ _
      (w.store.secrets ⟨c.Namespace, (getBindingInfofromRequest res.bindInfoInstance
        { Name := c.Name, Namespace := c.Namespace, Spec := spec }).1⟩)
      ⟨_, List.mem_map_of_mem (secretOp res.operandNamespace) hjob, by
        simp [secretOp, emptyArg, hname, hns, hcns, hreq], rfl, by simp [secretOp, hsrc]⟩
    obtain ⟨j, hj, rfl⟩ := List.mem_map.mp ho
    obtain ⟨-, hjb, hjp, -⟩ := jobsOfConsumers_sound _ _ _ _ j hj
    exact ⟨_, hfold, j.binding, hjb, hjp, s', hs', rfl, rfl, rfl, rfl⟩
  · intro pre post s hsplit hname hsrc hpost hreq
    obtain ⟨htk, hcopy⟩ := secretOps_targets res.bindInfoInstance res.operandNamespace
      w.store.requests res.requestNamespaces
    rw [hsec, runOps_target res.operandNamespace _ (secretOwnedBy_idem _) _ htk hcopy _ _ hne]
    obtain ⟨q, hq⟩ := foldl_cell_secret_last res.bindInfoInstance res.operandNamespace
      w.store.secrets w.store.requests pre post binding s hsplit hpub hname hsrc hpost hns
      res.requestNamespaces hfound c hc hne hcns spec hspec hreq
      (w.store.secrets ⟨c.Namespace, (getBindingInfofromRequest res.bindInfoInstance
        { Name := c.Name, Namespace := c.Namespace, Spec := spec }).1⟩)
    exact ⟨_, hq, rfl, rfl, rfl, rfl⟩
  · intro cm hname hsrc hreq
    obtain ⟨htk, hcopy⟩ := configOps_targets res.bindInfoInstance res.operandNamespace
      w.store.requests res.requestNamespaces
    refine ⟨binding.Configmap, ?_⟩
    rw [hcm, runOps_target res.operandNamespace _ (configMapOwnedBy_idem _) _ htk hcopy _ _ hne]
    obtain ⟨o, ho, -, hkey, s', hs', hfold⟩ := foldl_cell_some res.operandNamespace
      w.store.configMaps ⟨c.Namespace, binding.Configmap⟩ _
      (w.store.configMaps ⟨c.Namespace, binding.Configmap⟩)
      ⟨_, List.mem_map_of_mem (configOp res.operandNamespace) hjob, by
        simp [configOp, emptyArg, hname, hns, hcns, hreq], rfl, by simp [configOp, hsrc]⟩
    obtain ⟨j, hj, rfl⟩ := List.mem_map.mp ho
    have hsame : j.binding.Configmap = binding.Configmap :=
      congrArg NamespacedName.Name hkey
    have hs'' : w.store.configMaps ⟨res.operandNamespace, binding.Configmap⟩ = some s' := by
      rw [← hsame]; exact hs'
    rw [hsrc] at hs''
    cases hs''
    exact ⟨_, hfold, rfl, rfl⟩

/-- C6 (witness): on the sample cluster with the consumer `r1` of `c1`, whose
Request renames the secret to `my-secret`, the pass leaves in `c1` a copy of the
source configmap; and on the cluster whose BindInfo has two public bindings, for
the secrets `db-secret` and `tls-secret`, it leaves under `my-secret` a copy of
`tls-secret`, the secret of the last one. -/
theorem Reconcile_copies_present_witness :
    (∃ name copy, (Reconcile plainEnv ⟨"src", "bi"⟩
          (sampleWorld true [⟨"r1", "c1"⟩] [⟨"r1", "c1"⟩])).2.store.configMaps
          ⟨"c1", name⟩ = some copy
        ∧ copy.Labels = dbConfig.Labels ∧ copy.Data = dbConfig.Data)
    ∧ (∃ copy, (Reconcile plainEnv ⟨"src", "bi"⟩ twoSecretsWorld).2.store.secrets
          ⟨"c1", "my-secret"⟩ = some copy
        ∧ copy.Labels = tlsSecret.Labels ∧ copy.SecretType = tlsSecret.SecretType
        ∧ copy.Data = tlsSecret.Data ∧ copy.StringData = tlsSecret.StringData) :=
  ⟨(Reconcile_copies_present plainEnv (fun _ _ => rfl) ⟨"src", "bi"⟩
      (sampleWorld true [⟨"r1", "c1"⟩] [⟨"r1", "c1"⟩]) (sampleResolved [⟨"r1", "c1"⟩])
      (by decide) (by decide) ⟨"r1", "c1"⟩ (by decide) (by decide) (by decide)
      renamingRequest.Spec (by decide)
      { Scope := "public", Secret := "db-secret", Configmap := "db-cm" } (by decide)
      (by decide)).2.2 dbConfig (by decide) (by decide) (by decide),
   (Reconcile_copies_present plainEnv (fun _ _ => rfl) ⟨"src", "bi"⟩
      twoSecretsWorld twoSecretsResolved
      (by decide) (by decide) ⟨"r1", "c1"⟩ (by decide) (by decide) (by decide)
      renamingRequest.Spec (by decide)
      { Scope := "public", Secret := "tls-secret", Configmap := "" } (by decide)
      (by decide)).2.1
      [{ Scope := "public", Secret := "db-secret", Configmap := "db-cm" }] [] tlsSecret
      (by decide) (by decide) (by decide) (by decide) (by decide)⟩

/-- C6 (counterexample): four passes in which every store operation succeeds, the
Registry records consumers outside the source namespace and the public binding of
the BindInfo names a secret and a configmap that exist in the source namespace.
(1) The Request of the consumer declares no public binding: the pass returns `nil`
with phase `Completed` and leaves the secrets and configmaps as they were, none of
which is in `c1`. (2) The BindInfo has two public bindings, for `db-secret` and
`tls-secret`: the only secret of `c1` after the pass is `my-secret`, a copy of
`tls-secret`, and nothing there is a copy of `db-secret`. (3) The BindInfo is in
another namespace than the sources and `SetOwnerReference` refuses it: the secret is
copied, the configmaps are left as they were, with none in `c1`. (4) The Request of
the first of two consumers does not exist: the pass returns `nil` without invoking a
synchronizer, and the second consumer gets no copy. -/
theorem Reconcile_pairs_left_without_copy :
    ((Reconcile plainEnv ⟨"src", "bi"⟩ quietWorld).1 = none
      ∧ ((Reconcile plainEnv ⟨"src", "bi"⟩ quietWorld).2.store.bindInfos ⟨"src", "bi"⟩).map
          (fun s => s.Status.Phase) = some "Completed"
      ∧ quietWorld.store.requests ⟨"c1", "r1"⟩ = some privateRequestSpec
      ∧ quietWorld.store.secrets ⟨"src", "db-secret"⟩ = some dbSecret
      ∧ quietWorld.store.configMaps ⟨"src", "db-cm"⟩ = some dbConfig
      ∧ (Reconcile plainEnv ⟨"src", "bi"⟩ quietWorld).2.store.secrets
          = (fun k => if k = ⟨"src", "db-secret"⟩ then some dbSecret else none)
      ∧ (Reconcile plainEnv ⟨"src", "bi"⟩ quietWorld).2.store.configMaps
          = (fun k => if k = ⟨"src", "db-cm"⟩ then some dbConfig else none))
    ∧ ((Reconcile plainEnv ⟨"src", "bi"⟩ twoSecretsWorld).1 = none
      ∧ twoSecretsWorld.store.secrets ⟨"src", "db-secret"⟩ = some dbSecret
      ∧ (∀ name, (Reconcile plainEnv ⟨"src", "bi"⟩ twoSecretsWorld).2.store.secrets
            ⟨"c1", name⟩
          = if name = "my-secret" then
              some (secretCopyOf { renamingRequest with Name := "r1", Namespace := "c1" }
                tlsSecret)
            else none)
      ∧ tlsSecret.Data ≠ dbSecret.Data)
    ∧ ((Reconcile ownerRefusedEnv ⟨"ops", "bi"⟩ remoteWorld).1
          = some (.combined { Errors := [.Other 5] })
      ∧ (Reconcile ownerRefusedEnv ⟨"ops", "bi"⟩ remoteWorld).2.store.secrets
            ⟨"c1", "my-secret"⟩
          = some (secretCopyOf { renamingRequest with Name := "r1", Namespace := "c1" }
              dbSecret)
      ∧ remoteWorld.store.configMaps ⟨"src", "db-cm"⟩ = some dbConfig
      ∧ (Reconcile ownerRefusedEnv ⟨"ops", "bi"⟩ remoteWorld).2.store.configMaps
          = (fun k => if k = ⟨"src", "db-cm"⟩ then some dbConfig else none))
    ∧ ((Reconcile plainEnv ⟨"src", "bi"⟩
          (sampleWorld true [⟨"r1", "c1"⟩, ⟨"r2", "c2"⟩] [⟨"r2", "c2"⟩])).1 = none
      ∧ (Reconcile plainEnv ⟨"src", "bi"⟩
          (sampleWorld true [⟨"r1", "c1"⟩, ⟨"r2", "c2"⟩] [⟨"r2", "c2"⟩])).2.syncCalls = []
      ∧ (sampleWorld true [⟨"r1", "c1"⟩, ⟨"r2", "c2"⟩] [⟨"r2", "c2"⟩]).store.requests
            ⟨"c2", "r2"⟩ = some renamingRequest.Spec
      ∧ (Reconcile plainEnv ⟨"src", "bi"⟩
          (sampleWorld true [⟨"r1", "c1"⟩, ⟨"r2", "c2"⟩] [⟨"r2", "c2"⟩])).2.store.secrets
          = (fun k => if k = ⟨"src", "db-secret"⟩ then some dbSecret else none)
      ∧ (Reconcile plainEnv ⟨"src", "bi"⟩
          (sampleWorld true [⟨"r1", "c1"⟩, ⟨"r2", "c2"⟩] [⟨"r2", "c2"⟩])).2.store.configMaps
          = (fun k => if k = ⟨"src", "db-cm"⟩ then some dbConfig else none)) := by
  refine ⟨⟨by decide, by decide, by decide, by decide, by decide, rfl, rfl⟩,
    ⟨by decide, by decide, ?_, by decide⟩,
    ⟨by decide, by decide, by decide, rfl⟩,
    ⟨by decide, by decide, by decide, rfl, rfl⟩⟩
  intro name
  have h : (Reconcile plainEnv ⟨"src", "bi"⟩ twoSecretsWorld).2.store.secrets
      = Function.update (Function.update (Function.update (Function.update
          twoSecretsWorld.store.secrets ⟨"c1", "my-secret"⟩
            (some (secretCopyOf { renamingRequest with Name := "r1", Namespace := "c1" }
              dbSecret)))
          ⟨"src", "db-secret"⟩ (some (secretOwnedBy sampleBindInfo dbSecret)))
          ⟨"c1", "my-secret"⟩
            (some (secretCopyOf { renamingRequest with Name := "r1", Namespace := "c1" }
              tlsSecret)))
          ⟨"src", "tls-secret"⟩ (some (secretOwnedBy sampleBindInfo tlsSecret)) := by
    rfl
  rw [h]
  by_cases hn : name = "my-secret"
  · subst hn
    decide
  · simp [Function.update, hn, twoSecretsWorld, sampleStore]

/-! ## A second pass -/

theorem resolvePure_of_stored (env : Env) (key : NamespacedName) (st : Store)
    (sb : StoredBindInfo) (hsb : st.bindInfos key = some sb) :
    (resolvePure env key st).2
        = st.putBindInfo key
            { Labels := env.AddLabels (env.SetDefaultsRequestSpec key.Namespace sb.Spec) sb.Labels
              Spec := env.SetDefaultsRequestSpec key.Namespace sb.Spec
              Status := env.InitBindInfoStatus sb.Status }
    ∧ ∀ res, (resolvePure env key st).1 = .inr res →
        res.bindInfoInstance
          = { Name := key.Name, Namespace := key.Namespace
              Labels := env.AddLabels (env.SetDefaultsRequestSpec key.Namespace sb.Spec) sb.Labels
              Spec := env.SetDefaultsRequestSpec key.Namespace sb.Spec
              Status := env.InitBindInfoStatus sb.Status } := by
  unfold resolvePure
  rw [hsb]
  simp only []
  cases st.registries _ with
  | none => simp
  | some reg =>
    simp only []
    split
    · simp
    · split
      · simp
      · refine ⟨rfl, ?_⟩
        intro res hres
        simp only [Sum.inr.injEq] at hres
        subst hres
        rfl

/-- The part of a pass before the consumer loop, run on a store in which the
BindInfo already carries its defaulted spec and the Registries are the same,
ends the same way; the BindInfo in hand can differ by its labels and status. -/
theorem resolvePure_second (env : Env)
    (hD : ∀ ns s, env.SetDefaultsRequestSpec ns (env.SetDefaultsRequestSpec ns s)
      = env.SetDefaultsRequestSpec ns s)
    (key : NamespacedName) (st : Store) (sb : StoredBindInfo)
    (hsb : st.bindInfos key = some sb) (st' : Store) (l' : List (String × String))
    (stX : OperandBindInfoStatus)
    (hb' : st'.bindInfos key
      = some { Labels := l', Spec := env.SetDefaultsRequestSpec key.Namespace sb.Spec,
               Status := stX })
    (hreg : st'.registries = st.registries) :
    (∀ ret, (resolvePure env key st).1 = .inl ret → (resolvePure env key st').1 = .inl ret)
    ∧ (∀ res, (resolvePure env key st).1 = .inr res →
        ∃ res', (resolvePure env key st').1 = .inr res'
          ∧ res'.requestNamespaces = res.requestNamespaces
          ∧ res'.operandNamespace = res.operandNamespace
          ∧ res'.bindInfoInstance.Name = res.bindInfoInstance.Name
          ∧ res'.bindInfoInstance.Spec = res.bindInfoInstance.Spec) := by
  unfold resolvePure
  rw [hsb, hb', hreg]
  simp only [hD]
  cases st.registries _ with
  | none => simp
  | some reg =>
    simp only []
    split
    · simp
    · split
      · simp
      · constructor
        · intro ret h
          cases h
        · intro res hres
          simp only [Sum.inr.injEq] at hres
          subst hres
          exact ⟨_, rfl, rfl, rfl, rfl, rfl⟩

theorem Store.withCopies_congr (st : Store) (b b' : OperandBindInfo) (hname : b.Name = b'.Name)
    (ns : String) (jobs : List Job) :
    st.withCopies b ns jobs = st.withCopies b' ns jobs := by
  have h1 : secretOwnedBy b = secretOwnedBy b' := by
    funext s
    simp [secretOwnedBy, bindInfoRef, hname]
  have h2 : configMapOwnedBy b = configMapOwnedBy b' := by
    funext s
    simp [configMapOwnedBy, bindInfoRef, hname]
  simp [Store.withCopies, h1, h2]

/-- Serving the same pairs a second time leaves the secrets and the configmaps as
they are. -/
theorem Store.withCopies_idem (st : Store) (b : OperandBindInfo) (ns : String)
    (R : NamespacedName → Option OperandRequestSpec) (rs : List ReconcileRequest)
    (st' : Store)
    (hs : st'.secrets = (st.withCopies b ns (jobsOfConsumers b ns R rs)).secrets)
    (hc : st'.configMaps = (st.withCopies b ns (jobsOfConsumers b ns R rs)).configMaps) :
    (st'.withCopies b ns (jobsOfConsumers b ns R rs)).secrets = st'.secrets
    ∧ (st'.withCopies b ns (jobsOfConsumers b ns R rs)).configMaps = st'.configMaps := by
  obtain ⟨t1, c1⟩ := secretOps_targets b ns R rs
  obtain ⟨t2, c2⟩ := configOps_targets b ns R rs
  constructor
  · simp only [Store.withCopies] at hs ⊢
    rw [hs]
    exact runOps_idem ns _ (secretOwnedBy_idem b) _ t1 c1 _
  · simp only [Store.withCopies] at hc ⊢
    rw [hc]
    exact runOps_idem ns _ (configMapOwnedBy_idem b) _ t2 c2 _

theorem reconcilePure_of_inl (env : Env) (key : NamespacedName) (st : Store)
    (ret : Option Failure) (h : (resolvePure env key st).1 = .inl ret) :
    reconcilePure env key st = (ret, (resolvePure env key st).2) := by
  unfold reconcilePure
  rcases hrp : resolvePure env key st with ⟨a, st1⟩
  rw [hrp] at h
  have ha : a = .inl ret := h
  subst ha
  rfl

theorem reconcilePure_of_inr (env : Env) (key : NamespacedName) (st : Store)
    (res : Resolved) (h : (resolvePure env key st).1 = .inr res) :
    (reconcilePure env key st).1 = none
    ∧ (requestsFound res.operandNamespace (resolvePure env key st).2.requests
          res.requestNamespaces →
        (reconcilePure env key st).2
          = (((resolvePure env key st).2.withCopies res.bindInfoInstance res.operandNamespace
              (jobsOfConsumers res.bindInfoInstance res.operandNamespace
                (resolvePure env key st).2.requests res.requestNamespaces)).putBindInfo key
              { Labels := res.bindInfoInstance.Labels, Spec := res.bindInfoInstance.Spec
                Status :=
                  { Phase := BindInfoCompleted
                    RequestNamespaces := res.requestNamespaces.map (fun r => r.Namespace) } }))
    ∧ (¬ requestsFound res.operandNamespace (resolvePure env key st).2.requests
          res.requestNamespaces →
        (reconcilePure env key st).2
          = (resolvePure env key st).2.withCopies res.bindInfoInstance res.operandNamespace
              (jobsOfConsumers res.bindInfoInstance res.operandNamespace
                (resolvePure env key st).2.requests res.requestNamespaces)) := by
  unfold reconcilePure
  rcases hrp : resolvePure env key st with ⟨a, st1⟩
  rw [hrp] at h
  have ha : a = .inr res := h
  subst ha
  simp only []
  by_cases hf : requestsFound res.operandNamespace st1.requests res.requestNamespaces
  · rw [if_pos hf]
    exact ⟨rfl, fun _ => rfl, fun hn => absurd hf hn⟩
  · rw [if_neg hf]
    exact ⟨rfl, fun hh => absurd hh hf, fun _ => rfl⟩

/-- Without failing calls and with idempotent defaulting and status initialisation,
a second pass returns what the first returned and leaves the secrets, the
configmaps and the phase as the first left them. -/
theorem reconcilePure_idem (env : Env)
    (hD : ∀ ns s, env.SetDefaultsRequestSpec ns (env.SetDefaultsRequestSpec ns s)
      = env.SetDefaultsRequestSpec ns s)
    (hI : ∀ s, env.InitBindInfoStatus (env.InitBindInfoStatus s) = env.InitBindInfoStatus s)
    (key : NamespacedName) (st : Store) :
    (reconcilePure env key (reconcilePure env key st).2).1 = (reconcilePure env key st).1
    ∧ (reconcilePure env key (reconcilePure env key st).2).2.secrets
        = (reconcilePure env key st).2.secrets
    ∧ (reconcilePure env key (reconcilePure env key st).2).2.configMaps
        = (reconcilePure env key st).2.configMaps
    ∧ ((reconcilePure env key (reconcilePure env key st).2).2.bindInfos key).map
          (fun s => s.Status.Phase)
        = ((reconcilePure env key st).2.bindInfos key).map (fun s => s.Status.Phase) := by
  cases hsb : st.bindInfos key with
  | none =>
    have h1 : reconcilePure env key st = (none, st) := by
      simp [reconcilePure, resolvePure, hsb]
    simp [h1]
  | some sb =>
    obtain ⟨hst1, hb⟩ := resolvePure_of_stored env key st sb hsb
    obtain ⟨-, -, hreq1, hreg1, -⟩ := resolvePure_spec env key st
    cases ha : (resolvePure env key st).1 with
    | inl ret =>
      have hA := reconcilePure_of_inl env key st ret ha
      rw [hA]
      simp only []
      -- the stored BindInfo after the first pass
      have hb1 : (resolvePure env key st).2.bindInfos key
          = some { Labels := env.AddLabels (env.SetDefaultsRequestSpec key.Namespace sb.Spec)
                     sb.Labels
                   Spec := env.SetDefaultsRequestSpec key.Namespace sb.Spec
                   Status := env.InitBindInfoStatus sb.Status } := by
        rw [hst1]; simp [Store.putBindInfo]
      obtain ⟨hinl, -⟩ := resolvePure_second env hD key st sb hsb (resolvePure env key st).2
        _ _ hb1 hreg1
      have hB := reconcilePure_of_inl env key _ ret (hinl ret ha)
      obtain ⟨hst2, -⟩ := resolvePure_of_stored env key (resolvePure env key st).2 _ hb1
      rw [hB]
      simp only []
      rw [hst2]
      simp [Store.putBindInfo, hb1, hI]
    | inr res =>
      have hres := hb res ha
      have hspecres : res.bindInfoInstance.Spec
          = env.SetDefaultsRequestSpec key.Namespace sb.Spec := by rw [hres]
      obtain ⟨hA1, hA2, hA3⟩ := reconcilePure_of_inr env key st res ha
      -- what the second pass needs to know about the store left by the first
      have hsecond : ∀ (stA : Store) (l' : List (String × String)) (stX : OperandBindInfoStatus),
          (reconcilePure env key st).2 = stA →
          stA.bindInfos key
            = some { Labels := l', Spec := env.SetDefaultsRequestSpec key.Namespace sb.Spec,
                     Status := stX } →
          stA.registries = st.registries →
          stA.requests = (resolvePure env key st).2.requests →
          stA.secrets = ((resolvePure env key st).2.withCopies res.bindInfoInstance
              res.operandNamespace (jobsOfConsumers res.bindInfoInstance res.operandNamespace
                (resolvePure env key st).2.requests res.requestNamespaces)).secrets →
          stA.configMaps = ((resolvePure env key st).2.withCopies res.bindInfoInstance
              res.operandNamespace (jobsOfConsumers res.bindInfoInstance res.operandNamespace
                (resolvePure env key st).2.requests res.requestNamespaces)).configMaps →
          (reconcilePure env key stA).1 = none
          ∧ (reconcilePure env key stA).2.secrets = stA.secrets
          ∧ (reconcilePure env key stA).2.configMaps = stA.configMaps
          ∧ (requestsFound res.operandNamespace (resolvePure env key st).2.requests
                res.requestNamespaces →
              ((reconcilePure env key stA).2.bindInfos key).map (fun s => s.Status.Phase)
                = some BindInfoCompleted)
          ∧ (¬ requestsFound res.operandNamespace (resolvePure env key st).2.requests
                res.requestNamespaces →
              ((reconcilePure env key stA).2.bindInfos key).map (fun s => s.Status.Phase)
                = some (env.InitBindInfoStatus stX).Phase) := by
        intro stA l' stX _ hbA hregA hreqA hsecA hcmA
        obtain ⟨-, hinr⟩ := resolvePure_second env hD key st sb hsb stA l' stX hbA hregA
        obtain ⟨res', hres', hrs, hns, hname, hspec⟩ := hinr res ha
        obtain ⟨hB1, hB2, hB3⟩ := reconcilePure_of_inr env key stA res' hres'
        obtain ⟨hsec2, hcm2, hreq2, -, -⟩ := resolvePure_spec env key stA
        obtain ⟨hstB, -⟩ := resolvePure_of_stored env key stA _ hbA
        have hjobs : jobsOfConsumers res'.bindInfoInstance res'.operandNamespace
            (resolvePure env key stA).2.requests res'.requestNamespaces
            = jobsOfConsumers res.bindInfoInstance res.operandNamespace
                (resolvePure env key st).2.requests res.requestNamespaces := by
          rw [hns, hrs, hreq2, hreqA]
          exact jobsOfConsumers_congr _ _ hspec _ _ _
        have hwc : (resolvePure env key stA).2.withCopies res'.bindInfoInstance
            res'.operandNamespace (jobsOfConsumers res'.bindInfoInstance res'.operandNamespace
              (resolvePure env key stA).2.requests res'.requestNamespaces)
            = (resolvePure env key stA).2.withCopies res.bindInfoInstance res.operandNamespace
                (jobsOfConsumers res.bindInfoInstance res.operandNamespace
                  (resolvePure env key st).2.requests res.requestNamespaces) := by
          rw [hjobs, hns]
          exact Store.withCopies_congr _ _ _ hname _ _
        obtain ⟨i1, i2⟩ := Store.withCopies_idem (resolvePure env key st).2
          res.bindInfoInstance res.operandNamespace (resolvePure env key st).2.requests
          res.requestNamespaces (resolvePure env key stA).2
          (by rw [hsec2]; exact hsecA) (by rw [hcm2]; exact hcmA)
        have hfiff : requestsFound res'.operandNamespace (resolvePure env key stA).2.requests
            res'.requestNamespaces
            ↔ requestsFound res.operandNamespace (resolvePure env key st).2.requests
                res.requestNamespaces := by
          rw [hns, hrs, hreq2, hreqA]
        refine ⟨hB1, ?_, ?_, ?_, ?_⟩
        · by_cases hf : requestsFound res.operandNamespace (resolvePure env key st).2.requests
              res.requestNamespaces
          · rw [hB2 (hfiff.mpr hf), hwc]
            simp only [Store.putBindInfo]
            rw [i1, hsec2]
          · rw [hB3 (fun h => hf (hfiff.mp h)), hwc, i1, hsec2]
        · by_cases hf : requestsFound res.operandNamespace (resolvePure env key st).2.requests
              res.requestNamespaces
          · rw [hB2 (hfiff.mpr hf), hwc]
            simp only [Store.putBindInfo]
            rw [i2, hcm2]
          · rw [hB3 (fun h => hf (hfiff.mp h)), hwc, i2, hcm2]
        · intro hf
          rw [hB2 (hfiff.mpr hf)]
          simp [Store.putBindInfo]
        · intro hf
          rw [hB3 (fun h => hf (hfiff.mp h)), hwc, hstB]
          simp [Store.putBindInfo, Store.withCopies]
      by_cases hf : requestsFound res.operandNamespace (resolvePure env key st).2.requests
          res.requestNamespaces
      · have hA := hA2 hf
        obtain ⟨s1, s2, s3, s4, -⟩ := hsecond _ res.bindInfoInstance.Labels
          { Phase := BindInfoCompleted
            RequestNamespaces := res.requestNamespaces.map (fun r => r.Namespace) } rfl
          (by rw [hA, ← hspecres]; simp [Store.putBindInfo])
          (by rw [hA]; exact hreg1)
          (by rw [hA]; rfl) (by rw [hA]; rfl) (by rw [hA]; rfl)
        refine ⟨by rw [s1, hA1], s2, s3, ?_⟩
        rw [s4 hf, hA]
        simp [Store.putBindInfo]
      · have hA := hA3 hf
        obtain ⟨s1, s2, s3, -, s5⟩ := hsecond _
          (env.AddLabels (env.SetDefaultsRequestSpec key.Namespace sb.Spec) sb.Labels)
          (env.InitBindInfoStatus sb.Status) rfl
          (by rw [hA, hst1]; simp [Store.putBindInfo, Store.withCopies])
          (by rw [hA]; exact hreg1)
          (by rw [hA]; rfl) (by rw [hA]) (by rw [hA])
        refine ⟨by rw [s1, hA1], s2, s3, ?_⟩
        rw [s5 hf, hA, hst1]
        simp [Store.putBindInfo, Store.withCopies, hI]


/-- C10 (amended): when no call fails and the defaulting and status-initialisation
helpers are idempotent, running `Reconcile` a second time right after a first run,
for any store and any key, returns the same error or success as the first run and
leaves every secret and configmap of the store (name, labels, payload, owners) and
the phase of the BindInfo as the first run left them. -/
theorem Reconcile_idempotent (env : Env) (hnf : NoFaults env)
    (hD : ∀ ns s, env.SetDefaultsRequestSpec ns (env.SetDefaultsRequestSpec ns s)
      = env.SetDefaultsRequestSpec ns s)
    (hI : ∀ s, env.InitBindInfoStatus (env.InitBindInfoStatus s) = env.InitBindInfoStatus s)
    (key : NamespacedName) (w : World) :
    (Reconcile env key (Reconcile env key w).2).1 = (Reconcile env key w).1
    ∧ (Reconcile env key (Reconcile env key w).2).2.store.secrets
        = (Reconcile env key w).2.store.secrets
    ∧ (Reconcile env key (Reconcile env key w).2).2.store.configMaps
        = (Reconcile env key w).2.store.configMaps
    ∧ ((Reconcile env key (Reconcile env key w).2).2.store.bindInfos key).map
          (fun s => s.Status.Phase)
        = ((Reconcile env key w).2.store.bindInfos key).map (fun s => s.Status.Phase) := by
  obtain ⟨a1, a2⟩ := Reconcile_noFaults hnf key w
  obtain ⟨b1, b2⟩ := Reconcile_noFaults hnf key (Reconcile env key w).2
  obtain ⟨i1, i2, i3, i4⟩ := reconcilePure_idem env hD hI key w.store
  rw [b1, b2, a1, a2]
  exact ⟨i1, i2, i3, i4⟩

/-- C10 (witness): on the sample cluster with three consumers, a second pass
returns `nil` like the first and leaves the secrets, the configmaps and the phase
as they were after the first. -/
theorem Reconcile_idempotent_witness :
    (Reconcile plainEnv ⟨"src", "bi"⟩
        (Reconcile plainEnv ⟨"src", "bi"⟩
          (sampleWorld true threeConsumers threeConsumers)).2).1
      = (Reconcile plainEnv ⟨"src", "bi"⟩ (sampleWorld true threeConsumers threeConsumers)).1
    ∧ (Reconcile plainEnv ⟨"src", "bi"⟩
        (Reconcile plainEnv ⟨"src", "bi"⟩
          (sampleWorld true threeConsumers threeConsumers)).2).2.store.secrets
      = (Reconcile plainEnv ⟨"src", "bi"⟩
          (sampleWorld true threeConsumers threeConsumers)).2.store.secrets
    ∧ (Reconcile plainEnv ⟨"src", "bi"⟩
        (Reconcile plainEnv ⟨"src", "bi"⟩
          (sampleWorld true threeConsumers threeConsumers)).2).2.store.configMaps
      = (Reconcile plainEnv ⟨"src", "bi"⟩
          (sampleWorld true threeConsumers threeConsumers)).2.store.configMaps
    ∧ ((Reconcile plainEnv ⟨"src", "bi"⟩
        (Reconcile plainEnv ⟨"src", "bi"⟩
          (sampleWorld true threeConsumers threeConsumers)).2).2.store.bindInfos
          ⟨"src", "bi"⟩).map (fun s => s.Status.Phase)
      = ((Reconcile plainEnv ⟨"src", "bi"⟩
          (sampleWorld true threeConsumers threeConsumers)).2.store.bindInfos
          ⟨"src", "bi"⟩).map (fun s => s.Status.Phase) :=
  Reconcile_idempotent plainEnv (fun _ _ => rfl) (fun _ _ => rfl)
    (fun s => by
      show (if (if s.Phase = "" then { s with Phase := "Init" } else s).Phase = "" then _ else _)
        = _
      by_cases h : s.Phase = ""
      · simp [h]
      · simp [h])
    ⟨"src", "bi"⟩ (sampleWorld true threeConsumers threeConsumers)

/-- C10 (counterexample): on the sample cluster with one consumer, whose BindInfo is
in the namespace `src` of the objects it shares, where secrets of namespace `c1` can
be created but not updated and nothing changes between the two runs: the first pass
creates the copy, returns `nil` and sets the phase `Completed`; the second pass finds
the copy, fails to update it, returns the combined error and sets the phase
`Failed`. -/
theorem Reconcile_second_pass_differs_when_update_fails :
    (Reconcile updateDeniedEnv ⟨"src", "bi"⟩
        (sampleWorld true [⟨"r1", "c1"⟩] [⟨"r1", "c1"⟩])).1 = none
    ∧ ((Reconcile updateDeniedEnv ⟨"src", "bi"⟩
          (sampleWorld true [⟨"r1", "c1"⟩] [⟨"r1", "c1"⟩])).2.store.bindInfos
        ⟨"src", "bi"⟩).map (fun s => s.Status.Phase) = some "Completed"
    ∧ (Reconcile updateDeniedEnv ⟨"src", "bi"⟩
        (Reconcile updateDeniedEnv ⟨"src", "bi"⟩
          (sampleWorld true [⟨"r1", "c1"⟩] [⟨"r1", "c1"⟩])).2).1
        = some (.combined { Errors := [.Other 3] })
    ∧ ((Reconcile updateDeniedEnv ⟨"src", "bi"⟩
          (Reconcile updateDeniedEnv ⟨"src", "bi"⟩
            (sampleWorld true [⟨"r1", "c1"⟩] [⟨"r1", "c1"⟩])).2).2.store.bindInfos
        ⟨"src", "bi"⟩).map (fun s => s.Status.Phase) = some "Failed" := by
  decide

end Odlm
